import Mathlib

/-! MTProto handshake client: framing, plain envelope and handshake.

A shallow embedding of `mtproto.go` (package `mtproto`): the session record
`MTProto`, the functions `SendPacket`, `Read`, `Handshake`, `setGAB` and
`setSalt`, and the properties of the wire framing, of the plain envelope and of
the handshake state machine.

Bytes are `Fin 256`.  Go `int` values that stay far below `2^63` are `Nat`;
conversions to `int32` are written out with an explicit wrap-around.
-/

namespace Mtproto

set_option maxRecDepth 100000

/-! ## Bytes and little-endian integers -/

/-- One octet. -/
abbrev Byte := Fin 256

/-- Go conversion `byte(n)`: keep the low eight bits. -/
def toByte (n : Nat) : Byte := ⟨n % 256, Nat.mod_lt _ (by decide)⟩

/-- The `n` low-order bytes of `v`, least significant first
(`binary.LittleEndian.PutUint32` / `PutUint64` for `n = 4`, `8`). -/
def leBytes : Nat → Nat → List Byte
  | 0, _ => []
  | n + 1, v => toByte v :: leBytes n (v / 256)

/-- The number a byte string denotes, least significant byte first
(`binary.LittleEndian.Uint32` / `Uint64`). -/
def leNat : List Byte → Nat
  | [] => 0
  | b :: bs => b.val + 256 * leNat bs

/-- Go conversion `int32(v)`: wrap into `[-2^31, 2^31)`. -/
def toInt32 (v : Int) : Int := (v + 2 ^ 31) % 2 ^ 32 - 2 ^ 31

/-- Modelled from the spec: `EncodeInt` is not in the source file; per the wire
format ("all multi-byte integers little-endian") it writes the four bytes of the
two's-complement form of an `int32`, least significant first. -/
def EncodeInt (v : Int) : List Byte := leBytes 4 (v % 2 ^ 32).toNat

/-- Modelled from the spec: `EncodeLong` is not in the source file; it writes the
eight bytes of a 64-bit value, least significant first.  The value is given by
its bit pattern as a natural number. -/
def EncodeLong (v : Nat) : List Byte := leBytes 8 (v % 2 ^ 64)

/-- Go `copy(dst[off:], src)`: overwrite `dst` from index `off` with as many
bytes of `src` as fit; the length of `dst` never changes. -/
def copyAt (dst : List Byte) (off : Nat) (src : List Byte) : List Byte :=
  dst.take off ++ src.take (dst.length - off) ++ dst.drop (off + src.length)

/-- Go `make([]byte, n)`: `n` zero bytes. -/
def zeros (n : Nat) : List Byte := List.replicate n 0

/-- Go `big.Int.Bytes` on the magnitude `n`, with `fuel` division steps: the
big-endian digits in base 256 without leading zeros, accumulated in `acc`. -/
def natBytesBE : Nat → Nat → List Byte → List Byte
  | 0, _, acc => acc
  | fuel + 1, n, acc => if n = 0 then acc else natBytesBE fuel (n / 256) (toByte n :: acc)

/-- Go `(*big.Int).Bytes()`: the big-endian bytes of the absolute value; the
empty slice for zero, and never a leading zero byte. -/
def bigBytes (z : Int) : List Byte := natBytesBE z.natAbs z.natAbs []

/-- Modelled from the spec: `Xor` is not in the source file; byte-wise exclusive
or of the destination with the source, over the length of the destination
(bytes the source lacks leave the destination unchanged). -/
def Xor : List Byte → List Byte → List Byte
  | [], _ => []
  | d :: ds, [] => d :: ds
  | d :: ds, s :: ss => toByte (d.val ^^^ s.val) :: Xor ds ss

/-! ## Errors, decoded values, connection and session -/

/-- The error values the functions return.  The constructors up to `badMessageId`
stand for the messages built in `Read`, the next eight for the messages built in
`Handshake`; `transport` is an error reported by the connection, `endOfStream` the
connection running dry, `external` an error returned by a collaborator
(`AES256IGE_decrypt`, `DecodePacket`), `shortRead` a decoder running off the
buffer. -/
inductive Error where
  | transport (code : Nat)
  | endOfStream
  | external (code : Nat)
  | shortRead
  | serverError (code : Int)
  | tooSmall (size : Nat)
  | lengthMismatch (declared : Int) (expected : Int)
  | badMessageId (low : Nat)
  | expectedResPQ
  | nonceMismatch
  | fingerprintMissing
  | expectedServerDHParamsOk
  | serverNonceMismatch
  | expectedServerDHInnerData
  | expectedDHGenOk
  | newNonceHashMismatch
  deriving DecidableEq, Repr

/-- The fields of `TL_resPQ` that `Handshake` reads. -/
structure TL_resPQ where
  nonce : List Byte
  server_nonce : List Byte
  pq : Int
  fingerprints : List Nat
  deriving DecidableEq, Repr

/-- The fields of `TL_server_DH_params_ok` that `Handshake` reads. -/
structure TL_server_DH_params_ok where
  nonce : List Byte
  server_nonce : List Byte
  encrypted_answer : List Byte
  deriving DecidableEq, Repr

/-- The fields of `TL_server_DH_inner_data` that `Handshake` reads. -/
structure TL_server_DH_inner_data where
  nonce : List Byte
  server_nonce : List Byte
  g : Int
  dh_prime : Int
  g_a : Int
  deriving DecidableEq, Repr

/-- The fields of `TL_dh_gen_ok` that `Handshake` reads. -/
structure TL_dh_gen_ok where
  nonce : List Byte
  server_nonce : List Byte
  new_nonce_hash1 : List Byte
  deriving DecidableEq, Repr

/-- The field `data interface{}`: nothing decoded yet, one of the four variants
`Handshake` expects, or a value of any other type (identified by a tag). -/
inductive TLData where
  | nil
  | resPQ (v : TL_resPQ)
  | server_DH_params_ok (v : TL_server_DH_params_ok)
  | server_DH_inner_data (v : TL_server_DH_inner_data)
  | dh_gen_ok (v : TL_dh_gen_ok)
  | other (tag : Nat)
  deriving DecidableEq, Repr

/-- What the transport does on one call of `conn.Read`: hand over at most
`extra + 1` bytes (a TCP read of a non-empty buffer returns at least one byte),
or report an error. -/
inductive ReadStep where
  | deliver (extra : Nat)
  | fail (e : Error)
  deriving DecidableEq, Repr

/-- The connection `*net.TCPConn`, seen from the client: the bytes the peer will
deliver, the way the transport cuts them into reads (when the schedule is used
up, a read is served in full), the outcome of the coming writes (when used up, a
write succeeds), and the byte strings written so far, oldest first. -/
structure Conn where
  input : List Byte
  sched : List ReadStep
  wsched : List (Option Error)
  output : List (List Byte)
  deriving DecidableEq, Repr

/-- The record `MTProto`.  `tick` is not a field of the Go struct: it counts the
calls made so far to the generators `GenerateMessageId` and `GenerateNonce`, whose
results the environment supplies per call. -/
structure MTProto where
  conn : Conn
  g_ab : Option Int
  authKey : List Byte
  authKeyHash : List Byte
  serverSalt : List Byte
  encrypted : Bool
  buf : List Byte
  size : Nat
  off : Nat
  level : Nat
  messageId : Nat
  seqNo : Int
  data : TLData
  tick : Nat
  deriving DecidableEq, Repr

/-- The packet read buffer of the spec's data model (byte sequence, cursor,
nesting level) together with the decoded value: the part of the session the
decoder `DecodePacket` works on. -/
structure Cursor where
  buf : List Byte
  size : Nat
  off : Nat
  level : Nat
  data : TLData
  deriving DecidableEq, Repr

/-- The functions and constants `mtproto.go` uses but does not define, taken as
parameters.  `GenerateMessageId` and `GenerateNonce` (first argument) are indexed
by the number of generator calls made before; `AES256IGE_decrypt` and
`AES256IGE_encrypt` return a byte string and an error, as in Go. -/
structure Env where
  telegramPublicKey_FP : Nat
  GenerateMessageId : Nat → Nat
  GenerateNonce : Nat → Nat → List Byte
  Sha1 : List Byte → List Byte
  RSAEncode : List Byte → List Byte
  AES256IGE_decrypt : List Byte → List Byte → List Byte → List Byte × Option Error
  AES256IGE_encrypt : List Byte → List Byte → List Byte → List Byte × Option Error
  SplitPQ : Int → Int × Int
  MakeGAB : Int → Int → Int → Int × Int × Int
  Encode_TL_req_pq : List Byte → List Byte
  Encode_TL_p_q_inner_data : Int → Int → Int → List Byte → List Byte → List Byte → List Byte
  Encode_TL_req_DH_params : List Byte → List Byte → Int → Int → Nat → List Byte → List Byte
  Encode_TL_client_DH_inner_data : List Byte → List Byte → Int → Int → List Byte
  Encode_TL_set_client_DH_params : List Byte → List Byte → List Byte → List Byte
  DecodePacket : Cursor → Cursor × Option Error

/-- The connection data of the session: the five fields the handshake
installs. -/
def MTProto.keys (m : MTProto) : Option Int × List Byte × List Byte × List Byte × Bool :=
  (m.g_ab, m.authKey, m.authKeyHash, m.serverSalt, m.encrypted)

/-! ## Connection primitives -/

/-- Hand over the first `k` pending bytes, or `endOfStream` when none is left. -/
def Conn.take (c : Conn) (k : Nat) : Conn × List Byte × Option Error :=
  if c.input = [] then (c, [], some Error.endOfStream)
  else ({ c with input := c.input.drop k }, c.input.take k, none)

/-- The call `conn.Read(b)` with `len(b) = k`: the new connection, the bytes
stored at the front of `b`, and the error.  A read into an empty buffer returns
at once; otherwise the next schedule entry decides. -/
def Conn.Read (c : Conn) (k : Nat) : Conn × List Byte × Option Error :=
  if k = 0 then (c, [], none)
  else
    match c.sched with
    | [] => c.take k
    | ReadStep.fail e :: rest => ({ c with sched := rest }, [], some e)
    | ReadStep.deliver extra :: rest => Conn.take { c with sched := rest } (min k (extra + 1))

/-- The call `conn.Write(x)`: on success `x` is appended to the output. -/
def Conn.Write (c : Conn) (x : List Byte) : Conn × Option Error :=
  match c.wsched with
  | [] => ({ c with output := c.output ++ [x] }, none)
  | none :: rest => ({ c with wsched := rest, output := c.output ++ [x] }, none)
  | some e :: rest => ({ c with wsched := rest }, some e)

/-- The schedule never reports a transport error. -/
def noFail (s : List ReadStep) : Bool :=
  s.all fun st => match st with
    | ReadStep.deliver _ => true
    | ReadStep.fail _ => false

/-- The number of bytes a read of `k > 0` bytes obtains under schedule `s` when
enough input is pending. -/
def chunkOf (s : List ReadStep) (k : Nat) : Nat :=
  match s with
  | ReadStep.deliver extra :: _ => min k (extra + 1)
  | _ => k

/-- The second read of the schedule, the one that fetches the three further
header bytes of a long frame, is not cut short. -/
def headerWhole (s : List ReadStep) : Bool :=
  match s with
  | _ :: ReadStep.deliver extra :: _ => decide (2 ≤ extra)
  | _ => true

/-! ## Sending: plain envelope and length header -/

/-- Lines 75-80 of `SendPacket`: put the length header in front of the frame
body `x`.  The word count `len(x)/4` goes into one byte when below 127, else
into `EncodeInt(int32(size<<8|127))`. -/
def addLengthHeader (x : List Byte) : List Byte :=
  let size := x.length / 4
  if size < 127 then [toByte size] ++ x
  else EncodeInt (toInt32 ((size <<< 8 ||| 127 : Nat) : Int)) ++ x

/-- Lines 64-73 of `SendPacket`: the frame body.  On an encrypted session
nothing is appended (the branch is a TODO); otherwise the plain envelope
`EncodeLong(0) ++ EncodeLong(messageId) ++ EncodeInt(int32(len(msg))) ++ msg`. -/
def envelope (messageId : Nat) (encrypted : Bool) (msg : List Byte) : List Byte :=
  if encrypted then []
  else EncodeLong 0 ++ EncodeLong messageId ++ EncodeInt (toInt32 (msg.length : Int)) ++ msg

/-- The function `SendPacket`: build the body, add the header, write once.  On
a plain session the call of `GenerateMessageId` advances `tick`. -/
def SendPacket (E : Env) (msg : List Byte) (m : MTProto) : MTProto × Option Error :=
  let x := envelope (E.GenerateMessageId m.tick) m.encrypted msg
  let m := if m.encrypted then m else { m with tick := m.tick + 1 }
  let x := addLengthHeader x
  let w := m.conn.Write x
  ({ m with conn := w.1 }, w.2)

/-! ## Receiving: frame, decoders, envelope -/

/-- The loop of lines 281-287: while `left > 0`, read into `m.buf[m.size-left:]`
and subtract the number of bytes read.  Every successful read returns at least
one byte, so `fuel = left` iterations are enough. -/
def fillLoop : Nat → MTProto → Nat → MTProto × Option Error
  | 0, m, _ => (m, none)
  | fuel + 1, m, left =>
    if 0 < left then
      match m.conn.Read (m.buf.length - (m.size - left)) with
      | (c, _, some e) => ({ m with conn := c }, some e)
      | (c, d, none) =>
        fillLoop fuel { m with conn := c, buf := copyAt m.buf (m.size - left) d } (left - d.length)
    else (m, none)

/-- Lines 279-288 of `Read` for a frame size already decoded: allocate the
buffer, fill it, reset the cursor. -/
def readBody (m : MTProto) (size : Nat) : MTProto × Option Error :=
  match fillLoop size { m with size := size, buf := zeros size } size with
  | (m, some e) => (m, some e)
  | (m, none) => ({ m with off := 0 }, none)

/-- Lines 262-288 of `Read`: read the one-byte header; when it is 127 or more
read three further bytes with a single call of `conn.Read`; then read the
body. -/
def readFrame (m : MTProto) : MTProto × Option Error :=
  match m.conn.Read 1 with
  | (c, _, some e) => ({ m with conn := c }, some e)
  | (c, d, none) =>
    let b := copyAt (zeros 1) 0 d
    let b0 := (b.getD 0 0).val
    if b0 < 127 then readBody { m with conn := c } (b0 <<< 2)
    else
      match c.Read 3 with
      | (c, _, some e) => ({ m with conn := c }, some e)
      | (c, d, none) =>
        let b := copyAt (zeros 3) 0 d
        readBody { m with conn := c }
          (((b.getD 0 0).val ||| (b.getD 1 0).val <<< 8 ||| (b.getD 2 0).val <<< 16) <<< 2)

/-- Modelled from the spec: `DecodeLong` is not in the source file; it reads a
fixed-size 64-bit little-endian integer at the cursor and advances the cursor
past it, or fails (value 0) when fewer than eight bytes are left. -/
def DecodeLong (m : MTProto) : MTProto × Nat × Option Error :=
  if m.off + 8 ≤ m.size then
    ({ m with off := m.off + 8 }, leNat ((m.buf.drop m.off).take 8), none)
  else (m, 0, some Error.shortRead)

/-- Modelled from the spec: `DecodeInt` is not in the source file; it reads a
fixed-size signed 32-bit little-endian integer at the cursor and advances the
cursor past it, or fails (value 0) when fewer than four bytes are left. -/
def DecodeInt (m : MTProto) : MTProto × Int × Option Error :=
  if m.off + 4 ≤ m.size then
    ({ m with off := m.off + 4 }, toInt32 (leNat ((m.buf.drop m.off).take 4) : Nat), none)
  else (m, 0, some Error.shortRead)

/-- The method `DecodePacket`: the environment's decoder applied to the packet
buffer, cursor, nesting level and decoded value of the session. -/
def DecodePacket (E : Env) (m : MTProto) : MTProto × Option Error :=
  match E.DecodePacket ⟨m.buf, m.size, m.off, m.level, m.data⟩ with
  | (c, e) => ({ m with buf := c.buf, size := c.size, off := c.off, level := c.level, data := c.data }, e)

/-- Lines 290-328 of `Read`, on the frame just read: the special sizes, then
the auth-key-id, and for a zero id the plain envelope. -/
def parseFrame (E : Env) (m : MTProto) : MTProto × Option Error :=
  if m.size = 4 then (m, some (Error.serverError (toInt32 (leNat m.buf : Nat))))
  else if m.size ≤ 8 then (m, some (Error.tooSmall m.size))
  else
    match DecodeLong m with
    | (m, authKeyHash, _) =>
      if authKeyHash = 0 then
        match DecodeLong m with
        | (m, messageId, some e) => ({ m with messageId := messageId }, some e)
        | (m, messageId, none) =>
          let m := { m with messageId := messageId }
          match DecodeInt m with
          | (m, _, some e) => (m, some e)
          | (m, messageLen, none) =>
            if messageLen ≠ (m.size : Int) - 20 then
              (m, some (Error.lengthMismatch messageLen ((m.size : Int) - 20)))
            else
              let mod := m.messageId &&& 3
              if mod ≠ 1 ∧ mod ≠ 3 then (m, some (Error.badMessageId mod))
              else DecodePacket E { m with seqNo := 0, level := 0 }
      else (m, none)

/-- The function `Read`. -/
def Read (E : Env) (m : MTProto) : MTProto × Option Error :=
  match readFrame m with
  | (m, some e) => (m, some e)
  | (m, none) => parseFrame E m

/-! ## Handshake -/

/-- Go slice expression `s[lo:hi]`; `none` stands for the run-time panic "slice
bounds out of range".  Bounds are checked against the length (every slice taken
here is one whose capacity equals its length). -/
def slice? (s : List Byte) (lo hi : Nat) : Option (List Byte) :=
  if lo ≤ hi ∧ hi ≤ s.length then some ((s.drop lo).take (hi - lo)) else none

/-- How a call of `Handshake` ends: it returns `nil`, returns an error, or
panics (index or slice bounds out of range). -/
inductive Outcome where
  | ok
  | err (e : Error)
  | panic
  deriving DecidableEq, Repr

/-- The calls `Handshake` makes, and the values of `m.data` its type assertions
look at (`inspect`), in program order. -/
inductive Event where
  | sendPacket (msg : List Byte)
  | read
  | inspect (d : TLData)
  | splitPQ (pq : Int)
  | rsaEncode (x : List Byte)
  | aesDecrypt (data key iv : List Byte)
  | decodePacket
  | makeGAB (g g_a dh_prime : Int)
  | aesEncrypt (x key iv : List Byte)
  | setGAB (g_ab : Int)
  | setSalt (s : List Byte)
  deriving DecidableEq, Repr

/-- The result of running `Handshake`: the session as it is left, the way the
call ended, and the calls it made. -/
structure Run where
  m : MTProto
  outcome : Outcome
  trace : List Event
  deriving DecidableEq, Repr

/-- Record an event in front of what follows. -/
def emit (ev : Event) (r : Run) : Run := { r with trace := ev :: r.trace }

/-- Continue with the value, or panic in session `m` when there is none. -/
def orPanic {α : Type} (o : Option α) (m : MTProto) (k : α → Run) : Run :=
  match o with
  | none => ⟨m, Outcome.panic, []⟩
  | some a => k a

/-- Go's `err = f(); if err != nil { return err }`: stop with the error in the
session the call left, or continue in it. -/
def call (r : MTProto × Option Error) (k : MTProto → Run) : Run :=
  match r with
  | (m, some e) => ⟨m, Outcome.err e, []⟩
  | (m, none) => k m

/-- The method `setGAB`; the flag is `false` when `m.authKey[0]` panics (index
out of range on the empty slice) or the slice of the hash does, which happens
after the first two assignments. -/
def setGAB (E : Env) (g_ab : Int) (m : MTProto) : MTProto × Bool :=
  let m := { m with g_ab := some g_ab, authKey := bigBytes g_ab }
  match m.authKey with
  | [] => (m, false)
  | a0 :: rest =>
    let m := if a0 = 0 then { m with authKey := rest } else m
    match slice? (E.Sha1 m.authKey) 12 20 with
    | none => (m, false)
    | some h => ({ m with authKeyHash := h, encrypted := decide (g_ab ≠ 0) }, true)

/-- The method `setSalt`. -/
def setSalt (s : List Byte) (m : MTProto) : MTProto := { m with serverSalt := s }

/-- Lines 206-209 of `Handshake`: `authKey := g_ab.Bytes()`, then drop a leading
zero byte; `none` when `authKey[0]` panics on the empty slice. -/
def authKeyOf? (g_ab : Int) : Option (List Byte) :=
  match bigBytes g_ab with
  | [] => none
  | a0 :: rest => some (if a0 = 0 then rest else a0 :: rest)

/-- Lines 210-214 of `Handshake`: `t4 = nonceSecond || 1 || Sha1(authKey)[0:8]`
built by `copy` into 41 zero bytes, and `nonceHash1 = Sha1(t4)[4:20]`. -/
def nonceHash1? (E : Env) (nonceSecond authKey : List Byte) : Option (List Byte) :=
  let t4 := copyAt (copyAt (zeros (32 + 1 + 8)) 0 nonceSecond) 32 [1]
  match slice? (E.Sha1 authKey) 0 8 with
  | none => none
  | some h8 => slice? (E.Sha1 (copyAt t4 33 h8)) 4 20

/-- Lines 215-217 of `Handshake`: eight zero bytes, overwritten with
`nonceSecond[:8]`, then `Xor` with `nonceServer[:8]`. -/
def serverSalt? (nonceSecond nonceServer : List Byte) : Option (List Byte) :=
  match slice? nonceSecond 0 8 with
  | none => none
  | some ns8 =>
    match slice? nonceServer 0 8 with
    | none => none
    | some nv8 => some (Xor (copyAt (zeros 8) 0 ns8) nv8)

/-- Lines 221-223 of `Handshake`: the buffer handed to `AES256IGE_encrypt`, of
length `20+len(innerData2)+(16-((20+len(innerData2))%16))&15` (in Go `&` binds
tighter than `+`), holding the hash at 0 and the data at 20. -/
def padForAES (E : Env) (innerData2 : List Byte) : List Byte :=
  let x := zeros (20 + innerData2.length + ((16 - ((20 + innerData2.length) % 16)) &&& 15))
  let x := copyAt x 0 (E.Sha1 innerData2)
  copyAt x 20 innerData2

/-- Lines 156-179 of `Handshake`: the temporary AES key and IV, built by `copy`
from the three hashes and the second nonce. -/
def tmpAES? (E : Env) (nonceSecond nonceServer : List Byte) : Option (List Byte × List Byte) :=
  let t1 := copyAt (copyAt (zeros 48) 0 nonceSecond) 32 nonceServer
  let hash1 := E.Sha1 t1
  let t2 := copyAt (copyAt (zeros 48) 0 nonceServer) 16 nonceSecond
  let hash2 := E.Sha1 t2
  let t3 := copyAt (copyAt (zeros 64) 0 nonceSecond) 32 nonceSecond
  let hash3 := E.Sha1 t3
  let tmpAESKey := copyAt (zeros 32) 0 hash1
  match slice? hash2 0 12 with
  | none => none
  | some h2a =>
    let tmpAESKey := copyAt tmpAESKey 20 h2a
    match slice? hash2 12 20 with
    | none => none
    | some h2b =>
      let tmpAESIV := copyAt (zeros 32) 0 h2b
      let tmpAESIV := copyAt tmpAESIV 8 hash3
      match slice? nonceSecond 0 4 with
      | none => none
      | some ns4 => some (tmpAESKey, copyAt tmpAESIV 28 ns4)

/-- Lines 232-255 of `Handshake`: read the reply to `set_client_DH_params`,
expect `dh_gen_ok`, check both nonces and the confirmation hash, install the
key and the salt. -/
def confirmKey (E : Env) (nonceFirst nonceServer nonceHash1 serverSalt : List Byte)
    (g_ab : Int) (m : MTProto) : Run :=
  emit Event.read <|
  call (Read E m) fun m =>
  emit (Event.inspect m.data) <|
  match m.data with
  | TLData.dh_gen_ok dhg =>
    if nonceFirst ≠ dhg.nonce then ⟨m, Outcome.err Error.nonceMismatch, []⟩
    else if nonceServer ≠ dhg.server_nonce then ⟨m, Outcome.err Error.serverNonceMismatch, []⟩
    else if nonceHash1 ≠ dhg.new_nonce_hash1 then ⟨m, Outcome.err Error.newNonceHashMismatch, []⟩
    else
      emit (Event.setGAB g_ab) <|
      match setGAB E g_ab m with
      | (m, false) => ⟨m, Outcome.panic, []⟩
      | (m, true) => emit (Event.setSalt serverSalt) ⟨setSalt serverSalt m, Outcome.ok, []⟩
  | _ => ⟨m, Outcome.err Error.expectedDHGenOk, []⟩

/-- Lines 205-230 of `Handshake`: compute the shared secret, the auth key, the
confirmation hash and the salt, encrypt `client_DH_inner_data` (the error of
`AES256IGE_encrypt` is overwritten unread) and send `set_client_DH_params`. -/
def exchangeKeys (E : Env) (nonceFirst nonceSecond nonceServer tmpAESKey tmpAESIV : List Byte)
    (dhi : TL_server_DH_inner_data) (m : MTProto) : Run :=
  emit (Event.makeGAB dhi.g dhi.g_a dhi.dh_prime) <|
  match E.MakeGAB dhi.g dhi.g_a dhi.dh_prime with
  | (_, g_b, g_ab) =>
    orPanic (authKeyOf? g_ab) m fun authKey =>
    orPanic (nonceHash1? E nonceSecond authKey) m fun nonceHash1 =>
    orPanic (serverSalt? nonceSecond nonceServer) m fun serverSalt =>
    let innerData2 := E.Encode_TL_client_DH_inner_data nonceFirst nonceServer 0 g_b
    let x := padForAES E innerData2
    emit (Event.aesEncrypt x tmpAESKey tmpAESIV) <|
    match E.AES256IGE_encrypt x tmpAESKey tmpAESIV with
    | (encryptedData2, _) =>
      let req := E.Encode_TL_set_client_DH_params nonceFirst nonceServer encryptedData2
      emit (Event.sendPacket req) <|
      call (SendPacket E req m) fun m =>
      confirmKey E nonceFirst nonceServer nonceHash1 serverSalt g_ab m

/-- Lines 156-203 of `Handshake`: derive the temporary AES key and IV, decrypt
the server's answer, decode it from offset 20 and expect `server_DH_inner_data`
with both nonces right. -/
def openAnswer (E : Env) (nonceFirst nonceSecond nonceServer : List Byte)
    (dh : TL_server_DH_params_ok) (m : MTProto) : Run :=
  orPanic (tmpAES? E nonceSecond nonceServer) m fun (tmpAESKey, tmpAESIV) =>
  emit (Event.aesDecrypt dh.encrypted_answer tmpAESKey tmpAESIV) <|
  match E.AES256IGE_decrypt dh.encrypted_answer tmpAESKey tmpAESIV with
  | (_, some e) => ⟨m, Outcome.err e, []⟩
  | (decodedData, none) =>
    orPanic (slice? decodedData 20 decodedData.length) m fun body =>
    let m := { m with buf := body, size := body.length, off := 0, level := 0 }
    emit Event.decodePacket <|
    call (DecodePacket E m) fun m =>
    emit (Event.inspect m.data) <|
    match m.data with
    | TLData.server_DH_inner_data dhi =>
      if nonceFirst ≠ dhi.nonce then ⟨m, Outcome.err Error.nonceMismatch, []⟩
      else if nonceServer ≠ dhi.server_nonce then ⟨m, Outcome.err Error.serverNonceMismatch, []⟩
      else exchangeKeys E nonceFirst nonceSecond nonceServer tmpAESKey tmpAESIV dhi m
    | _ => ⟨m, Outcome.err Error.expectedServerDHInnerData, []⟩

/-- Lines 124-155 of `Handshake`: factor `pq`, draw the second nonce, RSA-encrypt
`p_q_inner_data`, send `req_DH_params` and expect `server_DH_params_ok` with both
nonces right. -/
def requestDHParams (E : Env) (nonceFirst : List Byte) (res : TL_resPQ) (m : MTProto) : Run :=
  emit (Event.splitPQ res.pq) <|
  match E.SplitPQ res.pq with
  | (p, q) =>
    let nonceSecond := E.GenerateNonce m.tick 32
    let m := { m with tick := m.tick + 1 }
    let nonceServer := res.server_nonce
    let innerData1 := E.Encode_TL_p_q_inner_data res.pq p q nonceFirst nonceServer nonceSecond
    let x := copyAt (copyAt (zeros 255) 0 (E.Sha1 innerData1)) 20 innerData1
    emit (Event.rsaEncode x) <|
    let encryptedData1 := E.RSAEncode x
    let req := E.Encode_TL_req_DH_params nonceFirst nonceServer p q E.telegramPublicKey_FP encryptedData1
    emit (Event.sendPacket req) <|
    call (SendPacket E req m) fun m =>
    emit Event.read <|
    call (Read E m) fun m =>
    emit (Event.inspect m.data) <|
    match m.data with
    | TLData.server_DH_params_ok dh =>
      if nonceFirst ≠ dh.nonce then ⟨m, Outcome.err Error.nonceMismatch, []⟩
      else if nonceServer ≠ dh.server_nonce then ⟨m, Outcome.err Error.serverNonceMismatch, []⟩
      else openAnswer E nonceFirst nonceSecond nonceServer dh m
    | _ => ⟨m, Outcome.err Error.expectedServerDHParamsOk, []⟩

/-- The method `Handshake` (lines 90-256); lines 94-122 are here, the later
rounds in `requestDHParams`, `openAnswer`, `exchangeKeys` and `confirmKey`. -/
def Handshake (E : Env) (m : MTProto) : Run :=
  let nonceFirst := E.GenerateNonce m.tick 16
  let m := { m with tick := m.tick + 1 }
  emit (Event.sendPacket (E.Encode_TL_req_pq nonceFirst)) <|
  call (SendPacket E (E.Encode_TL_req_pq nonceFirst) m) fun m =>
  emit Event.read <|
  call (Read E m) fun m =>
  emit (Event.inspect m.data) <|
  match m.data with
  | TLData.resPQ res =>
    if nonceFirst ≠ res.nonce then ⟨m, Outcome.err Error.nonceMismatch, []⟩
    else if ¬ res.fingerprints.any (fun b => b == E.telegramPublicKey_FP) then
      ⟨m, Outcome.err Error.fingerprintMissing, []⟩
    else requestDHParams E nonceFirst res m
  | _ => ⟨m, Outcome.err Error.expectedResPQ, []⟩

/-! ## A concrete environment and concrete sessions

Small executable stand-ins for the collaborators, used to run the functions on
concrete inputs. -/

/-- A 20-byte checksum standing in for SHA-1. -/
def demoSha1 (x : List Byte) : List Byte :=
  leBytes 20 (x.foldl (fun a b => (a * 1000003 + b.val + 1) % 2 ^ 160)
    0x67452301EFCDAB8998BADCFE10325476C3D2E1F0)

/-- A decoder standing in for `DecodePacket`: the byte at the cursor selects the
variant, two 16-byte nonces follow, then the remaining fields. -/
def demoDecode (c : Cursor) : Cursor × Option Error :=
  match c.buf.drop c.off with
  | [] => (c, some Error.shortRead)
  | t :: r =>
    let nonce := r.take 16
    let server_nonce := (r.drop 16).take 16
    let tail := r.drop 32
    let c := { c with off := c.size }
    if t.val = 1 then
      ({ c with data := TLData.resPQ ⟨nonce, server_nonce, 21, tail.map (fun b => b.val)⟩ }, none)
    else if t.val = 2 then
      ({ c with data := TLData.server_DH_params_ok ⟨nonce, server_nonce, tail⟩ }, none)
    else if t.val = 3 then
      let v : TL_server_DH_inner_data :=
        ⟨nonce, server_nonce, (tail.getD 0 0).val, (tail.getD 1 0).val, (tail.getD 2 0).val⟩
      ({ c with data := TLData.server_DH_inner_data v }, none)
    else if t.val = 4 then
      ({ c with data := TLData.dh_gen_ok ⟨nonce, server_nonce, tail.take 16⟩ }, none)
    else ({ c with data := TLData.other t.val }, none)

/-- The concrete environment: nonces are constant bytes, the ciphers are the
identity, the private exponent of `MakeGAB` is 5. -/
def demoEnv : Env where
  telegramPublicKey_FP := 7
  GenerateMessageId := fun k => 4 * k + 1
  GenerateNonce := fun k n => List.replicate n (toByte (k + 1))
  Sha1 := demoSha1
  RSAEncode := fun x => x
  AES256IGE_decrypt := fun d _ _ => (d, none)
  AES256IGE_encrypt := fun d _ _ => (d, none)
  SplitPQ := fun pq => (3, pq / 3)
  MakeGAB := fun g g_a p => (5, g ^ 5 % p, g_a ^ 5 % p)
  Encode_TL_req_pq := fun n => [1, 0, 0, 0] ++ n
  Encode_TL_p_q_inner_data := fun _ _ _ n1 ns n2 => [2, 0, 0, 0] ++ n1 ++ ns ++ n2
  Encode_TL_req_DH_params := fun n1 ns _ _ _ enc => [3, 0, 0, 0] ++ n1 ++ ns ++ enc.take 8
  Encode_TL_client_DH_inner_data := fun n1 ns _ g_b => [4, 0, 0, 0] ++ n1 ++ ns ++ leBytes 4 g_b.toNat
  Encode_TL_set_client_DH_params := fun n1 ns enc => [5, 0, 0, 0] ++ n1 ++ ns ++ enc.take 8
  DecodePacket := demoDecode

/-- The session as `Connect` leaves it (`g_ab = 0`, `encrypted = false`, the byte
`0xEF` written), on a connection that will deliver `input` under the read
schedule `sched`. -/
def connected (input : List Byte) (sched : List ReadStep) : MTProto where
  conn := ⟨input, sched, [], [[0xEF]]⟩
  g_ab := some 0
  authKey := []
  authKeyHash := []
  serverSalt := []
  encrypted := false
  buf := []
  size := 0
  off := 0
  level := 0
  messageId := 0
  seqNo := 0
  data := TLData.nil
  tick := 0

/-- A plain frame as the peer sends it: length header, zero auth-key-id, message
id, declared length, payload. -/
def plainFrame (messageId : Nat) (payload : List Byte) : List Byte :=
  addLengthHeader (envelope messageId false payload)

/-- A frame body of 508 bytes: word count exactly 127, so the four-byte header. -/
def demoBody : List Byte := List.replicate 508 9

/-- A session about to receive `demoBody` framed, followed by two more bytes,
with the body cut into small reads. -/
def demoFramed : MTProto :=
  connected (addLengthHeader demoBody ++ [1, 2])
    [ReadStep.deliver 0, ReadStep.deliver 2, ReadStep.deliver 99, ReadStep.deliver 0]

/-- A session about to receive a four-byte frame carrying the code -404. -/
def demoServerError : MTProto := connected [1, 0x6C, 0xFE, 0xFF, 0xFF] [ReadStep.deliver 3]

/-- A session about to receive an eight-byte frame. -/
def demoEightBytes : MTProto := connected [2, 1, 2, 3, 4, 5, 6, 7, 8] []

/-- A session about to receive a twelve-byte frame whose auth-key-id is 1. -/
def demoKeyedFrame : MTProto := connected [3, 1, 0, 0, 0, 0, 0, 0, 0, 9, 9, 9, 9] []

/-- A session about to receive a plain frame with message id 6 (low bits 2) and
a four-byte payload. -/
def demoEvenId : MTProto := connected (plainFrame 6 [5, 0, 0, 0]) []

/-- A session about to receive a plain frame with message id 7 whose declared
length is 8 although four payload bytes follow. -/
def demoBadLength : MTProto :=
  connected (addLengthHeader (EncodeLong 0 ++ EncodeLong 7 ++ EncodeInt 8 ++ [5, 0, 0, 0])) []

/-- A payload of `2^26 - 20` zero bytes: with the 20 envelope bytes the frame
body has `2^24` words. -/
def demoHugePayload : List Byte := List.replicate 67108844 0

/-- A 20-byte payload. -/
def demoPayload : List Byte := [1, 0, 0, 0] ++ List.replicate 16 7

/-- A session about to receive the plain frame with message id 1 around
`demoPayload`, then one more byte, delivered byte by byte at first. -/
def demoReceiver : MTProto :=
  connected (plainFrame 1 demoPayload ++ [9]) [ReadStep.deliver 0, ReadStep.deliver 0]

/-- The confirmation hash the peer sends in the concrete handshake: the auth key
is the single byte 8, the second nonce 32 bytes of value 3. -/
def demoConfirm : List Byte :=
  ((demoSha1 (List.replicate 32 3 ++ [1] ++ (demoSha1 [8]).take 8)).drop 4).take 16

/-- The three frames of a peer in the concrete handshake: `resPQ`,
`server_DH_params_ok` carrying `server_DH_inner_data` (g = 2, dh_prime = 23,
g_a = 9), and `dh_gen_ok`.  The client's first nonce is 16 bytes of value 1; the
peer echoes `echo1` .. `echo4` in the four decoded values. -/
def demoServer (echo1 echo2 echo3 echo4 : Byte) : List Byte :=
  plainFrame 1 ([1] ++ List.replicate 16 echo1 ++ List.replicate 16 0xAA ++ [7, 0, 0]) ++
  plainFrame 5 ([2] ++ List.replicate 16 echo2 ++ List.replicate 16 0xAA ++
    (List.replicate 20 0 ++ ([3] ++ List.replicate 16 echo3 ++ List.replicate 16 0xAA ++ [2, 23, 9]) ++
      [0, 0, 0])) ++
  plainFrame 9 ([4] ++ List.replicate 16 echo4 ++ List.replicate 16 0xAA ++ demoConfirm ++ [0, 0, 0])

/-- The values of `m.data` that the type assertions of a run looked at, in
order: the decoded response of round 1, 2, 3, 4. -/
def decodedResponses (tr : List Event) : List TLData :=
  tr.filterMap fun ev => match ev with
    | Event.inspect d => some d
    | _ => none

/-- The nonce checks of round `k` (0-based) accept the decoded value `d`: it is
the variant the round expects, it echoes the first nonce `nf`, and from round 1
on it carries the server nonce `ns`. -/
def roundOK (nf ns : List Byte) : Nat → TLData → Prop
  | 0, TLData.resPQ res => nf = res.nonce
  | 1, TLData.server_DH_params_ok dh => nf = dh.nonce ∧ ns = dh.server_nonce
  | 2, TLData.server_DH_inner_data dhi => nf = dhi.nonce ∧ ns = dhi.server_nonce
  | 3, TLData.dh_gen_ok dhg => nf = dhg.nonce ∧ ns = dhg.server_nonce
  | _, _ => False

/-- A nonce mismatch in round `k` (0-based): the decoded value `d` is the variant
the round expects and its echoed nonce differs from `nf` or, from round 1 on, its
server nonce differs from `ns`. -/
def mismatch (nf ns : List Byte) : Nat → TLData → Prop
  | 0, TLData.resPQ res => res.nonce ≠ nf
  | 1, TLData.server_DH_params_ok dh => dh.nonce ≠ nf ∨ dh.server_nonce ≠ ns
  | 2, TLData.server_DH_inner_data dhi => dhi.nonce ≠ nf ∨ dhi.server_nonce ≠ ns
  | 3, TLData.dh_gen_ok dhg => dhg.nonce ≠ nf ∨ dhg.server_nonce ≠ ns
  | _, _ => False

/-- Every decoded value of the list, the first one belonging to round `k`, passed
the nonce checks of its round. -/
def allOK (nf ns : List Byte) (k : Nat) (ds : List TLData) : Prop :=
  ∀ j d, ds[j]? = some d → roundOK nf ns (k + j) d

/-- The server nonce taken from the first decoded response when it is a
`resPQ`. -/
def serverNonceOf (ds : List TLData) : List Byte :=
  match ds with
  | TLData.resPQ res :: _ => res.server_nonce
  | _ => []

/-- The run stopped before `setGAB`: the connection data is what it was in `m`,
neither `setGAB` nor `setSalt` was called, and the result is not `nil`. -/
def Aborted (m : MTProto) (r : Run) : Prop :=
  r.m.keys = m.keys ∧ (∀ g, Event.setGAB g ∉ r.trace) ∧ (∀ s, Event.setSalt s ∉ r.trace) ∧
    r.outcome ≠ Outcome.ok

/-- The run reached `setGAB g` in a session `m1` whose connection data was still
that of `m`: either `setGAB` and `setSalt salt` completed and the result is `nil`,
or `setGAB` panicked. -/
def Reached (E : Env) (g : Int) (salt : List Byte) (m : MTProto) (r : Run) : Prop :=
  ∃ m1 : MTProto, m1.keys = m.keys ∧ Event.setGAB g ∈ r.trace ∧
    (((setGAB E g m1).2 = true ∧ r.outcome = Outcome.ok ∧ r.m = setSalt salt (setGAB E g m1).1) ∨
     ((setGAB E g m1).2 = false ∧ r.outcome = Outcome.panic ∧ r.m = (setGAB E g m1).1))

/-- The run went through the last round with the inner data `dhi` and the
confirmation `dhg`: the auth key, the confirmation hash and the salt could be
computed, `dhg` passed the three checks of the last round, and the run reached
`setGAB` with the shared secret returned by `MakeGAB`. -/
def Completed (E : Env) (nf n2 ns : List Byte) (dhi : TL_server_DH_inner_data)
    (dhg : TL_dh_gen_ok) (m : MTProto) (r : Run) : Prop :=
  ∃ authKey nh salt : List Byte,
    authKeyOf? (E.MakeGAB dhi.g dhi.g_a dhi.dh_prime).2.2 = some authKey ∧
    nonceHash1? E n2 authKey = some nh ∧ serverSalt? n2 ns = some salt ∧
    nf = dhg.nonce ∧ ns = dhg.server_nonce ∧ nh = dhg.new_nonce_hash1 ∧
    Reached E (E.MakeGAB dhi.g dhi.g_a dhi.dh_prime).2.2 salt m r

/-- The generator-call index at which `Handshake` draws the second nonce: after
the first nonce and, on a plain session, the message id of the first packet. -/
def secondNonceTick (m : MTProto) : Nat := m.tick + 1 + (if m.encrypted then 0 else 1)

/-- Every check of every round passed: the four type assertions saw the four
expected variants, each echoing the first nonce and (from round 1 on) the server
nonce of `resPQ`; the trusted fingerprint was offered; the confirmation hash
matched; and the run reached `setGAB`. -/
def AllChecksPassed (E : Env) (m : MTProto) (r : Run) : Prop :=
  ∃ res dh dhi dhg, decodedResponses r.trace =
      [TLData.resPQ res, TLData.server_DH_params_ok dh, TLData.server_DH_inner_data dhi,
        TLData.dh_gen_ok dhg] ∧
    E.GenerateNonce m.tick 16 = res.nonce ∧
    res.fingerprints.any (fun b => b == E.telegramPublicKey_FP) = true ∧
    E.GenerateNonce m.tick 16 = dh.nonce ∧ res.server_nonce = dh.server_nonce ∧
    E.GenerateNonce m.tick 16 = dhi.nonce ∧ res.server_nonce = dhi.server_nonce ∧
    Completed E (E.GenerateNonce m.tick 16) (E.GenerateNonce (secondNonceTick m) 32)
      res.server_nonce dhi dhg m r

/-- The session of a client whose peer answers all four rounds correctly. -/
def demoHonest : MTProto := connected (demoServer 1 1 1 1) []

/-- The session of a client whose peer flips the echoed nonce in `resPQ`. -/
def demoFlip1 : MTProto := connected (demoServer 2 1 1 1) []

/-- The session of a client whose peer flips the echoed nonce in `dh_gen_ok`. -/
def demoFlip4 : MTProto := connected (demoServer 1 1 1 2) []

/-- The variant round `k` (0-based) expects in `m.data`. -/
def expects : Nat → TLData → Prop
  | 0, TLData.resPQ _ => True
  | 1, TLData.server_DH_params_ok _ => True
  | 2, TLData.server_DH_inner_data _ => True
  | 3, TLData.dh_gen_ok _ => True
  | _, _ => False

/-- The error round `k` (0-based) returns when its type assertion fails. -/
def expectedError : Nat → Error
  | 0 => Error.expectedResPQ
  | 1 => Error.expectedServerDHParamsOk
  | 2 => Error.expectedServerDHInnerData
  | _ => Error.expectedDHGenOk

/-- A decoded value of the wrong variant ends the run: when the `j`-th value a
type assertion of the run looks at, belonging to round `k + j`, is not the variant
that round expects, the run returns that round's error and the inspection is the
last event of the trace. -/
def WrongVariantStops (k : Nat) (r : Run) : Prop :=
  ∀ j d, (decodedResponses r.trace)[j]? = some d → ¬ expects (k + j) d →
    r.outcome = Outcome.err (expectedError (k + j)) ∧
      ∃ pre, r.trace = pre ++ [Event.inspect d] ∧ (decodedResponses pre).length = j

/-- The calls of `SendPacket` in a trace. -/
def sendCount (tr : List Event) : Nat :=
  (tr.filter fun ev => match ev with
    | Event.sendPacket _ => true
    | _ => false).length

/-- The property `Q` holds of the `j`-th value the type assertions of the run
looked at, if there is one, and of the way the run ended. -/
def AtDecoded (j : Nat) (Q : TLData → Outcome → Prop) (r : Run) : Prop :=
  ∀ d, (decodedResponses r.trace)[j]? = some d → Q d r.outcome

/-- The confirmation hash decides the last round: for a `dh_gen_ok` that carries
both nonces, the run returns `nil` exactly when its `new_nonce_hash1` is `nh`, and
returns the hash error otherwise. -/
def hashDecides (nf ns nh : List Byte) (d : TLData) (o : Outcome) : Prop :=
  ∀ dhg, d = TLData.dh_gen_ok dhg → dhg.nonce = nf → dhg.server_nonce = ns →
    (o = Outcome.ok ↔ dhg.new_nonce_hash1 = nh) ∧
    (dhg.new_nonce_hash1 ≠ nh → o = Outcome.err Error.newNonceHashMismatch)

/-- The confirmation hash of lines 210-214 for the shared secret that `MakeGAB`
returns on the inner data `dhi` decides the last round. -/
def finalRoundDecides (E : Env) (n2 nf ns : List Byte) (dhi : TL_server_DH_inner_data)
    (d : TLData) (o : Outcome) : Prop :=
  ∃ ak nh, authKeyOf? (E.MakeGAB dhi.g dhi.g_a dhi.dh_prime).2.2 = some ak ∧
    nonceHash1? E n2 ak = some nh ∧ hashDecides nf ns nh d o

/-- The session of a client whose peer echoes the first nonce in `resPQ` but
offers only the fingerprint 5, not the trusted one. -/
def demoNoFingerprint : MTProto :=
  connected (plainFrame 1 ([1] ++ List.replicate 16 1 ++ List.replicate 16 0xAA ++ [5, 0, 0])) []

/-- The session of a client whose peer answers the second request with a second
`resPQ` instead of `server_DH_params_ok`. -/
def demoWrongVariant : MTProto :=
  connected (plainFrame 1 ([1] ++ List.replicate 16 1 ++ List.replicate 16 0xAA ++ [7, 0, 0]) ++
    plainFrame 5 ([1] ++ List.replicate 16 1 ++ List.replicate 16 0xAA ++ [7, 0, 0])) []

/-- The session of a client whose peer answers all four rounds with matching
nonces but sends sixteen zero bytes as the confirmation hash. -/
def demoBadConfirm : MTProto :=
  connected
    (plainFrame 1 ([1] ++ List.replicate 16 1 ++ List.replicate 16 0xAA ++ [7, 0, 0]) ++
     plainFrame 5 ([2] ++ List.replicate 16 1 ++ List.replicate 16 0xAA ++
      (List.replicate 20 0 ++ ([3] ++ List.replicate 16 1 ++ List.replicate 16 0xAA ++ [2, 23, 9]) ++
        [0, 0, 0])) ++
     plainFrame 9 ([4] ++ List.replicate 16 1 ++ List.replicate 16 0xAA ++ List.replicate 16 0 ++
      [0, 0, 0])) []

/-- The key and IV an AES call of the trace was given. -/
def aesArgs : Event → Option (List Byte × List Byte)
  | Event.aesDecrypt _ key iv => some (key, iv)
  | Event.aesEncrypt _ key iv => some (key, iv)
  | _ => none

/-- The buffer of an `AES256IGE_encrypt` call is one that lines 221-223 build. -/
def builtByPad (E : Env) : Event → Prop
  | Event.aesEncrypt x _ _ => ∃ d, x = padForAES E d
  | _ => True

/-- Every AES call of the run was given the key and IV that `src` holds, and every
buffer given to `AES256IGE_encrypt` is built by lines 221-223. -/
def AESFrom (E : Env) (src : Option (List Byte × List Byte)) (r : Run) : Prop :=
  ∀ ev ∈ r.trace, builtByPad E ev ∧ ∀ a, aesArgs ev = some a → src = some a

/-- The key and IV of every AES call in a trace, in program order. -/
def aesKeys (tr : List Event) : List (List Byte × List Byte) := tr.filterMap aesArgs

/-- The temporary AES key of the concrete handshake: second nonce 32 bytes of
value 3, server nonce 16 bytes of value `0xAA`. -/
def demoTmpKey : List Byte :=
  (demoSha1 (List.replicate 32 3 ++ List.replicate 16 0xAA)).take 20 ++
    (demoSha1 (List.replicate 16 0xAA ++ List.replicate 32 3)).take 12

/-- The temporary AES IV of the concrete handshake. -/
def demoTmpIV : List Byte :=
  ((demoSha1 (List.replicate 16 0xAA ++ List.replicate 32 3)).drop 12).take 8 ++
    (demoSha1 (List.replicate 32 3 ++ List.replicate 32 3)).take 20 ++
    (List.replicate 32 (3 : Byte)).take 4

/-- Two decrypted plaintexts that differ at most in the leading 20-byte digest:
both have at least 20 bytes and they agree from offset 20 on. -/
def sameAfterDigest (p q : List Byte) : Prop :=
  20 ≤ p.length ∧ 20 ≤ q.length ∧ p.drop 20 = q.drop 20

/-- The environment `E` with `AES256IGE_decrypt` replaced by `dec`. -/
def withDecrypt (E : Env) (dec : List Byte → List Byte → List Byte → List Byte × Option Error) :
    Env :=
  { E with AES256IGE_decrypt := dec }

/-- A decryption that returns the plaintext of the identity cipher with its first
20 bytes, when it has that many, replaced by the byte `0x5A`. -/
def demoOtherDigest (d _key _iv : List Byte) : List Byte × Option Error :=
  if 20 ≤ d.length then (List.replicate 20 0x5A ++ d.drop 20, none) else (d, none)

/-- A 1004-byte payload, so that its plain envelope has 1024 bytes: 256 words,
sent with the four-byte length header `7F 00 01 00`. -/
def demoLongPayload : List Byte := [1] ++ List.replicate 1003 0x11

/-- A session about to receive the plain frame around `demoLongPayload`, every
read served in full. -/
def demoWholeReads : MTProto := connected (plainFrame 1 demoLongPayload) []

/-- The same session and the same byte stream, but the transport hands over one
byte on each of the first two reads: the read of the three further header bytes
returns only the first of them. -/
def demoSplitHeader : MTProto :=
  connected (plainFrame 1 demoLongPayload) [ReadStep.deliver 0, ReadStep.deliver 0]

/-- The session of a client whose peer sends `g_a = 0` in `server_DH_inner_data`
(g = 2, dh_prime = 23), all nonces being right. -/
def demoZeroSecret : MTProto :=
  connected
    (plainFrame 1 ([1] ++ List.replicate 16 1 ++ List.replicate 16 0xAA ++ [7, 0, 0]) ++
     plainFrame 5 ([2] ++ List.replicate 16 1 ++ List.replicate 16 0xAA ++
      (List.replicate 20 0 ++ ([3] ++ List.replicate 16 1 ++ List.replicate 16 0xAA ++ [2, 23, 0]) ++
        [0, 0, 0]))) []

/-! ## Arithmetic of the codecs -/

theorem toByte_val (n : Nat) : (toByte n).val = n % 256 := rfl

theorem leBytes_length (n v : Nat) : (leBytes n v).length = n := by
  induction n generalizing v with
  | zero => rfl
  | succ n ih => simp [leBytes, ih]

theorem leNat_leBytes (n v : Nat) : leNat (leBytes n v) = v % 256 ^ n := by
  induction n generalizing v with
  | zero => simp [leBytes, leNat, Nat.mod_one]
  | succ n ih =>
    simp only [leBytes, leNat, ih, toByte_val]
    rw [pow_succ, Nat.mul_comm (256 ^ n) 256, Nat.mod_mul]

theorem leBytes_mod (n v : Nat) : leBytes n (v % 256 ^ n) = leBytes n v := by
  induction n generalizing v with
  | zero => rfl
  | succ n ih =>
    have h1 : toByte (v % 256 ^ (n + 1)) = toByte v := by
      apply Fin.ext
      simp only [toByte_val]
      rw [pow_succ, Nat.mod_mul_left_mod]
    have h2 : v % 256 ^ (n + 1) / 256 = (v / 256) % 256 ^ n := by
      rw [pow_succ, Nat.mul_comm, Nat.mod_mul_right_div_self]
    simp only [leBytes, h1, h2, ih]

theorem shiftLeft8_or_127 (w : Nat) : w <<< 8 ||| 127 = w * 256 + 127 := by
  have h := Nat.mul_add_lt_is_or (show 127 < 2 ^ 8 by decide) w
  rw [Nat.shiftLeft_eq, Nat.mul_comm w (2 ^ 8), ← h]

theorem EncodeInt_toInt32 (v : Nat) : EncodeInt (toInt32 (v : Int)) = leBytes 4 v := by
  have h : ((toInt32 (v : Int)) % 2 ^ 32).toNat = v % 256 ^ 4 := by
    unfold toInt32
    omega
  unfold EncodeInt
  rw [h, leBytes_mod]

theorem leBytes4_marker (w : Nat) :
    leBytes 4 (w * 256 + 127) = [127, toByte w, toByte (w / 256), toByte (w / 65536)] := by
  have h0 : toByte (w * 256 + 127) = 127 := by
    apply Fin.ext
    simp only [toByte_val]
    omega
  have h1 : (w * 256 + 127) / 256 = w := by omega
  have h2 : w / 256 / 256 = w / 65536 := by omega
  simp only [leBytes, h0, h1, h2]

theorem leNat_three (w : Nat) (h : w < 2 ^ 24) :
    leNat [toByte w, toByte (w / 256), toByte (w / 65536)] = w := by
  simp only [leNat, toByte_val]
  omega

theorem addLengthHeader_small (x : List Byte) (h : x.length / 4 < 127) :
    addLengthHeader x = toByte (x.length / 4) :: x := by
  simp [addLengthHeader, h]

theorem addLengthHeader_large (x : List Byte) (h : 127 ≤ x.length / 4) :
    addLengthHeader x =
      [127, toByte (x.length / 4), toByte (x.length / 4 / 256), toByte (x.length / 4 / 65536)] ++ x := by
  have hn : ¬ x.length / 4 < 127 := by omega
  simp only [addLengthHeader, hn, if_false, shiftLeft8_or_127]
  rw [EncodeInt_toInt32, leBytes4_marker]

theorem Conn.Write_output (c : Conn) (x : List Byte) (h : (c.Write x).2 = none) :
    (c.Write x).1.output = c.output ++ [x] := by
  revert h
  unfold Conn.Write
  split <;> simp

theorem SendPacket_written (E : Env) (msg : List Byte) (m : MTProto)
    (h : (SendPacket E msg m).2 = none) :
    (SendPacket E msg m).1.conn.output =
      m.conn.output ++ [addLengthHeader (envelope (E.GenerateMessageId m.tick) m.encrypted msg)] := by
  unfold SendPacket at h ⊢
  cases he : m.encrypted <;> simp only [he, Bool.false_eq_true, if_false, if_true] at h ⊢ <;>
    exact Conn.Write_output _ _ h

/-! ## Reading a frame from a connection that does not fail -/

theorem copyAt_length (dst : List Byte) (off : Nat) (src : List Byte) :
    (copyAt dst off src).length = dst.length := by
  simp only [copyAt, List.length_append, List.length_take, List.length_drop]
  omega

theorem zeros_length (n : Nat) : (zeros n).length = n := by
  simp [zeros]

theorem zeros_add (a b : Nat) : zeros (a + b) = zeros a ++ zeros b :=
  List.replicate_add a b 0

theorem copyAt_fill (pre d : List Byte) (k : Nat) (h : d.length ≤ k) :
    copyAt (pre ++ zeros k) pre.length d = pre ++ d ++ zeros (k - d.length) := by
  have hk : k = d.length + (k - d.length) := by omega
  have h1 : (pre ++ zeros k).length - pre.length = k := by
    simp [zeros_length]
  unfold copyAt
  rw [h1, List.take_of_length_le h, List.take_left', List.drop_append_eq_append_drop]
  · have h2 : pre.length + d.length - pre.length = d.length := by omega
    have h3 : List.drop (pre.length + d.length) pre = [] := by
      apply List.drop_of_length_le
      omega
    rw [h2, h3]
    conv => lhs; rw [hk, zeros_add]
    rw [List.drop_left' (zeros_length _)]
    simp
  · rfl

theorem chunkOf_pos (s : List ReadStep) (k : Nat) (hk : 0 < k) : 0 < chunkOf s k := by
  unfold chunkOf
  split <;> omega

theorem chunkOf_le (s : List ReadStep) (k : Nat) : chunkOf s k ≤ k := by
  unfold chunkOf
  split <;> omega

theorem noFail_tail (s : List ReadStep) (h : noFail s = true) : noFail s.tail = true := by
  cases s with
  | nil => rfl
  | cons a t =>
    simp only [noFail, List.all_cons, Bool.and_eq_true] at h
    exact h.2

theorem Conn.Read_noFail (c : Conn) (k : Nat) (hk : 0 < k) (hi : c.input ≠ [])
    (hs : noFail c.sched = true) :
    c.Read k =
      ({ c with input := c.input.drop (chunkOf c.sched k), sched := c.sched.tail },
        c.input.take (chunkOf c.sched k), none) := by
  have hk0 : k ≠ 0 := by omega
  unfold Conn.Read
  rw [if_neg hk0]
  cases hsc : c.sched with
  | nil => simp [Conn.take, hi, chunkOf, hsc]
  | cons a t =>
    cases a with
    | deliver extra => simp [Conn.take, hi, chunkOf]
    | fail e => simp [hsc, noFail] at hs

theorem fillLoop_spec (fuel : Nat) :
    ∀ (m : MTProto) (left : Nat) (pre body rest : List Byte),
      left ≤ fuel → body.length = left → m.buf = pre ++ zeros left →
      m.size = pre.length + left → m.conn.input = body ++ rest → noFail m.conn.sched = true →
      ∃ c : Conn, c.input = rest ∧ c.output = m.conn.output ∧ c.wsched = m.conn.wsched ∧
        noFail c.sched = true ∧
        fillLoop fuel m left = ({ m with conn := c, buf := pre ++ body }, none) := by
  induction fuel with
  | zero =>
    intro m left pre body rest hf hb hbuf _ hin hs
    have hl : left = 0 := by omega
    subst hl
    have hb0 : body = [] := List.length_eq_zero.mp hb
    subst hb0
    refine ⟨m.conn, by simpa using hin, rfl, rfl, hs, ?_⟩
    cases m
    simp_all [fillLoop, zeros]
  | succ fuel ih =>
    intro m left pre body rest hf hb hbuf hsize hin hs
    by_cases hl : left = 0
    · subst hl
      have hb0 : body = [] := List.length_eq_zero.mp hb
      subst hb0
      refine ⟨m.conn, by simpa using hin, rfl, rfl, hs, ?_⟩
      cases m
      simp_all [fillLoop, zeros]
    · have hpos : 0 < left := by omega
      have hk : m.buf.length - (m.size - left) = left := by
        rw [hbuf, hsize, List.length_append, zeros_length]
        omega
      have hne : m.conn.input ≠ [] := by
        have hbne : body ≠ [] := by
          intro h
          rw [h] at hb
          simp at hb
          omega
        rw [hin]
        simp [hbne]
      have hj1 := chunkOf_pos m.conn.sched left hpos
      have hj2 := chunkOf_le m.conn.sched left
      have hoff : m.size - left = pre.length := by omega
      have htake : m.conn.input.take (chunkOf m.conn.sched left) =
          body.take (chunkOf m.conn.sched left) := by
        rw [hin, List.take_append_of_le_length (by omega)]
      have hdrop : m.conn.input.drop (chunkOf m.conn.sched left) =
          body.drop (chunkOf m.conn.sched left) ++ rest := by
        rw [hin, List.drop_append_of_le_length (by omega)]
      have hdl : (body.take (chunkOf m.conn.sched left)).length = chunkOf m.conn.sched left := by
        rw [List.length_take]
        omega
      obtain ⟨c, hc1, hc2, hc3, hc4, hc5⟩ :=
        ih { m with
              conn := { m.conn with input := m.conn.input.drop (chunkOf m.conn.sched left),
                                    sched := m.conn.sched.tail },
              buf := copyAt m.buf (m.size - left) (m.conn.input.take (chunkOf m.conn.sched left)) }
          (left - chunkOf m.conn.sched left) (pre ++ body.take (chunkOf m.conn.sched left))
          (body.drop (chunkOf m.conn.sched left)) rest (by omega)
          (by rw [List.length_drop]; omega)
          (by
            show copyAt m.buf (m.size - left) _ = _
            rw [hoff, hbuf, htake, copyAt_fill _ _ _ (by omega), hdl])
          (by
            show m.size = _
            rw [List.length_append, hdl]
            omega)
          hdrop (noFail_tail _ hs)
      refine ⟨c, hc1, hc2, hc3, hc4, ?_⟩
      rw [fillLoop, if_pos hpos, hk, Conn.Read_noFail _ _ hpos hne hs]
      simp only [hdl, htake] at hc5 ⊢
      rw [hc5]
      simp [List.append_assoc, List.take_append_drop]

theorem readBody_spec (m : MTProto) (x rest : List Byte) (hin : m.conn.input = x ++ rest)
    (hs : noFail m.conn.sched = true) :
    ∃ c : Conn, c.input = rest ∧ c.output = m.conn.output ∧ c.wsched = m.conn.wsched ∧
      noFail c.sched = true ∧
      readBody m x.length = ({ m with conn := c, size := x.length, buf := x, off := 0 }, none) := by
  obtain ⟨c, h1, h2, h3, h4, h5⟩ :=
    fillLoop_spec x.length { m with size := x.length, buf := zeros x.length } x.length [] x rest
      (Nat.le_refl _) rfl rfl (by simp) hin hs
  refine ⟨c, h1, h2, h3, h4, ?_⟩
  unfold readBody
  rw [h5]
  simp

theorem or_shift_bytes (a b c : Byte) :
    a.val ||| b.val <<< 8 ||| c.val <<< 16 = a.val + 256 * b.val + 65536 * c.val := by
  have ha := a.isLt
  have hb := b.isLt
  have h1 : a.val ||| b.val <<< 8 = 2 ^ 8 * b.val + a.val := by
    rw [Nat.shiftLeft_eq, Nat.lor_comm, Nat.mul_comm b.val (2 ^ 8)]
    exact (Nat.mul_add_lt_is_or (show a.val < 2 ^ 8 by omega) b.val).symm
  have h2 : (2 ^ 8 * b.val + a.val) ||| c.val <<< 16 = 2 ^ 16 * c.val + (2 ^ 8 * b.val + a.val) := by
    rw [Nat.shiftLeft_eq, Nat.lor_comm, Nat.mul_comm c.val (2 ^ 16)]
    exact (Nat.mul_add_lt_is_or (show 2 ^ 8 * b.val + a.val < 2 ^ 16 by omega) c.val).symm
  rw [h1, h2]
  omega

theorem readFrame_spec (m : MTProto) (x rest : List Byte) (hx4 : x.length % 4 = 0)
    (hw : x.length / 4 < 2 ^ 24) (hin : m.conn.input = addLengthHeader x ++ rest)
    (hs : noFail m.conn.sched = true)
    (hh : 127 ≤ x.length / 4 → headerWhole m.conn.sched = true) :
    ∃ c : Conn, c.input = rest ∧ c.output = m.conn.output ∧ c.wsched = m.conn.wsched ∧
      noFail c.sched = true ∧
      readFrame m = ({ m with conn := c, size := x.length, buf := x, off := 0 }, none) := by
  have hc1 : chunkOf m.conn.sched 1 = 1 := by
    have h1 := chunkOf_pos m.conn.sched 1 (by decide)
    have h2 := chunkOf_le m.conn.sched 1
    omega
  by_cases hsmall : x.length / 4 < 127
  · rw [addLengthHeader_small x hsmall] at hin
    have hne : m.conn.input ≠ [] := by rw [hin]; simp
    obtain ⟨c, h1, h2, h3, h4, h5⟩ :=
      readBody_spec { m with conn := { m.conn with input := x ++ rest, sched := m.conn.sched.tail } }
        x rest rfl (noFail_tail _ hs)
    refine ⟨c, h1, h2, h3, h4, ?_⟩
    have hb : (toByte (x.length / 4)).val < 127 := by rw [toByte_val]; omega
    have hsz : (toByte (x.length / 4)).val <<< 2 = x.length := by
      rw [toByte_val, Nat.shiftLeft_eq]
      omega
    unfold readFrame
    rw [Conn.Read_noFail _ _ (by decide) hne hs, hc1, hin]
    simp only [List.take_succ_cons, List.take_zero, List.drop_succ_cons, List.drop_zero,
      List.cons_append]
    have hcp : copyAt (zeros 1) 0 [toByte (x.length / 4)] = [toByte (x.length / 4)] := by
      simp [copyAt, zeros]
    simp only [hcp, List.getD_cons_zero, hb, if_true, hsz]
    rw [h5]
  · have hlarge : 127 ≤ x.length / 4 := by omega
    rw [addLengthHeader_large x hlarge] at hin
    have hne : m.conn.input ≠ [] := by rw [hin]; simp
    have hc3 : chunkOf m.conn.sched.tail 3 = 3 := by
      have hhw := hh hlarge
      unfold headerWhole at hhw
      unfold chunkOf
      cases hsc : m.conn.sched with
      | nil => rfl
      | cons a t =>
        cases t with
        | nil => rfl
        | cons b u =>
          cases b with
          | deliver extra =>
            rw [hsc] at hhw
            simp only [decide_eq_true_eq] at hhw
            simp only [List.tail_cons]
            omega
          | fail e => rfl
    obtain ⟨c, h1, h2, h3, h4, h5⟩ :=
      readBody_spec
        { m with conn := { m.conn with input := x ++ rest, sched := m.conn.sched.tail.tail } }
        x rest rfl (noFail_tail _ (noFail_tail _ hs))
    refine ⟨c, h1, h2, h3, h4, ?_⟩
    have hsz : ((toByte (x.length / 4)).val ||| (toByte (x.length / 4 / 256)).val <<< 8 |||
        (toByte (x.length / 4 / 65536)).val <<< 16) <<< 2 = x.length := by
      rw [or_shift_bytes, Nat.shiftLeft_eq]
      simp only [toByte_val]
      omega
    unfold readFrame
    rw [Conn.Read_noFail _ _ (by decide) hne hs, hc1, hin]
    simp only [List.take_succ_cons, List.take_zero, List.drop_succ_cons, List.drop_zero,
      List.cons_append, List.nil_append]
    have hcp : copyAt (zeros 1) 0 [(127 : Byte)] = [127] := by
      simp [copyAt, zeros]
    have h127 : ¬ ((127 : Byte).val < 127) := by decide
    simp only [hcp, List.getD_cons_zero, h127, if_false]
    rw [Conn.Read_noFail _ _ (by decide) (by simp) (noFail_tail _ hs)]
    simp only [hc3, List.take_succ_cons, List.take_zero, List.drop_succ_cons, List.drop_zero]
    have hcp3 : ∀ a b c : Byte, copyAt (zeros 3) 0 [a, b, c] = [a, b, c] := by
      intro a b c
      simp [copyAt, zeros]
    simp only [hcp3, List.getD_cons_zero, List.getD_cons_succ, hsz]
    rw [h5]

/-! ## What reading and sending leave alone -/

theorem Conn.Read_count (c c2 : Conn) (k : Nat) (d : List Byte) (hk : 0 < k)
    (h : c.Read k = (c2, d, none)) : 1 ≤ d.length ∧ d.length ≤ k := by
  have hk0 : k ≠ 0 := by omega
  have htake : ∀ (c1 : Conn) (j : Nat), 0 < j → j ≤ k → c1.take j = (c2, d, none) →
      1 ≤ d.length ∧ d.length ≤ k := by
    intro c1 j hj hjk ht
    unfold Conn.take at ht
    split at ht
    · simp at ht
    · rename_i hne
      simp only [Prod.mk.injEq, and_true] at ht
      have hl : 0 < c1.input.length := List.length_pos.mpr hne
      rw [← ht.2, List.length_take]
      omega
  unfold Conn.Read at h
  rw [if_neg hk0] at h
  split at h
  · exact htake c k hk (Nat.le_refl _) h
  · simp at h
  · rename_i extra rest _
    exact htake _ (min k (extra + 1)) (by omega) (by omega) h

/-- The fuel of `fillLoop` never runs out: on a buffer of the frame's size, one
more unit of fuel than bytes left changes nothing, so the loop ends only with
`left = 0` or with an error of the connection. -/
theorem fillLoop_fuel (fuel : Nat) :
    ∀ (m : MTProto) (left : Nat), m.buf.length = m.size → left ≤ m.size → left ≤ fuel →
      fillLoop (fuel + 1) m left = fillLoop fuel m left := by
  induction fuel with
  | zero =>
    intro m left _ _ hf
    have h0 : ¬ 0 < left := by omega
    simp [fillLoop, h0]
  | succ fuel ih =>
    intro m left hb hl hf
    rw [fillLoop, fillLoop.eq_def (fuel + 1)]
    simp only
    by_cases hpos : 0 < left
    · simp only [hpos, if_true]
      have hk : 0 < m.buf.length - (m.size - left) := by omega
      rcases hR : m.conn.Read (m.buf.length - (m.size - left)) with ⟨c, d, e⟩
      cases e with
      | some e => rfl
      | none =>
        obtain ⟨h1, h2⟩ := Conn.Read_count _ _ _ _ hk hR
        simp only
        exact ih _ _ (by simp only [copyAt_length]; exact hb) (by show left - d.length ≤ m.size; omega)
          (by omega)
    · simp only [hpos, if_false]

theorem fillLoop_shape (fuel : Nat) :
    ∀ (m : MTProto) (left : Nat), ∃ (c : Conn) (b : List Byte),
      b.length = m.buf.length ∧ (fillLoop fuel m left).1 = { m with conn := c, buf := b } := by
  induction fuel with
  | zero => intro m left; exact ⟨m.conn, m.buf, rfl, rfl⟩
  | succ fuel ih =>
    intro m left
    rw [fillLoop]
    split
    · split
      · rename_i c _ e _
        exact ⟨c, m.buf, rfl, rfl⟩
      · rename_i c d _
        obtain ⟨c2, b2, h1, h2⟩ :=
          ih { m with conn := c, buf := copyAt m.buf (m.size - left) d } (left - d.length)
        refine ⟨c2, b2, ?_, ?_⟩
        · rw [h1]; exact copyAt_length _ _ _
        · rw [h2]
    · exact ⟨m.conn, m.buf, rfl, rfl⟩

theorem readBody_shape (m : MTProto) (size : Nat) :
    ∃ (c : Conn) (b : List Byte) (o : Nat), b.length = size ∧
      (readBody m size).1 = { m with conn := c, buf := b, size := size, off := o } ∧
      ((readBody m size).2 = none → o = 0) := by
  obtain ⟨c, b, h1, h2⟩ := fillLoop_shape size { m with size := size, buf := zeros size } size
  unfold readBody
  split
  · rename_i m2 e heq
    have h3 : m2 = _ := (congrArg Prod.fst heq).symm.trans h2
    refine ⟨c, b, m.off, by rw [h1]; exact zeros_length _, by rw [h3], by simp⟩
  · rename_i m2 heq
    have h3 : m2 = _ := (congrArg Prod.fst heq).symm.trans h2
    refine ⟨c, b, 0, by rw [h1]; exact zeros_length _, by rw [h3], by simp⟩

theorem readFrame_shape (m : MTProto) :
    ∃ (c : Conn) (b : List Byte) (s o : Nat),
      (readFrame m).1 = { m with conn := c, buf := b, size := s, off := o } ∧
      ((readFrame m).2 = none → o = 0 ∧ b.length = s ∧ s % 4 = 0) := by
  unfold readFrame
  split
  · rename_i c _ e _
    exact ⟨c, m.buf, m.size, m.off, rfl, by simp⟩
  · rename_i c d _
    simp only
    split
    · obtain ⟨c2, b, o, h1, h2, h3⟩ := readBody_shape { m with conn := c }
        ((List.getD (copyAt (zeros 1) 0 d) 0 0).val <<< 2)
      refine ⟨c2, b, _, o, h2, fun h => ⟨h3 h, h1, ?_⟩⟩
      rw [Nat.shiftLeft_eq]
      omega
    · split
      · rename_i c2 _ e _
        exact ⟨c2, m.buf, m.size, m.off, rfl, by simp⟩
      · rename_i c2 d2 _
        obtain ⟨c3, b, o, h1, h2, h3⟩ := readBody_shape { m with conn := c2 }
          (((List.getD (copyAt (zeros 3) 0 d2) 0 0).val |||
            (List.getD (copyAt (zeros 3) 0 d2) 1 0).val <<< 8 |||
            (List.getD (copyAt (zeros 3) 0 d2) 2 0).val <<< 16) <<< 2)
        refine ⟨c3, b, _, o, h2, fun h => ⟨h3 h, h1, ?_⟩⟩
        rw [Nat.shiftLeft_eq]
        omega

theorem readFrame_ok (m m1 : MTProto) (h : readFrame m = (m1, none)) :
    m1.off = 0 ∧ m1.buf.length = m1.size ∧ m1.size % 4 = 0 := by
  obtain ⟨c, b, s, o, h1, h2⟩ := readFrame_shape m
  rw [h] at h1 h2
  simp only at h1
  obtain ⟨ho, hb, hs⟩ := h2 rfl
  subst h1
  exact ⟨ho, hb, hs⟩

/-! ## The envelope parser -/

theorem and_three (n : Nat) : n &&& 3 = n % 4 :=
  Nat.and_pow_two_sub_one_eq_mod n 2

theorem DecodeLong_at (m : MTProto) (o : Nat) (h : o + 8 ≤ m.size) :
    DecodeLong { m with off := o } =
      ({ m with off := o + 8 }, leNat ((m.buf.drop o).take 8), none) := by
  simp [DecodeLong, h]

theorem DecodeLong_short (m : MTProto) (o : Nat) (h : ¬ o + 8 ≤ m.size) :
    DecodeLong { m with off := o } = ({ m with off := o }, 0, some Error.shortRead) := by
  simp [DecodeLong, h]

theorem DecodeInt_at (m : MTProto) (o : Nat) (h : o + 4 ≤ m.size) :
    DecodeInt { m with off := o } =
      ({ m with off := o + 4 }, toInt32 (leNat ((m.buf.drop o).take 4) : Nat), none) := by
  simp [DecodeInt, h]

theorem DecodeInt_short (m : MTProto) (o : Nat) (h : ¬ o + 4 ≤ m.size) :
    DecodeInt { m with off := o } = ({ m with off := o }, 0, some Error.shortRead) := by
  simp [DecodeInt, h]

theorem off_zero (m : MTProto) (hoff : m.off = 0) : m = { m with off := 0 } := by
  cases m
  simp_all

theorem parseFrame_keyed (E : Env) (m : MTProto) (hoff : m.off = 0) (hs : 8 < m.size)
    (hk : leNat (m.buf.take 8) ≠ 0) :
    parseFrame E m = ({ m with off := 8 }, none) := by
  have h4 : m.size ≠ 4 := by omega
  have h8 : ¬ m.size ≤ 8 := by omega
  have e1 := DecodeLong_at m 0 (by omega)
  rw [← off_zero m hoff] at e1
  simp only [List.drop_zero] at e1
  simp only [parseFrame, h4, h8, if_false, e1, hk]

theorem parseFrame_plain (E : Env) (m : MTProto) (hoff : m.off = 0) (hs : 20 ≤ m.size)
    (hk : leNat (m.buf.take 8) = 0) :
    parseFrame E m =
      (if toInt32 (leNat ((m.buf.drop 16).take 4) : Nat) ≠ (m.size : Int) - 20 then
        ({ m with off := 20, messageId := leNat ((m.buf.drop 8).take 8) },
          some (Error.lengthMismatch (toInt32 (leNat ((m.buf.drop 16).take 4) : Nat))
            ((m.size : Int) - 20)))
      else if leNat ((m.buf.drop 8).take 8) % 4 ≠ 1 ∧ leNat ((m.buf.drop 8).take 8) % 4 ≠ 3 then
        ({ m with off := 20, messageId := leNat ((m.buf.drop 8).take 8) },
          some (Error.badMessageId (leNat ((m.buf.drop 8).take 8) % 4)))
      else
        DecodePacket E { m with off := 20, messageId := leNat ((m.buf.drop 8).take 8),
                                seqNo := 0, level := 0 }) := by
  have h4 : m.size ≠ 4 := by omega
  have h8 : ¬ m.size ≤ 8 := by omega
  have e1 := DecodeLong_at m 0 (by omega)
  rw [← off_zero m hoff] at e1
  simp only [List.drop_zero] at e1
  have e2 := DecodeLong_at m 8 (by omega)
  have e3 := DecodeInt_at { m with messageId := leNat ((m.buf.drop 8).take 8) } 16 (by show 16 + 4 ≤ m.size; omega)
  simp only [parseFrame, h4, h8, if_false, e1, hk, if_true, e2, e3, and_three]

theorem parseFrame_short (E : Env) (m : MTProto) (hoff : m.off = 0) (hs : 8 < m.size)
    (hs2 : m.size < 20) (hk : leNat (m.buf.take 8) = 0) :
    ∃ m2 : MTProto, m2.data = m.data ∧ m2.level = m.level ∧ m2.seqNo = m.seqNo ∧
      parseFrame E m = (m2, some Error.shortRead) := by
  have h4 : m.size ≠ 4 := by omega
  have h8 : ¬ m.size ≤ 8 := by omega
  have e1 := DecodeLong_at m 0 (by omega)
  rw [← off_zero m hoff] at e1
  simp only [List.drop_zero] at e1
  by_cases h16 : 8 + 8 ≤ m.size
  · have e2 := DecodeLong_at m 8 h16
    have e3 := DecodeInt_short { m with messageId := leNat ((m.buf.drop 8).take 8) } 16
      (by show ¬ 16 + 4 ≤ m.size; omega)
    refine ⟨{ m with off := 16, messageId := leNat ((m.buf.drop 8).take 8) }, rfl, rfl, rfl, ?_⟩
    simp only [parseFrame, h4, h8, if_false, e1, hk, if_true, e2, e3]
  · have e2 := DecodeLong_short m 8 h16
    refine ⟨{ m with off := 8, messageId := 0 }, rfl, rfl, rfl, ?_⟩
    simp only [parseFrame, h4, h8, if_false, e1, hk, if_true, e2]

/-! ## Framing and envelope: the claims -/

/-- C4. Framing round trip: when the pending input is the length header that
`SendPacket` puts in front of a body `x` (length a multiple of 4, word count below
`2^24`) followed by `x`, and the transport reports no error and does not split the
read of the three further header bytes, the frame reader of `Read` succeeds with
frame size `len(x)` and buffer exactly `x`, consuming exactly the frame. -/
theorem framing_round_trip (m : MTProto) (x rest : List Byte) (hx4 : x.length % 4 = 0)
    (hw : x.length / 4 < 2 ^ 24) (hin : m.conn.input = addLengthHeader x ++ rest)
    (hs : noFail m.conn.sched = true)
    (hh : 127 ≤ x.length / 4 → headerWhole m.conn.sched = true) :
    (readFrame m).2 = none ∧ (readFrame m).1.size = x.length ∧ (readFrame m).1.buf = x ∧
      (readFrame m).1.conn.input = rest := by
  obtain ⟨c, h1, _, _, _, h5⟩ := readFrame_spec m x rest hx4 hw hin hs hh
  rw [h5]
  exact ⟨rfl, rfl, rfl, h1⟩

theorem demoBody_length : demoBody.length = 508 := List.length_replicate _ _

theorem framing_round_trip_witness :
    demoBody.length / 4 = 127 ∧ (readFrame demoFramed).2 = none ∧
      (readFrame demoFramed).1.size = demoBody.length ∧ (readFrame demoFramed).1.buf = demoBody ∧
      (readFrame demoFramed).1.conn.input = [1, 2] :=
  ⟨by rw [demoBody_length],
    framing_round_trip demoFramed demoBody [1, 2] (by rw [demoBody_length])
      (by rw [demoBody_length]; decide) rfl (by decide) (fun _ => by decide)⟩

/-- C7. Once a frame has been read: a frame of exactly 4 bytes makes `Read` return
the server error whose code is those bytes as a little-endian signed 32-bit
integer, a frame of 0 or 8 bytes makes it return the frame-too-small error, and in
both cases the session is left as the frame reader left it (cursor 0, no envelope
field parsed, decoder not called). -/
theorem small_frames (E : Env) (m m1 : MTProto) (h : readFrame m = (m1, none)) :
    m1.buf.length = m1.size ∧ m1.off = 0 ∧
    (m1.size = 4 → Read E m = (m1, some (Error.serverError (toInt32 (leNat m1.buf : Nat))))) ∧
    (m1.size = 0 ∨ m1.size = 8 → Read E m = (m1, some (Error.tooSmall m1.size))) := by
  obtain ⟨ho, hb, _⟩ := readFrame_ok m m1 h
  refine ⟨hb, ho, ?_, ?_⟩
  · intro h4
    simp only [Read, h, parseFrame, h4, if_true]
  · intro h08
    have h4 : m1.size ≠ 4 := by omega
    have h8 : m1.size ≤ 8 := by omega
    simp only [Read, h, parseFrame, h4, h8, if_true, if_false]

theorem small_frames_witness :
    (Read demoEnv demoServerError).2 = some (Error.serverError (-404)) ∧
      (Read demoEnv demoEightBytes).2 = some (Error.tooSmall 8) := by
  have h1 := (small_frames demoEnv demoServerError (readFrame demoServerError).1
    (Prod.ext rfl (by decide))).2.2.1 (by decide)
  have h2 := (small_frames demoEnv demoEightBytes (readFrame demoEightBytes).1
    (Prod.ext rfl (by decide))).2.2.2 (by decide)
  rw [h1, h2]
  exact ⟨by decide, by decide⟩

theorem declared_forces_size (m1 : MTProto) (hb : m1.buf.length = m1.size) (hs4 : m1.size % 4 = 0)
    (hl : toInt32 (leNat ((m1.buf.drop 16).take 4) : Nat) = (m1.size : Int) - 20) :
    20 ≤ m1.size := by
  by_contra hlt
  have h16 : m1.buf.drop 16 = [] := by
    apply List.drop_of_length_le
    omega
  rw [h16] at hl
  simp only [List.take_nil, leNat, toInt32] at hl
  omega

/-- C8. For a frame read with zero auth-key-id and a declared length equal to the
frame size minus 20 (so the frame has at least 20 bytes): when the message id is 0 or 2 modulo 4
`Read` returns the parity error with nothing decoded (the decoder is not called),
and when it is 1 or 3 modulo 4 `Read` is the decoder run on the payload at
offset 20. -/
theorem parity_check (E : Env) (m m1 : MTProto) (h : readFrame m = (m1, none))
    (hk : leNat (m1.buf.take 8) = 0)
    (hl : toInt32 (leNat ((m1.buf.drop 16).take 4) : Nat) = (m1.size : Int) - 20) :
    (leNat ((m1.buf.drop 8).take 8) % 4 = 0 ∨ leNat ((m1.buf.drop 8).take 8) % 4 = 2 →
      Read E m = ({ m1 with off := 20, messageId := leNat ((m1.buf.drop 8).take 8) },
        some (Error.badMessageId (leNat ((m1.buf.drop 8).take 8) % 4)))) ∧
    (leNat ((m1.buf.drop 8).take 8) % 4 = 1 ∨ leNat ((m1.buf.drop 8).take 8) % 4 = 3 →
      Read E m = DecodePacket E { m1 with off := 20, messageId := leNat ((m1.buf.drop 8).take 8),
                                          seqNo := 0, level := 0 }) := by
  obtain ⟨ho, hb, hs4⟩ := readFrame_ok m m1 h
  have h20 := declared_forces_size m1 hb hs4 hl
  have hp := parseFrame_plain E m1 ho h20 hk
  simp only [hl, ne_eq, not_true_eq_false, if_false] at hp
  constructor
  · intro hpar
    have hc : leNat ((m1.buf.drop 8).take 8) % 4 ≠ 1 ∧ leNat ((m1.buf.drop 8).take 8) % 4 ≠ 3 := by
      omega
    simp only [Read, h, hp, ne_eq, hc, not_false_eq_true, and_self, if_true]
  · intro hpar
    have hc : ¬ (leNat ((m1.buf.drop 8).take 8) % 4 ≠ 1 ∧ leNat ((m1.buf.drop 8).take 8) % 4 ≠ 3) := by
      omega
    simp only [Read, h, hp]
    rw [if_neg hc]

theorem parity_check_witness :
    (Read demoEnv demoEvenId).2 = some (Error.badMessageId 2) := by
  have h := (parity_check demoEnv demoEvenId (readFrame demoEvenId).1 (Prod.ext rfl (by decide))
    (by decide) (by decide)).1 (by decide)
  rw [h]
  decide

/-- C9. For a frame read with zero auth-key-id and more than 8 bytes: when the
declared length (bytes 16..19 as a signed 32-bit integer) differs from the frame
size minus 20, `Read` returns the length error with the message id stored and
nothing else parsed (no parity check, decoder not called); a frame of fewer than
20 bytes, which has no declared length, is rejected by the field decoders; when the
declared length is equal, `Read` goes on to the parity check and the decoder. -/
theorem length_check (E : Env) (m m1 : MTProto) (h : readFrame m = (m1, none))
    (hs : 8 < m1.size) (hk : leNat (m1.buf.take 8) = 0) :
    (20 ≤ m1.size →
      toInt32 (leNat ((m1.buf.drop 16).take 4) : Nat) ≠ (m1.size : Int) - 20 →
      Read E m = ({ m1 with off := 20, messageId := leNat ((m1.buf.drop 8).take 8) },
        some (Error.lengthMismatch (toInt32 (leNat ((m1.buf.drop 16).take 4) : Nat))
          ((m1.size : Int) - 20)))) ∧
    (m1.size < 20 →
      ∃ m2 : MTProto, m2.data = m1.data ∧ m2.level = m1.level ∧ m2.seqNo = m1.seqNo ∧
        Read E m = (m2, some Error.shortRead)) ∧
    (toInt32 (leNat ((m1.buf.drop 16).take 4) : Nat) = (m1.size : Int) - 20 →
      Read E m =
        if leNat ((m1.buf.drop 8).take 8) % 4 ≠ 1 ∧ leNat ((m1.buf.drop 8).take 8) % 4 ≠ 3 then
          ({ m1 with off := 20, messageId := leNat ((m1.buf.drop 8).take 8) },
            some (Error.badMessageId (leNat ((m1.buf.drop 8).take 8) % 4)))
        else DecodePacket E { m1 with off := 20, messageId := leNat ((m1.buf.drop 8).take 8),
                                      seqNo := 0, level := 0 }) := by
  obtain ⟨ho, hb, hs4⟩ := readFrame_ok m m1 h
  refine ⟨?_, ?_, ?_⟩
  · intro h20 hne
    have hp := parseFrame_plain E m1 ho h20 hk
    rw [if_pos hne] at hp
    simp only [Read, h, hp]
  · intro hlt
    obtain ⟨m2, h1, h2, h3, h4⟩ := parseFrame_short E m1 ho hs hlt hk
    exact ⟨m2, h1, h2, h3, by simp only [Read, h, h4]⟩
  · intro hl
    have h20 := declared_forces_size m1 hb hs4 hl
    have hp := parseFrame_plain E m1 ho h20 hk
    simp only [hl, ne_eq, not_true_eq_false, if_false] at hp
    simp only [Read, h, hp, ne_eq]

theorem length_check_witness :
    (Read demoEnv demoBadLength).2 = some (Error.lengthMismatch 8 4) := by
  have h := (length_check demoEnv demoBadLength (readFrame demoBadLength).1
    (Prod.ext rfl (by decide)) (by decide) (by decide)).1 (by decide) (by decide)
  rw [h]
  decide

/-- C6 as the code has it: for a frame read with more than 8 bytes and a non-zero
auth-key-id, `Read` returns `nil`; it only moves the cursor past the auth-key-id
and parses and decodes nothing. -/
theorem keyed_frame_accepted (E : Env) (m m1 : MTProto) (h : readFrame m = (m1, none))
    (hs : 8 < m1.size) (hk : leNat (m1.buf.take 8) ≠ 0) :
    Read E m = ({ m1 with off := 8 }, none) := by
  obtain ⟨ho, _, _⟩ := readFrame_ok m m1 h
  simp only [Read, h, parseFrame_keyed E m1 ho hs hk]

theorem keyed_frame_accepted_witness : Read demoEnv demoKeyedFrame =
    ({ (readFrame demoKeyedFrame).1 with off := 8 }, none) :=
  keyed_frame_accepted demoEnv demoKeyedFrame (readFrame demoKeyedFrame).1
    (Prod.ext rfl (by decide)) (by decide) (by decide)

/-- C6 fails as stated: a twelve-byte frame with auth-key-id 1 is read without
error. -/
theorem keyed_frame_counterexample :
    (readFrame demoKeyedFrame).2 = none ∧ 8 < (readFrame demoKeyedFrame).1.size ∧
      leNat ((readFrame demoKeyedFrame).1.buf.take 8) = 1 ∧
      (Read demoEnv demoKeyedFrame).2 = none := by
  decide

/-- C10. The header `SendPacket` writes in front of a frame body `x` of word count
`w = len(x)/4`: the single byte `w` when `w ≤ 126`; when `w ≥ 127` the four bytes
of the little-endian encoding of `(w << 8) | 127`, which are `0x7F` followed by the
three low-order bytes of `w`, least significant first (they denote `w` itself when
`w < 2^24`).  What a successful `SendPacket` writes is this header and the body. -/
theorem length_header_form (x : List Byte) :
    (x.length / 4 ≤ 126 →
      addLengthHeader x = [toByte (x.length / 4)] ++ x ∧ (toByte (x.length / 4)).val = x.length / 4) ∧
    (127 ≤ x.length / 4 →
      addLengthHeader x = leBytes 4 ((x.length / 4) <<< 8 ||| 127) ++ x ∧
      leBytes 4 ((x.length / 4) <<< 8 ||| 127) =
        [0x7F, toByte (x.length / 4), toByte (x.length / 4 / 256), toByte (x.length / 4 / 65536)] ∧
      (x.length / 4 < 2 ^ 24 →
        leNat [toByte (x.length / 4), toByte (x.length / 4 / 256), toByte (x.length / 4 / 65536)] =
          x.length / 4)) ∧
    (∀ (E : Env) (msg : List Byte) (m : MTProto),
      x = envelope (E.GenerateMessageId m.tick) m.encrypted msg → (SendPacket E msg m).2 = none →
      (SendPacket E msg m).1.conn.output = m.conn.output ++ [addLengthHeader x]) := by
  refine ⟨?_, ?_, ?_⟩
  · intro h
    refine ⟨addLengthHeader_small x (by omega), ?_⟩
    rw [toByte_val]
    omega
  · intro h
    refine ⟨?_, ?_, leNat_three _⟩
    · rw [addLengthHeader_large x h, shiftLeft8_or_127, leBytes4_marker]
    · rw [shiftLeft8_or_127, leBytes4_marker]
  · intro E msg m hx hok
    rw [hx]
    exact SendPacket_written E msg m hok

theorem length_header_form_witness :
    addLengthHeader demoBody = [0x7F, 127, 0, 0] ++ demoBody := by
  have h := ((length_header_form demoBody).2.1 (by rw [demoBody_length])).1
  have h2 := ((length_header_form demoBody).2.1 (by rw [demoBody_length])).2.1
  rw [h, h2, demoBody_length]
  rfl

/-! ## The plain envelope -/

theorem EncodeLong_length (v : Nat) : (EncodeLong v).length = 8 := leBytes_length 8 _

theorem EncodeInt_length (v : Int) : (EncodeInt v).length = 4 := leBytes_length 4 _

theorem leNat_EncodeLong (v : Nat) : leNat (EncodeLong v) = v % 2 ^ 64 := by
  unfold EncodeLong
  rw [leNat_leBytes]
  omega

theorem envelope_length (mid : Nat) (msg : List Byte) :
    (envelope mid false msg).length = 20 + msg.length := by
  simp only [envelope, Bool.false_eq_true, if_false, List.length_append, EncodeLong_length,
    EncodeInt_length]

theorem envelope_fields (mid : Nat) (msg : List Byte) (h : msg.length < 2 ^ 31) :
    leNat ((envelope mid false msg).take 8) = 0 ∧
    leNat (((envelope mid false msg).drop 8).take 8) = mid % 2 ^ 64 ∧
    toInt32 (leNat (((envelope mid false msg).drop 16).take 4) : Nat) = (msg.length : Int) ∧
    (envelope mid false msg).drop 20 = msg := by
  have e1 : (envelope mid false msg).take 8 = EncodeLong 0 := by
    simp only [envelope, Bool.false_eq_true, if_false, List.append_assoc]
    exact List.take_left' (EncodeLong_length 0)
  have e2 : (envelope mid false msg).drop 8 =
      EncodeLong mid ++ (EncodeInt (toInt32 (msg.length : Int)) ++ msg) := by
    simp only [envelope, Bool.false_eq_true, if_false, List.append_assoc]
    exact List.drop_left' (EncodeLong_length 0)
  have e3 : (envelope mid false msg).drop 16 = EncodeInt (toInt32 (msg.length : Int)) ++ msg := by
    have : (envelope mid false msg).drop 16 = ((envelope mid false msg).drop 8).drop 8 := by
      rw [List.drop_drop]
    rw [this, e2]
    exact List.drop_left' (EncodeLong_length mid)
  have e4 : (envelope mid false msg).drop 20 = msg := by
    have : (envelope mid false msg).drop 20 = ((envelope mid false msg).drop 16).drop 4 := by
      rw [List.drop_drop]
    rw [this, e3]
    exact List.drop_left' (EncodeInt_length _)
  refine ⟨?_, ?_, ?_, e4⟩
  · rw [e1, leNat_EncodeLong]
    rfl
  · rw [e2, List.take_left' (EncodeLong_length mid), leNat_EncodeLong]
  · rw [e3, List.take_left' (EncodeInt_length _), EncodeInt_toInt32, leNat_leBytes]
    unfold toInt32
    omega

/-- C5 as the code has it: on an unencrypted session, for a payload whose length
is a multiple of 4 and whose framed envelope has fewer than `2^24` words
(`(20 + len(msg))/4 < 2^24`), and a message id that is 1 or 3 modulo 4, the bytes a
successful `SendPacket` writes, fed to `Read` over a transport that neither fails
nor splits the header read, are parsed as auth-key-id 0, the same message id
(stored in `messageId`), declared length `len(msg)`, and the decoder is run at
offset 20 on a buffer whose remaining bytes are exactly `msg`. -/
theorem plain_envelope_round_trip (E E2 : Env) (msg rest f : List Byte) (m r : MTProto)
    (hm4 : msg.length % 4 = 0) (hsz : (20 + msg.length) / 4 < 2 ^ 24)
    (hplain : m.encrypted = false)
    (hpar : E.GenerateMessageId m.tick % 4 = 1 ∨ E.GenerateMessageId m.tick % 4 = 3)
    (hsend : (SendPacket E msg m).2 = none)
    (hf : (SendPacket E msg m).1.conn.output = m.conn.output ++ [f])
    (hin : r.conn.input = f ++ rest) (hs : noFail r.conn.sched = true)
    (hh : 127 ≤ (20 + msg.length) / 4 → headerWhole r.conn.sched = true) :
    ∃ (c : Conn) (body : List Byte), c.input = rest ∧
      readFrame r = ({ r with conn := c, buf := body, size := 20 + msg.length, off := 0 }, none) ∧
      leNat (body.take 8) = 0 ∧
      leNat ((body.drop 8).take 8) = E.GenerateMessageId m.tick % 2 ^ 64 ∧
      toInt32 (leNat ((body.drop 16).take 4) : Nat) = (msg.length : Int) ∧
      body.drop 20 = msg ∧
      Read E2 r = DecodePacket E2 { r with conn := c, buf := body, size := 20 + msg.length, off := 20,
                                           messageId := E.GenerateMessageId m.tick % 2 ^ 64,
                                           seqNo := 0, level := 0 } := by
  have hw := SendPacket_written E msg m hsend
  rw [hf, hplain] at hw
  have hfe : f = addLengthHeader (envelope (E.GenerateMessageId m.tick) false msg) := by
    have := List.append_cancel_left hw
    simpa using this
  have hlen := envelope_length (E.GenerateMessageId m.tick) msg
  obtain ⟨k1, k2, k3, k4⟩ := envelope_fields (E.GenerateMessageId m.tick) msg (by omega)
  rw [hfe] at hin
  obtain ⟨c, h1, _, _, _, h5⟩ :=
    readFrame_spec r (envelope (E.GenerateMessageId m.tick) false msg) rest (by omega) (by omega)
      hin hs (fun h => hh (by rw [hlen] at h; exact h))
  rw [hlen] at h5
  refine ⟨c, envelope (E.GenerateMessageId m.tick) false msg, h1, h5, k1, k2, k3, k4, ?_⟩
  have hp := parseFrame_plain E2
    { r with conn := c, buf := envelope (E.GenerateMessageId m.tick) false msg,
             size := 20 + msg.length, off := 0 } rfl (by show 20 ≤ 20 + msg.length; omega) k1
  simp only [k2, k3] at hp
  have hd : ¬ ((msg.length : Int) ≠ ((20 + msg.length : Nat) : Int) - 20) := by
    push_cast
    omega
  have hq : ¬ (E.GenerateMessageId m.tick % 2 ^ 64 % 4 ≠ 1 ∧
      E.GenerateMessageId m.tick % 2 ^ 64 % 4 ≠ 3) := by
    omega
  rw [if_neg hd, if_neg hq] at hp
  simp only [Read, h5, hp]

theorem plain_envelope_round_trip_witness :
    ∃ (c : Conn) (body : List Byte), c.input = [9] ∧ (readFrame demoReceiver).1.buf = body ∧
      leNat ((body.drop 8).take 8) = 1 ∧ body.drop 20 = demoPayload ∧
      Read demoEnv demoReceiver =
        DecodePacket demoEnv { demoReceiver with conn := c, buf := body, size := 40, off := 20,
                                                 messageId := 1, seqNo := 0, level := 0 } := by
  obtain ⟨c, body, h1, h2, _, h4, _, h6, h7⟩ :=
    plain_envelope_round_trip demoEnv demoEnv demoPayload [9] (plainFrame 1 demoPayload)
      (connected [] []) demoReceiver (by decide) (by decide) rfl (by decide) (by decide)
      (by decide) rfl (by decide) (fun h => absurd h (by decide))
  exact ⟨c, body, h1, by rw [h2], h4, h6, h7⟩

theorem Read_zero_words (E : Env) (m : MTProto) (rest : List Byte)
    (hin : m.conn.input = [127, 0, 0, 0] ++ rest) (hs : m.conn.sched = []) :
    (Read E m).2 = some (Error.tooSmall 0) := by
  have hnf : noFail m.conn.sched = true := by rw [hs]; rfl
  have hne : m.conn.input ≠ [] := by rw [hin]; simp
  have hcp : copyAt (zeros 1) 0 [(127 : Byte)] = [127] := by
    simp [copyAt, zeros]
  have hcp3 : copyAt (zeros 3) 0 [(0 : Byte), 0, 0] = [0, 0, 0] := by
    simp [copyAt, zeros]
  have h127 : ¬ ((127 : Byte).val < 127) := by decide
  unfold Read readFrame
  rw [Conn.Read_noFail _ _ (by decide) hne hnf]
  simp only [hs, chunkOf, hin, List.cons_append, List.nil_append, List.take_succ_cons,
    List.take_zero, List.drop_succ_cons, List.drop_zero, hcp, List.getD_cons_zero, h127, if_false,
    List.tail_nil]
  rw [Conn.Read_noFail _ _ (by decide) (by simp) (by rfl)]
  simp only [chunkOf, List.take_succ_cons, List.take_zero, List.drop_succ_cons, List.drop_zero,
    hcp3, List.getD_cons_zero, List.getD_cons_succ]
  rfl

theorem SendPacket_ok (E : Env) (msg : List Byte) (m : MTProto) (h : m.conn.wsched = []) :
    (SendPacket E msg m).2 = none := by
  unfold SendPacket Conn.Write
  cases he : m.encrypted <;> simp [h]

theorem demoHugePayload_length : demoHugePayload.length = 67108844 := List.length_replicate _ _

/-- C5 fails as stated: for the payload of `2^26 - 20` bytes (a multiple of 4) and
message id 1, the frame `SendPacket` writes carries the header `7F 00 00 00`, and
`Read` takes it for an empty frame and returns the too-small error. -/
theorem plain_envelope_counterexample :
    demoHugePayload.length % 4 = 0 ∧
    demoEnv.GenerateMessageId (connected [] []).tick % 4 = 1 ∧
    (SendPacket demoEnv demoHugePayload (connected [] [])).2 = none ∧
    ∃ f : List Byte,
      (SendPacket demoEnv demoHugePayload (connected [] [])).1.conn.output = [[0xEF], f] ∧
      (Read demoEnv (connected f [])).2 = some (Error.tooSmall 0) := by
  have hsend : (SendPacket demoEnv demoHugePayload (connected [] [])).2 = none :=
    SendPacket_ok _ _ _ rfl
  have hw := SendPacket_written demoEnv demoHugePayload (connected [] []) hsend
  have hlen : (envelope 1 false demoHugePayload).length = 67108864 := by
    rw [envelope_length, demoHugePayload_length]
  have hhead : addLengthHeader (envelope 1 false demoHugePayload) =
      [127, 0, 0, 0] ++ envelope 1 false demoHugePayload := by
    rw [addLengthHeader_large _ (by rw [hlen]; decide), hlen]
    rfl
  have hw2 : (SendPacket demoEnv demoHugePayload (connected [] [])).1.conn.output =
      [[0xEF], addLengthHeader (envelope 1 false demoHugePayload)] := hw
  generalize addLengthHeader (envelope 1 false demoHugePayload) = F at hw2 hhead
  refine ⟨by rw [demoHugePayload_length], rfl, hsend, F, hw2, ?_⟩
  have hin : (connected F []).conn.input = [127, 0, 0, 0] ++ envelope 1 false demoHugePayload :=
    hhead
  exact Read_zero_words demoEnv (connected F []) _ hin rfl

/-! ## Handshake: what the rounds leave alone -/

@[simp] theorem emit_m (ev : Event) (r : Run) : (emit ev r).m = r.m := rfl

@[simp] theorem emit_outcome (ev : Event) (r : Run) : (emit ev r).outcome = r.outcome := rfl

@[simp] theorem emit_trace (ev : Event) (r : Run) : (emit ev r).trace = ev :: r.trace := rfl

theorem SendPacket_keys (E : Env) (msg : List Byte) (m : MTProto) :
    (SendPacket E msg m).1.keys = m.keys := by
  unfold SendPacket
  cases he : m.encrypted <;> simp [MTProto.keys, he]

theorem DecodePacket_keys (E : Env) (m : MTProto) : (DecodePacket E m).1.keys = m.keys := rfl

theorem DecodeLong_keys (m : MTProto) : (DecodeLong m).1.keys = m.keys := by
  unfold DecodeLong
  split <;> rfl

theorem DecodeInt_keys (m : MTProto) : (DecodeInt m).1.keys = m.keys := by
  unfold DecodeInt
  split <;> rfl

theorem parseFrame_keys (E : Env) (m : MTProto) : (parseFrame E m).1.keys = m.keys := by
  unfold parseFrame
  split
  · rfl
  split
  · rfl
  rcases h1 : DecodeLong m with ⟨m1, a, e1⟩
  have k1 : m1.keys = m.keys := by
    have := DecodeLong_keys m
    rw [h1] at this
    exact this
  simp only
  split
  · rcases h2 : DecodeLong m1 with ⟨m2, mid, e2⟩
    have k2 : m2.keys = m.keys := by
      have := DecodeLong_keys m1
      rw [h2] at this
      exact this.trans k1
    cases e2 with
    | some e => exact k2
    | none =>
      simp only
      rcases h3 : DecodeInt { m2 with messageId := mid } with ⟨m3, len, e3⟩
      have k3 : m3.keys = m.keys := by
        have := DecodeInt_keys { m2 with messageId := mid }
        rw [h3] at this
        exact this.trans k2
      cases e3 with
      | some e => exact k3
      | none =>
        simp only
        split
        · exact k3
        · split
          · exact k3
          · exact k3
  · exact k1

theorem readFrame_keys (m : MTProto) : (readFrame m).1.keys = m.keys := by
  obtain ⟨c, b, s, o, h, _⟩ := readFrame_shape m
  rw [h]
  rfl

theorem Read_keys (E : Env) (m : MTProto) : (Read E m).1.keys = m.keys := by
  unfold Read
  have h := readFrame_keys m
  split
  · rename_i m1 e heq
    rw [heq] at h
    exact h
  · rename_i m1 heq
    rw [heq] at h
    rw [parseFrame_keys]
    exact h

/-! ## Handshake: the shape of every run -/

@[simp] theorem call_some (m : MTProto) (e : Error) (k : MTProto → Run) :
    call (m, some e) k = ⟨m, Outcome.err e, []⟩ := rfl

@[simp] theorem call_none (m : MTProto) (k : MTProto → Run) : call (m, none) k = k m := rfl

@[simp] theorem orPanic_none {α : Type} (m : MTProto) (k : α → Run) :
    orPanic none m k = ⟨m, Outcome.panic, []⟩ := rfl

@[simp] theorem orPanic_some {α : Type} (a : α) (m : MTProto) (k : α → Run) :
    orPanic (some a) m k = k a := rfl

@[simp] theorem decodedResponses_nil : decodedResponses [] = [] := rfl

@[simp] theorem decodedResponses_inspect (d : TLData) (tr : List Event) :
    decodedResponses (Event.inspect d :: tr) = d :: decodedResponses tr := rfl

theorem decodedResponses_cons (ev : Event) (tr : List Event) (h : ∀ d, ev ≠ Event.inspect d) :
    decodedResponses (ev :: tr) = decodedResponses tr := by
  cases ev <;> first | rfl | exact absurd rfl (h _)

theorem Aborted.keep_emit {m : MTProto} {r : Run} (ev : Event) (h : Aborted m r)
    (h1 : ∀ g, ev ≠ Event.setGAB g) (h2 : ∀ s, ev ≠ Event.setSalt s) : Aborted m (emit ev r) := by
  obtain ⟨a, b, c, d⟩ := h
  refine ⟨a, ?_, ?_, d⟩
  · intro g hg
    simp only [emit_trace, List.mem_cons] at hg
    rcases hg with hg | hg
    · exact h1 g hg.symm
    · exact b g hg
  · intro s hs
    simp only [emit_trace, List.mem_cons] at hs
    rcases hs with hs | hs
    · exact h2 s hs.symm
    · exact c s hs

theorem Aborted.rebase {m m1 : MTProto} {r : Run} (h : Aborted m1 r) (hk : m1.keys = m.keys) :
    Aborted m r := by
  obtain ⟨a, b, c, d⟩ := h
  exact ⟨a.trans hk, b, c, d⟩

theorem Aborted.err (m m1 : MTProto) (e : Error) (hk : m1.keys = m.keys) :
    Aborted m ⟨m1, Outcome.err e, []⟩ :=
  ⟨hk, fun _ h => by simp at h, fun _ h => by simp at h, by simp⟩

theorem Aborted.panic (m m1 : MTProto) (hk : m1.keys = m.keys) :
    Aborted m ⟨m1, Outcome.panic, []⟩ :=
  ⟨hk, fun _ h => by simp at h, fun _ h => by simp at h, by simp⟩

theorem Reached.past_emit {E : Env} {g : Int} {salt : List Byte} {m : MTProto} {r : Run} (ev : Event)
    (h : Reached E g salt m r) : Reached E g salt m (emit ev r) := by
  obtain ⟨m1, a, b, c⟩ := h
  exact ⟨m1, a, by simp [b], c⟩

theorem Reached.reroot {E : Env} {g : Int} {salt : List Byte} {m m0 : MTProto} {r : Run}
    (h : Reached E g salt m r) (hk : m.keys = m0.keys) : Reached E g salt m0 r := by
  obtain ⟨m1, a, b, c⟩ := h
  exact ⟨m1, a.trans hk, b, c⟩

theorem confirmKey_run (E : Env) (nf ns nh salt : List Byte) (g : Int) (m : MTProto) :
    (Aborted m (confirmKey E nf ns nh salt g m) ∧
      ∃ e, (confirmKey E nf ns nh salt g m).outcome = Outcome.err e) ∨
    (Reached E g salt m (confirmKey E nf ns nh salt g m) ∧
      ∃ dhg, decodedResponses (confirmKey E nf ns nh salt g m).trace = [TLData.dh_gen_ok dhg] ∧
        nf = dhg.nonce ∧ ns = dhg.server_nonce ∧ nh = dhg.new_nonce_hash1) := by
  unfold confirmKey
  have hk := Read_keys E m
  rcases hR : Read E m with ⟨m1, e1⟩
  rw [hR] at hk
  simp only at hk
  cases e1 with
  | some e =>
    left
    exact ⟨(Aborted.err m m1 e hk).keep_emit _ (by simp) (by simp), e, rfl⟩
  | none =>
    simp only [call_none]
    cases hd : m1.data with
    | dh_gen_ok dhg =>
      simp only
      by_cases h1 : nf = dhg.nonce
      · by_cases h2 : ns = dhg.server_nonce
        · by_cases h3 : nh = dhg.new_nonce_hash1
          · right
            simp only [h1, h2, h3, ne_eq, not_true_eq_false, if_false]
            refine ⟨?_, dhg, ?_, rfl, rfl, rfl⟩
            · apply Reached.past_emit
              apply Reached.past_emit
              refine ⟨m1, hk, by simp, ?_⟩
              cases hS : (setGAB E g m1).2 with
              | true =>
                left
                rcases hS2 : setGAB E g m1 with ⟨m2, b⟩
                rw [hS2] at hS
                simp only at hS
                subst hS
                simp
              | false =>
                right
                rcases hS2 : setGAB E g m1 with ⟨m2, b⟩
                rw [hS2] at hS
                simp only at hS
                subst hS
                simp
            · rcases hS2 : setGAB E g m1 with ⟨m2, b⟩
              cases b <;> simp [decodedResponses]
          · left
            simp only [h1, h2, h3, ne_eq, not_true_eq_false, not_false_eq_true, if_false, if_true]
            exact ⟨((Aborted.err m m1 _ hk).keep_emit _ (by simp) (by simp)).keep_emit _ (by simp) (by simp),
              _, rfl⟩
        · left
          simp only [h1, h2, ne_eq, not_true_eq_false, not_false_eq_true, if_false, if_true]
          exact ⟨((Aborted.err m m1 _ hk).keep_emit _ (by simp) (by simp)).keep_emit _ (by simp) (by simp),
            _, rfl⟩
      · left
        simp only [h1, ne_eq, not_false_eq_true, if_true]
        exact ⟨((Aborted.err m m1 _ hk).keep_emit _ (by simp) (by simp)).keep_emit _ (by simp) (by simp),
          _, rfl⟩
    | _ =>
      left
      exact ⟨((Aborted.err m m1 _ hk).keep_emit _ (by simp) (by simp)).keep_emit _ (by simp) (by simp),
        _, rfl⟩

theorem allOK_nil (nf ns : List Byte) (k : Nat) : allOK nf ns k [] := by
  intro j d h
  simp at h

theorem allOK_cons (nf ns : List Byte) (k : Nat) (d : TLData) (ds : List TLData)
    (h1 : roundOK nf ns k d) (h2 : allOK nf ns (k + 1) ds) : allOK nf ns k (d :: ds) := by
  intro j x h
  cases j with
  | zero =>
    simp only [List.getElem?_cons_zero, Option.some.injEq] at h
    subst h
    exact h1
  | succ j =>
    simp only [List.getElem?_cons_succ] at h
    have := h2 j x h
    rw [show k + (j + 1) = k + 1 + j by omega]
    exact this

theorem Completed.thru_emit {E : Env} {nf n2 ns : List Byte} {dhi : TL_server_DH_inner_data}
    {dhg : TL_dh_gen_ok} {m : MTProto} {r : Run} (ev : Event)
    (h : Completed E nf n2 ns dhi dhg m r) : Completed E nf n2 ns dhi dhg m (emit ev r) := by
  obtain ⟨a, b, c, h1, h2, h3, h4, h5, h6, h7⟩ := h
  exact ⟨a, b, c, h1, h2, h3, h4, h5, h6, h7.past_emit ev⟩

theorem Completed.resume {E : Env} {nf n2 ns : List Byte} {dhi : TL_server_DH_inner_data}
    {dhg : TL_dh_gen_ok} {m m0 : MTProto} {r : Run}
    (h : Completed E nf n2 ns dhi dhg m r) (hk : m.keys = m0.keys) :
    Completed E nf n2 ns dhi dhg m0 r := by
  obtain ⟨a, b, c, h1, h2, h3, h4, h5, h6, h7⟩ := h
  exact ⟨a, b, c, h1, h2, h3, h4, h5, h6, h7.reroot hk⟩

theorem exchangeKeys_run (E : Env) (nf n2 ns key iv : List Byte) (dhi : TL_server_DH_inner_data)
    (m : MTProto) :
    (Aborted m (exchangeKeys E nf n2 ns key iv dhi m) ∧
      ((∃ e, (exchangeKeys E nf n2 ns key iv dhi m).outcome = Outcome.err e) ∨
        decodedResponses (exchangeKeys E nf n2 ns key iv dhi m).trace = [])) ∨
    (∃ dhg, decodedResponses (exchangeKeys E nf n2 ns key iv dhi m).trace = [TLData.dh_gen_ok dhg] ∧
      Completed E nf n2 ns dhi dhg m (exchangeKeys E nf n2 ns key iv dhi m)) := by
  unfold exchangeKeys
  rcases hG : E.MakeGAB dhi.g dhi.g_a dhi.dh_prime with ⟨b, g_b, g_ab⟩
  simp only
  cases hA : authKeyOf? g_ab with
  | none =>
    left
    exact ⟨(Aborted.panic m m rfl).keep_emit _ (by simp) (by simp), Or.inr rfl⟩
  | some authKey =>
    simp only [orPanic_some]
    cases hN : nonceHash1? E n2 authKey with
    | none =>
      left
      exact ⟨(Aborted.panic m m rfl).keep_emit _ (by simp) (by simp), Or.inr rfl⟩
    | some nh =>
      simp only [orPanic_some]
      cases hS : serverSalt? n2 ns with
      | none =>
        left
        exact ⟨(Aborted.panic m m rfl).keep_emit _ (by simp) (by simp), Or.inr rfl⟩
      | some salt =>
        simp only [orPanic_some]
        generalize (E.AES256IGE_encrypt
          (padForAES E (E.Encode_TL_client_DH_inner_data nf ns 0 g_b)) key iv).1 = enc
        have hk := SendPacket_keys E (E.Encode_TL_set_client_DH_params nf ns enc) m
        rcases hP : SendPacket E (E.Encode_TL_set_client_DH_params nf ns enc) m with ⟨m1, e1⟩
        rw [hP] at hk
        simp only at hk
        cases e1 with
        | some e =>
          left
          exact ⟨(((Aborted.err m m1 e hk).keep_emit _ (by simp) (by simp)).keep_emit _ (by simp)
            (by simp)).keep_emit _ (by simp) (by simp), Or.inl ⟨e, rfl⟩⟩
        | none =>
          simp only [call_none]
          rcases confirmKey_run E nf ns nh salt g_ab m1 with ⟨ha, e, he⟩ | ⟨hr, dhg, hd, c1, c2, c3⟩
          · left
            exact ⟨(((ha.rebase hk).keep_emit _ (by simp) (by simp)).keep_emit _ (by simp)
              (by simp)).keep_emit _ (by simp) (by simp), Or.inl ⟨e, he⟩⟩
          · right
            refine ⟨dhg, ?_, ?_⟩
            · simp only [emit_trace]
              rw [decodedResponses_cons _ _ (by simp), decodedResponses_cons _ _ (by simp),
                decodedResponses_cons _ _ (by simp)]
              exact hd
            · apply Completed.thru_emit
              apply Completed.thru_emit
              apply Completed.thru_emit
              unfold Completed
              rw [hG]
              exact ⟨authKey, nh, salt, hA, hN, hS, c1, c2, c3, hr.reroot hk⟩

theorem openAnswer_run (E : Env) (nf n2 ns : List Byte) (dh : TL_server_DH_params_ok)
    (m : MTProto) :
    (Aborted m (openAnswer E nf n2 ns dh m) ∧
      ((∃ e, (openAnswer E nf n2 ns dh m).outcome = Outcome.err e) ∨
        allOK nf ns 2 (decodedResponses (openAnswer E nf n2 ns dh m).trace))) ∨
    (∃ dhi dhg, decodedResponses (openAnswer E nf n2 ns dh m).trace =
        [TLData.server_DH_inner_data dhi, TLData.dh_gen_ok dhg] ∧
      nf = dhi.nonce ∧ ns = dhi.server_nonce ∧
      Completed E nf n2 ns dhi dhg m (openAnswer E nf n2 ns dh m)) := by
  unfold openAnswer
  cases hT : tmpAES? E n2 ns with
  | none =>
    left
    exact ⟨Aborted.panic m m rfl, Or.inr (allOK_nil _ _ _)⟩
  | some kv =>
    obtain ⟨key, iv⟩ := kv
    simp only [orPanic_some]
    rcases hX : E.AES256IGE_decrypt dh.encrypted_answer key iv with ⟨dd, ed⟩
    cases ed with
    | some e =>
      left
      exact ⟨(Aborted.err m m e rfl).keep_emit _ (by simp) (by simp), Or.inl ⟨e, rfl⟩⟩
    | none =>
      simp only
      cases hB : slice? dd 20 dd.length with
      | none =>
        left
        exact ⟨(Aborted.panic m m rfl).keep_emit _ (by simp) (by simp), Or.inr (allOK_nil _ _ _)⟩
      | some body =>
        simp only [orPanic_some]
        have hk := DecodePacket_keys E { m with buf := body, size := body.length, off := 0, level := 0 }
        rcases hD : DecodePacket E { m with buf := body, size := body.length, off := 0, level := 0 }
          with ⟨m1, e1⟩
        rw [hD] at hk
        replace hk : m1.keys = m.keys := hk
        cases e1 with
        | some e =>
          left
          exact ⟨((Aborted.err m m1 e hk).keep_emit _ (by simp) (by simp)).keep_emit _ (by simp) (by simp),
            Or.inl ⟨e, rfl⟩⟩
        | none =>
          simp only [call_none]
          cases hd : m1.data with
          | server_DH_inner_data dhi =>
            simp only
            by_cases h1 : nf = dhi.nonce
            · by_cases h2 : ns = dhi.server_nonce
              · simp only [h1, h2, ne_eq, not_true_eq_false, if_false]
                rw [← h1, ← h2]
                rcases exchangeKeys_run E nf n2 ns key iv dhi m1 with
                  ⟨ha, he | hn⟩ | ⟨dhg, hds, hc⟩
                · left
                  exact ⟨(((ha.rebase hk).keep_emit _ (by simp) (by simp)).keep_emit _ (by simp)
                    (by simp)).keep_emit _ (by simp) (by simp), Or.inl he⟩
                · left
                  refine ⟨(((ha.rebase hk).keep_emit _ (by simp) (by simp)).keep_emit _ (by simp)
                    (by simp)).keep_emit _ (by simp) (by simp), Or.inr ?_⟩
                  simp only [emit_trace]
                  rw [decodedResponses_cons _ _ (by simp), decodedResponses_cons _ _ (by simp),
                    decodedResponses_inspect, hn]
                  exact allOK_cons _ _ _ _ _ ⟨h1, h2⟩ (allOK_nil _ _ _)
                · right
                  refine ⟨dhi, dhg, ?_, h1, h2, ?_⟩
                  · simp only [emit_trace]
                    rw [decodedResponses_cons _ _ (by simp), decodedResponses_cons _ _ (by simp),
                      decodedResponses_inspect, hds]
                  · exact (((hc.resume hk).thru_emit _).thru_emit _).thru_emit _
              · left
                simp only [h1, h2, ne_eq, not_true_eq_false, not_false_eq_true, if_false, if_true]
                exact ⟨(((Aborted.err m m1 _ hk).keep_emit _ (by simp) (by simp)).keep_emit _ (by simp)
                  (by simp)).keep_emit _ (by simp) (by simp), Or.inl ⟨_, rfl⟩⟩
            · left
              simp only [h1, ne_eq, not_false_eq_true, if_true]
              exact ⟨(((Aborted.err m m1 _ hk).keep_emit _ (by simp) (by simp)).keep_emit _ (by simp)
                (by simp)).keep_emit _ (by simp) (by simp), Or.inl ⟨_, rfl⟩⟩
          | _ =>
            left
            exact ⟨(((Aborted.err m m1 _ hk).keep_emit _ (by simp) (by simp)).keep_emit _ (by simp)
              (by simp)).keep_emit _ (by simp) (by simp), Or.inl ⟨_, rfl⟩⟩

theorem requestDHParams_run (E : Env) (nf : List Byte) (res : TL_resPQ) (m : MTProto) :
    (Aborted m (requestDHParams E nf res m) ∧
      ((∃ e, (requestDHParams E nf res m).outcome = Outcome.err e) ∨
        allOK nf res.server_nonce 1 (decodedResponses (requestDHParams E nf res m).trace))) ∨
    (∃ dh dhi dhg, decodedResponses (requestDHParams E nf res m).trace =
        [TLData.server_DH_params_ok dh, TLData.server_DH_inner_data dhi, TLData.dh_gen_ok dhg] ∧
      nf = dh.nonce ∧ res.server_nonce = dh.server_nonce ∧
      nf = dhi.nonce ∧ res.server_nonce = dhi.server_nonce ∧
      Completed E nf (E.GenerateNonce m.tick 32) res.server_nonce dhi dhg m
        (requestDHParams E nf res m)) := by
  unfold requestDHParams
  rcases hQ : E.SplitPQ res.pq with ⟨p, q⟩
  simp only
  generalize E.Encode_TL_req_DH_params nf res.server_nonce p q E.telegramPublicKey_FP
    (E.RSAEncode (copyAt (copyAt (zeros 255) 0
      (E.Sha1 (E.Encode_TL_p_q_inner_data res.pq p q nf res.server_nonce (E.GenerateNonce m.tick 32))))
      20 (E.Encode_TL_p_q_inner_data res.pq p q nf res.server_nonce (E.GenerateNonce m.tick 32)))) = req
  have hk0 := SendPacket_keys E req { m with tick := m.tick + 1 }
  rcases hP : SendPacket E req { m with tick := m.tick + 1 } with ⟨m1, e1⟩
  rw [hP] at hk0
  replace hk0 : m1.keys = m.keys := hk0
  cases e1 with
  | some e =>
    left
    exact ⟨(((Aborted.err m m1 e hk0).keep_emit _ (by simp) (by simp)).keep_emit _ (by simp)
      (by simp)).keep_emit _ (by simp) (by simp), Or.inl ⟨e, rfl⟩⟩
  | none =>
    simp only [call_none]
    have hk := Read_keys E m1
    rcases hR : Read E m1 with ⟨m2, e2⟩
    rw [hR] at hk
    replace hk : m2.keys = m.keys := hk.trans hk0
    cases e2 with
    | some e =>
      left
      exact ⟨((((Aborted.err m m2 e hk).keep_emit _ (by simp) (by simp)).keep_emit _ (by simp)
        (by simp)).keep_emit _ (by simp) (by simp)).keep_emit _ (by simp) (by simp), Or.inl ⟨e, rfl⟩⟩
    | none =>
      simp only [call_none]
      cases hd : m2.data with
      | server_DH_params_ok dh =>
        simp only
        by_cases h1 : nf = dh.nonce
        · by_cases h2 : res.server_nonce = dh.server_nonce
          · simp only [h1, h2, ne_eq, not_true_eq_false, if_false]
            rw [← h1, ← h2]
            rcases openAnswer_run E nf (E.GenerateNonce m.tick 32) res.server_nonce dh m2 with
              ⟨ha, he | hn⟩ | ⟨dhi, dhg, hds, c1, c2, hc⟩
            · left
              exact ⟨(((((ha.rebase hk).keep_emit _ (by simp) (by simp)).keep_emit _ (by simp)
                (by simp)).keep_emit _ (by simp) (by simp)).keep_emit _ (by simp) (by simp)).keep_emit _
                (by simp) (by simp), Or.inl he⟩
            · left
              refine ⟨(((((ha.rebase hk).keep_emit _ (by simp) (by simp)).keep_emit _ (by simp)
                (by simp)).keep_emit _ (by simp) (by simp)).keep_emit _ (by simp) (by simp)).keep_emit _
                (by simp) (by simp), Or.inr ?_⟩
              simp only [emit_trace]
              rw [decodedResponses_cons _ _ (by simp), decodedResponses_cons _ _ (by simp),
                decodedResponses_cons _ _ (by simp), decodedResponses_cons _ _ (by simp),
                decodedResponses_inspect]
              exact allOK_cons _ _ _ _ _ ⟨h1, h2⟩ hn
            · right
              refine ⟨dh, dhi, dhg, ?_, h1, h2, c1, c2, ?_⟩
              · simp only [emit_trace]
                rw [decodedResponses_cons _ _ (by simp), decodedResponses_cons _ _ (by simp),
                  decodedResponses_cons _ _ (by simp), decodedResponses_cons _ _ (by simp),
                  decodedResponses_inspect, hds]
              · exact (((((hc.resume hk).thru_emit _).thru_emit _).thru_emit _).thru_emit _).thru_emit _
          · left
            simp only [h1, h2, ne_eq, not_true_eq_false, not_false_eq_true, if_false, if_true]
            exact ⟨(((((Aborted.err m m2 _ hk).keep_emit _ (by simp) (by simp)).keep_emit _ (by simp)
              (by simp)).keep_emit _ (by simp) (by simp)).keep_emit _ (by simp) (by simp)).keep_emit _
              (by simp) (by simp), Or.inl ⟨_, rfl⟩⟩
        · left
          simp only [h1, ne_eq, not_false_eq_true, if_true]
          exact ⟨(((((Aborted.err m m2 _ hk).keep_emit _ (by simp) (by simp)).keep_emit _ (by simp)
            (by simp)).keep_emit _ (by simp) (by simp)).keep_emit _ (by simp) (by simp)).keep_emit _
            (by simp) (by simp), Or.inl ⟨_, rfl⟩⟩
      | _ =>
        left
        exact ⟨(((((Aborted.err m m2 _ hk).keep_emit _ (by simp) (by simp)).keep_emit _ (by simp)
          (by simp)).keep_emit _ (by simp) (by simp)).keep_emit _ (by simp) (by simp)).keep_emit _
          (by simp) (by simp), Or.inl ⟨_, rfl⟩⟩

theorem SendPacket_tick (E : Env) (msg : List Byte) (m : MTProto) :
    (SendPacket E msg m).1.tick = m.tick + (if m.encrypted then 0 else 1) := by
  unfold SendPacket
  cases he : m.encrypted <;> simp [he]

theorem DecodeLong_tick (m : MTProto) : (DecodeLong m).1.tick = m.tick := by
  unfold DecodeLong
  split <;> rfl

theorem DecodeInt_tick (m : MTProto) : (DecodeInt m).1.tick = m.tick := by
  unfold DecodeInt
  split <;> rfl

theorem parseFrame_tick (E : Env) (m : MTProto) : (parseFrame E m).1.tick = m.tick := by
  unfold parseFrame
  split
  · rfl
  split
  · rfl
  rcases h1 : DecodeLong m with ⟨m1, a, e1⟩
  have k1 : m1.tick = m.tick := by
    have := DecodeLong_tick m
    rw [h1] at this
    exact this
  simp only
  split
  · rcases h2 : DecodeLong m1 with ⟨m2, mid, e2⟩
    have k2 : m2.tick = m.tick := by
      have := DecodeLong_tick m1
      rw [h2] at this
      exact this.trans k1
    cases e2 with
    | some e => exact k2
    | none =>
      simp only
      rcases h3 : DecodeInt { m2 with messageId := mid } with ⟨m3, len, e3⟩
      have k3 : m3.tick = m.tick := by
        have := DecodeInt_tick { m2 with messageId := mid }
        rw [h3] at this
        exact this.trans k2
      cases e3 with
      | some e => exact k3
      | none =>
        simp only
        split
        · exact k3
        · split
          · exact k3
          · exact k3
  · exact k1

theorem Read_tick (E : Env) (m : MTProto) : (Read E m).1.tick = m.tick := by
  unfold Read
  obtain ⟨c, b, s, o, h, _⟩ := readFrame_shape m
  split
  · rename_i m1 e heq
    rw [heq] at h
    simp only at h
    rw [h]
  · rename_i m1 heq
    rw [heq] at h
    simp only at h
    rw [parseFrame_tick, h]

theorem Handshake_run (E : Env) (m : MTProto) :
    (Aborted m (Handshake E m) ∧
      ((∃ e, (Handshake E m).outcome = Outcome.err e) ∨
        allOK (E.GenerateNonce m.tick 16) (serverNonceOf (decodedResponses (Handshake E m).trace)) 0
          (decodedResponses (Handshake E m).trace))) ∨
    AllChecksPassed E m (Handshake E m) := by
  unfold AllChecksPassed
  unfold Handshake
  simp only
  generalize E.GenerateNonce m.tick 16 = nf
  have hk0 := SendPacket_keys E (E.Encode_TL_req_pq nf) { m with tick := m.tick + 1 }
  have ht0 := SendPacket_tick E (E.Encode_TL_req_pq nf) { m with tick := m.tick + 1 }
  rcases hP : SendPacket E (E.Encode_TL_req_pq nf) { m with tick := m.tick + 1 } with ⟨m1, e1⟩
  rw [hP] at hk0 ht0
  replace hk0 : m1.keys = m.keys := hk0
  replace ht0 : m1.tick = secondNonceTick m := ht0
  cases e1 with
  | some e =>
    left
    exact ⟨(Aborted.err m m1 e hk0).keep_emit _ (by simp) (by simp), Or.inl ⟨e, rfl⟩⟩
  | none =>
    simp only [call_none]
    have hk := Read_keys E m1
    have ht := Read_tick E m1
    rcases hR : Read E m1 with ⟨m2, e2⟩
    rw [hR] at hk ht
    replace hk : m2.keys = m.keys := hk.trans hk0
    replace ht : m2.tick = secondNonceTick m := ht.trans ht0
    cases e2 with
    | some e =>
      left
      exact ⟨((Aborted.err m m2 e hk).keep_emit _ (by simp) (by simp)).keep_emit _ (by simp) (by simp),
        Or.inl ⟨e, rfl⟩⟩
    | none =>
      simp only [call_none]
      cases hd : m2.data with
      | resPQ res =>
        simp only
        by_cases h1 : nf = res.nonce
        · by_cases h2 : res.fingerprints.any (fun b => b == E.telegramPublicKey_FP) = true
          · simp only [h1, h2, ne_eq, not_true_eq_false, if_false]
            rw [← h1]
            rcases requestDHParams_run E nf res m2 with
              ⟨ha, he | hn⟩ | ⟨dh, dhi, dhg, hds, c1, c2, c3, c4, hc⟩
            · left
              exact ⟨(((ha.rebase hk).keep_emit _ (by simp) (by simp)).keep_emit _ (by simp)
                (by simp)).keep_emit _ (by simp) (by simp), Or.inl he⟩
            · left
              refine ⟨(((ha.rebase hk).keep_emit _ (by simp) (by simp)).keep_emit _ (by simp)
                (by simp)).keep_emit _ (by simp) (by simp), Or.inr ?_⟩
              simp only [emit_trace]
              rw [decodedResponses_cons _ _ (by simp), decodedResponses_cons _ _ (by simp),
                decodedResponses_inspect]
              exact allOK_cons _ _ _ _ _ h1 hn
            · right
              refine ⟨res, dh, dhi, dhg, ?_, h1, h2, c1, c2, c3, c4, ?_⟩
              · simp only [emit_trace]
                rw [decodedResponses_cons _ _ (by simp), decodedResponses_cons _ _ (by simp),
                  decodedResponses_inspect, hds]
              · rw [ht] at hc
                exact (((hc.resume hk).thru_emit _).thru_emit _).thru_emit _
          · left
            simp only [h1, h2, ne_eq, not_true_eq_false, not_false_eq_true, if_false, if_true]
            exact ⟨(((Aborted.err m m2 _ hk).keep_emit _ (by simp) (by simp)).keep_emit _ (by simp)
              (by simp)).keep_emit _ (by simp) (by simp), Or.inl ⟨_, rfl⟩⟩
        · left
          simp only [h1, ne_eq, not_false_eq_true, if_true]
          exact ⟨(((Aborted.err m m2 _ hk).keep_emit _ (by simp) (by simp)).keep_emit _ (by simp)
            (by simp)).keep_emit _ (by simp) (by simp), Or.inl ⟨_, rfl⟩⟩
      | _ =>
        left
        exact ⟨(((Aborted.err m m2 _ hk).keep_emit _ (by simp) (by simp)).keep_emit _ (by simp)
          (by simp)).keep_emit _ (by simp) (by simp), Or.inl ⟨_, rfl⟩⟩

theorem mismatch_not_ok (nf ns : List Byte) (k : Nat) (d : TLData) (h : mismatch nf ns k d) :
    ¬ roundOK nf ns k d := by
  intro h2
  rcases k with _ | _ | _ | _ | k <;> cases d <;> simp_all [mismatch, roundOK]

theorem natBytesBE_head (fuel : Nat) :
    ∀ (n : Nat) (acc : List Byte), n ≤ fuel → n ≠ 0 →
      ∃ a rest, natBytesBE fuel n acc = a :: rest ∧ a ≠ 0 := by
  induction fuel with
  | zero => intro n acc h1 h2; omega
  | succ fuel ih =>
    intro n acc h1 h2
    rw [natBytesBE, if_neg h2]
    by_cases hq : n / 256 = 0
    · have hlt : n < 256 := by omega
      refine ⟨toByte n, acc, ?_, ?_⟩
      · rw [hq]
        cases fuel <;> simp [natBytesBE]
      · intro h0
        have := congrArg Fin.val h0
        rw [toByte_val] at this
        simp at this
        omega
    · exact ih (n / 256) (toByte n :: acc) (by omega) hq

theorem bigBytes_zero : bigBytes 0 = [] := rfl

theorem bigBytes_head (g : Int) (a0 : Byte) (rest : List Byte) (h : bigBytes g = a0 :: rest) :
    a0 ≠ 0 ∧ g ≠ 0 := by
  have hg : g ≠ 0 := by
    intro h0
    rw [h0, bigBytes_zero] at h
    simp at h
  obtain ⟨a, r, h1, h2⟩ := natBytesBE_head g.natAbs g.natAbs [] (Nat.le_refl _)
    (by simpa using hg)
  unfold bigBytes at h
  rw [h1] at h
  simp only [List.cons.injEq] at h
  exact ⟨h.1 ▸ h2, hg⟩

theorem slice?_some (s h : List Byte) (lo hi : Nat) (hs : slice? s lo hi = some h) :
    h = (s.drop lo).take (hi - lo) ∧ h.length = hi - lo := by
  unfold slice? at hs
  split at hs
  · rename_i hb
    simp only [Option.some.injEq] at hs
    subst hs
    refine ⟨rfl, ?_⟩
    rw [List.length_take, List.length_drop]
    omega
  · simp at hs

theorem setGAB_done (E : Env) (g : Int) (m : MTProto) (h : (setGAB E g m).2 = true) :
    (setGAB E g m).1.g_ab = some g ∧ (setGAB E g m).1.authKey = bigBytes g ∧
      slice? (E.Sha1 (setGAB E g m).1.authKey) 12 20 = some (setGAB E g m).1.authKeyHash ∧
      (setGAB E g m).1.encrypted = true ∧ (setGAB E g m).1.serverSalt = m.serverSalt := by
  unfold setGAB at h ⊢
  simp only at h ⊢
  cases hb : bigBytes g with
  | nil => simp [hb] at h
  | cons a0 rest =>
    obtain ⟨ha, hg⟩ := bigBytes_head g a0 rest hb
    simp only [hb, ha, if_false] at h ⊢
    cases hs : slice? (E.Sha1 (a0 :: rest)) 12 20 with
    | none => simp [hs] at h
    | some hh => simp [hs, hg]

theorem serverSalt?_some (n2 ns salt : List Byte) (h : serverSalt? n2 ns = some salt) :
    salt = Xor (n2.take 8) (ns.take 8) := by
  unfold serverSalt? at h
  cases h1 : slice? n2 0 8 with
  | none => simp [h1] at h
  | some a =>
    cases h2 : slice? ns 0 8 with
    | none => simp [h1, h2] at h
    | some b =>
      simp only [h1, h2, Option.some.injEq] at h
      obtain ⟨ea, la⟩ := slice?_some _ _ _ _ h1
      obtain ⟨eb, _⟩ := slice?_some _ _ _ _ h2
      have hc : copyAt (zeros 8) 0 a = a := by
        unfold copyAt
        simp [zeros_length, la, List.take_of_length_le, List.drop_of_length_le]
      rw [hc] at h
      rw [← h, ea, eb]
      simp

/-- C1. Whatever the peer sends: if in some round the decoded response is the
variant the round expects and its echoed nonce differs from the client's first
nonce, or (from the second round on) its server nonce differs from the one taken
from `resPQ`, then `Handshake` returns an error and `g_ab`, `authKey`,
`authKeyHash`, `serverSalt` and `encrypted` keep the values they had on entry. -/
theorem nonce_mismatch_aborts (E : Env) (m : MTProto) (k : Nat) (d : TLData)
    (hd : (decodedResponses (Handshake E m).trace)[k]? = some d)
    (hm : mismatch (E.GenerateNonce m.tick 16)
      (serverNonceOf (decodedResponses (Handshake E m).trace)) k d) :
    (∃ e, (Handshake E m).outcome = Outcome.err e) ∧
      (Handshake E m).m.authKey = m.authKey ∧ (Handshake E m).m.authKeyHash = m.authKeyHash ∧
      (Handshake E m).m.serverSalt = m.serverSalt ∧ (Handshake E m).m.encrypted = m.encrypted ∧
      (Handshake E m).m.g_ab = m.g_ab := by
  have hkeys : ∀ a b : MTProto, a.keys = b.keys →
      a.authKey = b.authKey ∧ a.authKeyHash = b.authKeyHash ∧ a.serverSalt = b.serverSalt ∧
        a.encrypted = b.encrypted ∧ a.g_ab = b.g_ab := by
    intro a b h
    simp only [MTProto.keys, Prod.mk.injEq] at h
    exact ⟨h.2.1, h.2.2.1, h.2.2.2.1, h.2.2.2.2, h.1⟩
  rcases Handshake_run E m with ⟨ha, he | hok⟩ | ⟨res, dh, dhi, dhg, hds, c1, _, c3, c4, c5, c6, hc⟩
  · exact ⟨he, hkeys _ _ ha.1⟩
  · have := hok k d hd
    rw [Nat.zero_add] at this
    exact absurd this (mismatch_not_ok _ _ _ _ hm)
  · exfalso
    obtain ⟨_, _, _, _, _, _, c7, c8, _, _⟩ := hc
    rw [hds] at hd hm
    have hall : allOK (E.GenerateNonce m.tick 16) res.server_nonce 0
        [TLData.resPQ res, TLData.server_DH_params_ok dh, TLData.server_DH_inner_data dhi,
          TLData.dh_gen_ok dhg] :=
      allOK_cons _ _ _ _ _ c1 (allOK_cons _ _ _ _ _ ⟨c3, c4⟩ (allOK_cons _ _ _ _ _ ⟨c5, c6⟩
        (allOK_cons _ _ _ _ _ ⟨c7, c8⟩ (allOK_nil _ _ _))))
    have := hall k d hd
    rw [Nat.zero_add] at this
    exact mismatch_not_ok _ _ _ _ hm this

/-- C2. When `Handshake` returns an error, `g_ab`, `authKey`, `authKeyHash`,
`serverSalt` and `encrypted` are what they were on entry and neither `setGAB` nor
`setSalt` was called; and whenever `setGAB` or `setSalt` was called, or one of the
five fields differs from its value on entry, every check of all four rounds had
passed; so on a session that entered with `encrypted = false` the flag is still
`false` unless all checks passed. -/
theorem keys_written_after_all_checks (E : Env) (m : MTProto) :
    (∀ e, (Handshake E m).outcome = Outcome.err e →
      (Handshake E m).m.keys = m.keys ∧ (∀ g, Event.setGAB g ∉ (Handshake E m).trace) ∧
        (∀ s, Event.setSalt s ∉ (Handshake E m).trace)) ∧
    (((∃ g, Event.setGAB g ∈ (Handshake E m).trace) ∨ (∃ s, Event.setSalt s ∈ (Handshake E m).trace) ∨
        (Handshake E m).m.keys ≠ m.keys) → AllChecksPassed E m (Handshake E m)) ∧
    (m.encrypted = false → ¬ AllChecksPassed E m (Handshake E m) →
      (Handshake E m).m.encrypted = false) := by
  rcases Handshake_run E m with ⟨ha, _⟩ | hp
  · obtain ⟨h1, h2, h3, _⟩ := ha
    refine ⟨fun e _ => ⟨h1, h2, h3⟩, ?_, ?_⟩
    · rintro (⟨g, hg⟩ | ⟨s, hs⟩ | hne)
      · exact absurd hg (h2 g)
      · exact absurd hs (h3 s)
      · exact absurd h1 hne
    · intro he _
      have h5 : (Handshake E m).m.keys.2.2.2.2 = m.keys.2.2.2.2 := by rw [h1]
      exact h5.trans he
  · refine ⟨?_, fun _ => hp, fun _ hn => absurd hp hn⟩
    intro e he
    exfalso
    obtain ⟨_, _, _, _, _, _, _, _, _, _, _, hc⟩ := hp
    obtain ⟨_, _, _, _, _, _, _, _, _, m1, _, _, hr⟩ := hc
    rcases hr with ⟨_, ho, _⟩ | ⟨_, ho, _⟩ <;> rw [ho] at he <;> simp at he

/-- C3. When `Handshake` returns `nil`, the four decoded responses were `resPQ`,
`server_DH_params_ok`, `server_DH_inner_data` and `dh_gen_ok`, and the session has
`encrypted = true`, `g_ab` the shared secret returned by `MakeGAB`, `authKey` its
big-endian byte form, `authKeyHash = Sha1(authKey)[12:20]` (8 bytes), and
`serverSalt` the byte-wise XOR of the first 8 bytes of the second nonce with the
first 8 bytes of the server nonce. -/
theorem handshake_success_state (E : Env) (m : MTProto)
    (h : (Handshake E m).outcome = Outcome.ok) :
    ∃ res dh dhi dhg, decodedResponses (Handshake E m).trace =
        [TLData.resPQ res, TLData.server_DH_params_ok dh, TLData.server_DH_inner_data dhi,
          TLData.dh_gen_ok dhg] ∧
      (Handshake E m).m.encrypted = true ∧
      (Handshake E m).m.g_ab = some (E.MakeGAB dhi.g dhi.g_a dhi.dh_prime).2.2 ∧
      (Handshake E m).m.authKey = bigBytes (E.MakeGAB dhi.g dhi.g_a dhi.dh_prime).2.2 ∧
      slice? (E.Sha1 (Handshake E m).m.authKey) 12 20 = some (Handshake E m).m.authKeyHash ∧
      (Handshake E m).m.authKeyHash = ((E.Sha1 (Handshake E m).m.authKey).drop 12).take 8 ∧
      (Handshake E m).m.authKeyHash.length = 8 ∧
      (Handshake E m).m.serverSalt =
        Xor ((E.GenerateNonce (secondNonceTick m) 32).take 8) (res.server_nonce.take 8) := by
  rcases Handshake_run E m with ⟨ha, _⟩ | ⟨res, dh, dhi, dhg, hds, _, _, _, _, _, _, hc⟩
  · exact absurd h ha.2.2.2
  · obtain ⟨authKey, nh, salt, _, _, hsalt, _, _, _, m1, _, _, hr⟩ := hc
    rcases hr with ⟨hflag, _, hm⟩ | ⟨_, ho, _⟩
    · obtain ⟨g1, g2, g3, g4, _⟩ := setGAB_done E _ m1 hflag
      have hfin : ∀ x : MTProto, (setSalt salt x).encrypted = x.encrypted ∧
          (setSalt salt x).g_ab = x.g_ab ∧ (setSalt salt x).authKey = x.authKey ∧
          (setSalt salt x).authKeyHash = x.authKeyHash ∧ (setSalt salt x).serverSalt = salt :=
        fun _ => ⟨rfl, rfl, rfl, rfl, rfl⟩
      obtain ⟨f1, f2, f3, f4, f5⟩ := hfin (setGAB E (E.MakeGAB dhi.g dhi.g_a dhi.dh_prime).2.2 m1).1
      obtain ⟨s1, s2⟩ := slice?_some _ _ _ _ g3
      refine ⟨res, dh, dhi, dhg, hds, ?_, ?_, ?_, ?_, ?_, ?_, ?_⟩
      · rw [hm, f1, g4]
      · rw [hm, f2, g1]
      · rw [hm, f3, g2]
      · rw [hm, f3, f4]; exact g3
      · rw [hm, f3, f4]; exact s1
      · rw [hm, f4]; exact s2
      · rw [hm, f5]; exact serverSalt?_some _ _ _ hsalt
    · rw [ho] at h
      simp at h

theorem nonce_mismatch_aborts_witness :
    (∃ e, (Handshake demoEnv demoFlip4).outcome = Outcome.err e) ∧
      (Handshake demoEnv demoFlip4).m.encrypted = false ∧
      (∃ e, (Handshake demoEnv demoFlip1).outcome = Outcome.err e) := by
  have h4 := nonce_mismatch_aborts demoEnv demoFlip4 3
    (TLData.dh_gen_ok ⟨List.replicate 16 2, List.replicate 16 0xAA, demoConfirm⟩)
    (by decide) (Or.inl (by decide))
  have h1 := nonce_mismatch_aborts demoEnv demoFlip1 0
    (TLData.resPQ ⟨List.replicate 16 2, List.replicate 16 0xAA, 21, [7, 0, 0]⟩)
    (by decide)
    (by show List.replicate 16 (2 : Byte) ≠ demoEnv.GenerateNonce demoFlip1.tick 16; decide)
  exact ⟨h4.1, h4.2.2.2.2.1, h1.1⟩

theorem keys_written_after_all_checks_witness :
    (Handshake demoEnv demoFlip4).m.keys = demoFlip4.keys ∧
      AllChecksPassed demoEnv demoHonest (Handshake demoEnv demoHonest) :=
  ⟨((keys_written_after_all_checks demoEnv demoFlip4).1 Error.nonceMismatch (by decide)).1,
    (keys_written_after_all_checks demoEnv demoHonest).2.1 (Or.inl ⟨8, by decide⟩)⟩

theorem handshake_success_state_witness :
    (Handshake demoEnv demoHonest).outcome = Outcome.ok ∧
      (Handshake demoEnv demoHonest).m.encrypted = true ∧
      (Handshake demoEnv demoHonest).m.authKey = [8] := by
  obtain ⟨res, dh, dhi, dhg, _, h1, _, _, _, _, _, _⟩ :=
    handshake_success_state demoEnv demoHonest (by decide)
  exact ⟨by decide, h1, by decide⟩

/-! ## Handshake: case analysis of the rounds

Every run of a round is one of the listed cases; a property that holds in each
case holds of the round. -/

theorem confirmKey_elim (E : Env) (nf ns nh salt : List Byte) (g : Int) (m : MTProto)
    (P : Run → Prop)
    (hRead : ∀ m1 e, P (emit Event.read ⟨m1, Outcome.err e, []⟩))
    (hVar : ∀ m1 d, (∀ dhg, d ≠ TLData.dh_gen_ok dhg) →
      P (emit Event.read (emit (Event.inspect d) ⟨m1, Outcome.err Error.expectedDHGenOk, []⟩)))
    (hNonce : ∀ m1 dhg, nf ≠ dhg.nonce →
      P (emit Event.read (emit (Event.inspect (TLData.dh_gen_ok dhg))
        ⟨m1, Outcome.err Error.nonceMismatch, []⟩)))
    (hServer : ∀ m1 dhg, nf = dhg.nonce → ns ≠ dhg.server_nonce →
      P (emit Event.read (emit (Event.inspect (TLData.dh_gen_ok dhg))
        ⟨m1, Outcome.err Error.serverNonceMismatch, []⟩)))
    (hHash : ∀ m1 dhg, nf = dhg.nonce → ns = dhg.server_nonce → nh ≠ dhg.new_nonce_hash1 →
      P (emit Event.read (emit (Event.inspect (TLData.dh_gen_ok dhg))
        ⟨m1, Outcome.err Error.newNonceHashMismatch, []⟩)))
    (hPanic : ∀ m1 dhg, nf = dhg.nonce → ns = dhg.server_nonce → nh = dhg.new_nonce_hash1 →
      (setGAB E g m1).2 = false →
      P (emit Event.read (emit (Event.inspect (TLData.dh_gen_ok dhg)) (emit (Event.setGAB g)
        ⟨(setGAB E g m1).1, Outcome.panic, []⟩))))
    (hOk : ∀ m1 dhg, nf = dhg.nonce → ns = dhg.server_nonce → nh = dhg.new_nonce_hash1 →
      (setGAB E g m1).2 = true →
      P (emit Event.read (emit (Event.inspect (TLData.dh_gen_ok dhg)) (emit (Event.setGAB g)
        (emit (Event.setSalt salt) ⟨setSalt salt (setGAB E g m1).1, Outcome.ok, []⟩))))) :
    P (confirmKey E nf ns nh salt g m) := by
  unfold confirmKey
  rcases Read E m with ⟨m1, e1⟩
  cases e1 with
  | some e => exact hRead m1 e
  | none =>
    simp only [call_none]
    cases hd : m1.data with
    | dh_gen_ok dhg =>
      simp only
      by_cases h1 : nf = dhg.nonce
      · rw [if_neg (fun h => h h1)]
        by_cases h2 : ns = dhg.server_nonce
        · rw [if_neg (fun h => h h2)]
          by_cases h3 : nh = dhg.new_nonce_hash1
          · rw [if_neg (fun h => h h3)]
            rcases hS : setGAB E g m1 with ⟨m2, b⟩
            cases b with
            | false =>
              have := hPanic m1 dhg h1 h2 h3 (by rw [hS])
              rw [hS] at this
              exact this
            | true =>
              have := hOk m1 dhg h1 h2 h3 (by rw [hS])
              rw [hS] at this
              exact this
          · rw [if_pos h3]
            exact hHash m1 dhg h1 h2 h3
        · rw [if_pos h2]
          exact hServer m1 dhg h1 h2
      · rw [if_pos h1]
        exact hNonce m1 dhg h1
    | nil => exact hVar m1 _ (by simp)
    | resPQ v => exact hVar m1 _ (by simp)
    | server_DH_params_ok v => exact hVar m1 _ (by simp)
    | server_DH_inner_data v => exact hVar m1 _ (by simp)
    | other t => exact hVar m1 _ (by simp)

theorem exchangeKeys_elim (E : Env) (nf n2 ns key iv : List Byte) (dhi : TL_server_DH_inner_data)
    (m : MTProto) (P : Run → Prop)
    (hKey : authKeyOf? (E.MakeGAB dhi.g dhi.g_a dhi.dh_prime).2.2 = none →
      P (emit (Event.makeGAB dhi.g dhi.g_a dhi.dh_prime) ⟨m, Outcome.panic, []⟩))
    (hHash : ∀ ak, authKeyOf? (E.MakeGAB dhi.g dhi.g_a dhi.dh_prime).2.2 = some ak →
      nonceHash1? E n2 ak = none →
      P (emit (Event.makeGAB dhi.g dhi.g_a dhi.dh_prime) ⟨m, Outcome.panic, []⟩))
    (hSalt : ∀ ak nh, authKeyOf? (E.MakeGAB dhi.g dhi.g_a dhi.dh_prime).2.2 = some ak →
      nonceHash1? E n2 ak = some nh → serverSalt? n2 ns = none →
      P (emit (Event.makeGAB dhi.g dhi.g_a dhi.dh_prime) ⟨m, Outcome.panic, []⟩))
    (hSend : ∀ req m1 e,
      P (emit (Event.makeGAB dhi.g dhi.g_a dhi.dh_prime)
        (emit (Event.aesEncrypt (padForAES E (E.Encode_TL_client_DH_inner_data nf ns 0
            (E.MakeGAB dhi.g dhi.g_a dhi.dh_prime).2.1)) key iv)
          (emit (Event.sendPacket req) ⟨m1, Outcome.err e, []⟩))))
    (hGo : ∀ ak nh salt req m1, authKeyOf? (E.MakeGAB dhi.g dhi.g_a dhi.dh_prime).2.2 = some ak →
      nonceHash1? E n2 ak = some nh → serverSalt? n2 ns = some salt →
      P (emit (Event.makeGAB dhi.g dhi.g_a dhi.dh_prime)
        (emit (Event.aesEncrypt (padForAES E (E.Encode_TL_client_DH_inner_data nf ns 0
            (E.MakeGAB dhi.g dhi.g_a dhi.dh_prime).2.1)) key iv)
          (emit (Event.sendPacket req)
            (confirmKey E nf ns nh salt (E.MakeGAB dhi.g dhi.g_a dhi.dh_prime).2.2 m1))))) :
    P (exchangeKeys E nf n2 ns key iv dhi m) := by
  unfold exchangeKeys
  rcases hG : E.MakeGAB dhi.g dhi.g_a dhi.dh_prime with ⟨b, g_b, g_ab⟩
  rw [hG] at hKey hHash hSalt hSend hGo
  simp only at hKey hHash hSalt hSend hGo ⊢
  cases hA : authKeyOf? g_ab with
  | none => exact hKey hA
  | some ak =>
    simp only [orPanic_some]
    cases hN : nonceHash1? E n2 ak with
    | none => exact hHash ak hA hN
    | some nh =>
      simp only [orPanic_some]
      cases hS : serverSalt? n2 ns with
      | none => exact hSalt ak nh hA hN hS
      | some salt =>
        simp only [orPanic_some]
        generalize E.Encode_TL_set_client_DH_params nf ns (E.AES256IGE_encrypt
          (padForAES E (E.Encode_TL_client_DH_inner_data nf ns 0 g_b)) key iv).1 = req
        rcases SendPacket E req m with ⟨m1, e1⟩
        cases e1 with
        | some e => exact hSend req m1 e
        | none => exact hGo ak nh salt req m1 hA hN hS

theorem openAnswer_elim (E : Env) (nf n2 ns : List Byte) (dh : TL_server_DH_params_ok)
    (m : MTProto) (P : Run → Prop)
    (hTmp : tmpAES? E n2 ns = none → P ⟨m, Outcome.panic, []⟩)
    (hDecrypt : ∀ key iv e, tmpAES? E n2 ns = some (key, iv) →
      P (emit (Event.aesDecrypt dh.encrypted_answer key iv) ⟨m, Outcome.err e, []⟩))
    (hSlice : ∀ key iv, tmpAES? E n2 ns = some (key, iv) →
      P (emit (Event.aesDecrypt dh.encrypted_answer key iv) ⟨m, Outcome.panic, []⟩))
    (hDecode : ∀ key iv m1 e, tmpAES? E n2 ns = some (key, iv) →
      P (emit (Event.aesDecrypt dh.encrypted_answer key iv)
        (emit Event.decodePacket ⟨m1, Outcome.err e, []⟩)))
    (hVar : ∀ key iv m1 d, tmpAES? E n2 ns = some (key, iv) →
      (∀ dhi, d ≠ TLData.server_DH_inner_data dhi) →
      P (emit (Event.aesDecrypt dh.encrypted_answer key iv) (emit Event.decodePacket
        (emit (Event.inspect d) ⟨m1, Outcome.err Error.expectedServerDHInnerData, []⟩))))
    (hNonce : ∀ key iv m1 dhi, tmpAES? E n2 ns = some (key, iv) → nf ≠ dhi.nonce →
      P (emit (Event.aesDecrypt dh.encrypted_answer key iv) (emit Event.decodePacket
        (emit (Event.inspect (TLData.server_DH_inner_data dhi))
          ⟨m1, Outcome.err Error.nonceMismatch, []⟩))))
    (hServer : ∀ key iv m1 dhi, tmpAES? E n2 ns = some (key, iv) → nf = dhi.nonce →
      ns ≠ dhi.server_nonce →
      P (emit (Event.aesDecrypt dh.encrypted_answer key iv) (emit Event.decodePacket
        (emit (Event.inspect (TLData.server_DH_inner_data dhi))
          ⟨m1, Outcome.err Error.serverNonceMismatch, []⟩))))
    (hGo : ∀ key iv m1 dhi, tmpAES? E n2 ns = some (key, iv) → nf = dhi.nonce →
      ns = dhi.server_nonce →
      P (emit (Event.aesDecrypt dh.encrypted_answer key iv) (emit Event.decodePacket
        (emit (Event.inspect (TLData.server_DH_inner_data dhi))
          (exchangeKeys E nf n2 ns key iv dhi m1))))) :
    P (openAnswer E nf n2 ns dh m) := by
  unfold openAnswer
  cases hT : tmpAES? E n2 ns with
  | none => exact hTmp hT
  | some kv =>
    obtain ⟨key, iv⟩ := kv
    simp only [orPanic_some]
    rcases E.AES256IGE_decrypt dh.encrypted_answer key iv with ⟨dd, ed⟩
    cases ed with
    | some e => exact hDecrypt key iv e hT
    | none =>
      simp only
      cases slice? dd 20 dd.length with
      | none => exact hSlice key iv hT
      | some body =>
        simp only [orPanic_some]
        rcases DecodePacket E { m with buf := body, size := body.length, off := 0, level := 0 }
          with ⟨m1, e1⟩
        cases e1 with
        | some e => exact hDecode key iv m1 e hT
        | none =>
          simp only [call_none]
          cases hd : m1.data with
          | server_DH_inner_data dhi =>
            simp only
            by_cases h1 : nf = dhi.nonce
            · rw [if_neg (fun h => h h1)]
              by_cases h2 : ns = dhi.server_nonce
              · rw [if_neg (fun h => h h2)]
                exact hGo key iv m1 dhi hT h1 h2
              · rw [if_pos h2]
                exact hServer key iv m1 dhi hT h1 h2
            · rw [if_pos h1]
              exact hNonce key iv m1 dhi hT h1
          | nil => exact hVar key iv m1 _ hT (by simp)
          | resPQ v => exact hVar key iv m1 _ hT (by simp)
          | server_DH_params_ok v => exact hVar key iv m1 _ hT (by simp)
          | dh_gen_ok v => exact hVar key iv m1 _ hT (by simp)
          | other t => exact hVar key iv m1 _ hT (by simp)

theorem requestDHParams_elim (E : Env) (nf : List Byte) (res : TL_resPQ) (m : MTProto)
    (P : Run → Prop)
    (hSend : ∀ x req m1 e,
      P (emit (Event.splitPQ res.pq) (emit (Event.rsaEncode x) (emit (Event.sendPacket req)
        ⟨m1, Outcome.err e, []⟩))))
    (hRead : ∀ x req m1 e,
      P (emit (Event.splitPQ res.pq) (emit (Event.rsaEncode x) (emit (Event.sendPacket req)
        (emit Event.read ⟨m1, Outcome.err e, []⟩)))))
    (hVar : ∀ x req m1 d, (∀ dh, d ≠ TLData.server_DH_params_ok dh) →
      P (emit (Event.splitPQ res.pq) (emit (Event.rsaEncode x) (emit (Event.sendPacket req)
        (emit Event.read (emit (Event.inspect d)
          ⟨m1, Outcome.err Error.expectedServerDHParamsOk, []⟩))))))
    (hNonce : ∀ x req m1 dh, nf ≠ dh.nonce →
      P (emit (Event.splitPQ res.pq) (emit (Event.rsaEncode x) (emit (Event.sendPacket req)
        (emit Event.read (emit (Event.inspect (TLData.server_DH_params_ok dh))
          ⟨m1, Outcome.err Error.nonceMismatch, []⟩))))))
    (hServer : ∀ x req m1 dh, nf = dh.nonce → res.server_nonce ≠ dh.server_nonce →
      P (emit (Event.splitPQ res.pq) (emit (Event.rsaEncode x) (emit (Event.sendPacket req)
        (emit Event.read (emit (Event.inspect (TLData.server_DH_params_ok dh))
          ⟨m1, Outcome.err Error.serverNonceMismatch, []⟩))))))
    (hGo : ∀ x req m1 dh, nf = dh.nonce → res.server_nonce = dh.server_nonce →
      P (emit (Event.splitPQ res.pq) (emit (Event.rsaEncode x) (emit (Event.sendPacket req)
        (emit Event.read (emit (Event.inspect (TLData.server_DH_params_ok dh))
          (openAnswer E nf (E.GenerateNonce m.tick 32) res.server_nonce dh m1))))))) :
    P (requestDHParams E nf res m) := by
  unfold requestDHParams
  rcases E.SplitPQ res.pq with ⟨p, q⟩
  simp only
  generalize copyAt (copyAt (zeros 255) 0
      (E.Sha1 (E.Encode_TL_p_q_inner_data res.pq p q nf res.server_nonce (E.GenerateNonce m.tick 32))))
      20 (E.Encode_TL_p_q_inner_data res.pq p q nf res.server_nonce (E.GenerateNonce m.tick 32)) = x
  generalize E.Encode_TL_req_DH_params nf res.server_nonce p q E.telegramPublicKey_FP
    (E.RSAEncode x) = req
  rcases SendPacket E req { m with tick := m.tick + 1 } with ⟨m1, e1⟩
  cases e1 with
  | some e => exact hSend x req m1 e
  | none =>
    simp only [call_none]
    rcases Read E m1 with ⟨m2, e2⟩
    cases e2 with
    | some e => exact hRead x req m2 e
    | none =>
      simp only [call_none]
      cases hd : m2.data with
      | server_DH_params_ok dh =>
        simp only
        by_cases h1 : nf = dh.nonce
        · rw [if_neg (fun h => h h1)]
          by_cases h2 : res.server_nonce = dh.server_nonce
          · rw [if_neg (fun h => h h2)]
            exact hGo x req m2 dh h1 h2
          · rw [if_pos h2]
            exact hServer x req m2 dh h1 h2
        · rw [if_pos h1]
          exact hNonce x req m2 dh h1
      | nil => exact hVar x req m2 _ (by simp)
      | resPQ v => exact hVar x req m2 _ (by simp)
      | server_DH_inner_data v => exact hVar x req m2 _ (by simp)
      | dh_gen_ok v => exact hVar x req m2 _ (by simp)
      | other t => exact hVar x req m2 _ (by simp)

theorem Handshake_elim (E : Env) (m : MTProto) (P : Run → Prop)
    (hSend : ∀ m1 e,
      P (emit (Event.sendPacket (E.Encode_TL_req_pq (E.GenerateNonce m.tick 16)))
        ⟨m1, Outcome.err e, []⟩))
    (hRead : ∀ m1 e,
      P (emit (Event.sendPacket (E.Encode_TL_req_pq (E.GenerateNonce m.tick 16)))
        (emit Event.read ⟨m1, Outcome.err e, []⟩)))
    (hVar : ∀ m1 d, (∀ res, d ≠ TLData.resPQ res) →
      P (emit (Event.sendPacket (E.Encode_TL_req_pq (E.GenerateNonce m.tick 16)))
        (emit Event.read (emit (Event.inspect d) ⟨m1, Outcome.err Error.expectedResPQ, []⟩))))
    (hNonce : ∀ m1 res, E.GenerateNonce m.tick 16 ≠ res.nonce →
      P (emit (Event.sendPacket (E.Encode_TL_req_pq (E.GenerateNonce m.tick 16)))
        (emit Event.read (emit (Event.inspect (TLData.resPQ res))
          ⟨m1, Outcome.err Error.nonceMismatch, []⟩))))
    (hFinger : ∀ m1 res, E.GenerateNonce m.tick 16 = res.nonce →
      res.fingerprints.any (fun b => b == E.telegramPublicKey_FP) = false →
      P (emit (Event.sendPacket (E.Encode_TL_req_pq (E.GenerateNonce m.tick 16)))
        (emit Event.read (emit (Event.inspect (TLData.resPQ res))
          ⟨m1, Outcome.err Error.fingerprintMissing, []⟩))))
    (hGo : ∀ m1 res, m1.tick = secondNonceTick m → E.GenerateNonce m.tick 16 = res.nonce →
      res.fingerprints.any (fun b => b == E.telegramPublicKey_FP) = true →
      P (emit (Event.sendPacket (E.Encode_TL_req_pq (E.GenerateNonce m.tick 16)))
        (emit Event.read (emit (Event.inspect (TLData.resPQ res))
          (requestDHParams E (E.GenerateNonce m.tick 16) res m1))))) :
    P (Handshake E m) := by
  unfold Handshake
  simp only
  have ht0 := SendPacket_tick E (E.Encode_TL_req_pq (E.GenerateNonce m.tick 16))
    { m with tick := m.tick + 1 }
  rcases hP : SendPacket E (E.Encode_TL_req_pq (E.GenerateNonce m.tick 16))
    { m with tick := m.tick + 1 } with ⟨m1, e1⟩
  rw [hP] at ht0
  replace ht0 : m1.tick = secondNonceTick m := ht0
  cases e1 with
  | some e => exact hSend m1 e
  | none =>
    simp only [call_none]
    have ht := Read_tick E m1
    rcases hR : Read E m1 with ⟨m2, e2⟩
    rw [hR] at ht
    replace ht : m2.tick = secondNonceTick m := ht.trans ht0
    cases e2 with
    | some e => exact hRead m2 e
    | none =>
      simp only [call_none]
      cases hd : m2.data with
      | resPQ res =>
        simp only
        by_cases h1 : E.GenerateNonce m.tick 16 = res.nonce
        · rw [if_neg (fun h => h h1)]
          by_cases h2 : res.fingerprints.any (fun b => b == E.telegramPublicKey_FP) = true
          · rw [if_neg (fun h => h h2)]
            exact hGo m2 res ht h1 h2
          · rw [if_pos h2]
            exact hFinger m2 res h1 (by simpa only [Bool.not_eq_true] using h2)
        · rw [if_pos h1]
          exact hNonce m2 res h1
      | nil => exact hVar m2 _ (by simp)
      | server_DH_params_ok v => exact hVar m2 _ (by simp)
      | server_DH_inner_data v => exact hVar m2 _ (by simp)
      | dh_gen_ok v => exact hVar m2 _ (by simp)
      | other t => exact hVar m2 _ (by simp)

/-! ## Handshake: fingerprint, variants, confirmation hash -/

/-- C11. When the first decoded response is a `resPQ` that echoes the first nonce
but whose fingerprint list does not contain `telegramPublicKey_FP` (the empty list
included), `Handshake` returns the fingerprint error and its calls are exactly the
first `SendPacket`, the first `Read` and the type assertion: `SplitPQ` and
`RSAEncode` are not called and no second packet is sent. -/
theorem fingerprint_rejected (E : Env) (m : MTProto) (res : TL_resPQ)
    (hd : (decodedResponses (Handshake E m).trace)[0]? = some (TLData.resPQ res))
    (hn : res.nonce = E.GenerateNonce m.tick 16)
    (hf : E.telegramPublicKey_FP ∉ res.fingerprints) :
    (Handshake E m).outcome = Outcome.err Error.fingerprintMissing ∧
    (Handshake E m).trace =
      [Event.sendPacket (E.Encode_TL_req_pq (E.GenerateNonce m.tick 16)), Event.read,
        Event.inspect (TLData.resPQ res)] ∧
    (∀ x, Event.rsaEncode x ∉ (Handshake E m).trace) ∧
    (∀ pq, Event.splitPQ pq ∉ (Handshake E m).trace) ∧
    sendCount (Handshake E m).trace = 1 := by
  have hany : res.fingerprints.any (fun b => b == E.telegramPublicKey_FP) = false := by
    rw [Bool.eq_false_iff]
    intro h
    rw [List.any_eq_true] at h
    obtain ⟨x, hx, hxe⟩ := h
    have : x = E.telegramPublicKey_FP := by simpa using hxe
    exact hf (this ▸ hx)
  have key : (decodedResponses (Handshake E m).trace)[0]? = some (TLData.resPQ res) →
      (Handshake E m).outcome = Outcome.err Error.fingerprintMissing ∧
      (Handshake E m).trace =
        [Event.sendPacket (E.Encode_TL_req_pq (E.GenerateNonce m.tick 16)), Event.read,
          Event.inspect (TLData.resPQ res)] := by
    refine Handshake_elim E m (fun r => (decodedResponses r.trace)[0]? = some (TLData.resPQ res) →
      r.outcome = Outcome.err Error.fingerprintMissing ∧
      r.trace = [Event.sendPacket (E.Encode_TL_req_pq (E.GenerateNonce m.tick 16)), Event.read,
        Event.inspect (TLData.resPQ res)]) ?_ ?_ ?_ ?_ ?_ ?_
    · intro m1 e h
      simp [decodedResponses] at h
    · intro m1 e h
      simp [decodedResponses] at h
    · intro m1 d hv h
      simp [decodedResponses] at h
      exact absurd h (hv res)
    · intro m1 res2 hne h
      simp [decodedResponses] at h
      subst h
      exact absurd hn.symm hne
    · intro m1 res2 _ _ h
      simp [decodedResponses] at h
      subst h
      exact ⟨rfl, rfl⟩
    · intro m1 res2 _ _ hfp h
      simp [decodedResponses] at h
      subst h
      rw [hany] at hfp
      simp at hfp
  obtain ⟨h1, h2⟩ := key hd
  refine ⟨h1, h2, ?_, ?_, ?_⟩
  · intro x hx
    rw [h2] at hx
    simp at hx
  · intro pq hx
    rw [h2] at hx
    simp at hx
  · rw [h2]
    rfl

theorem fingerprint_rejected_witness :
    (Handshake demoEnv demoNoFingerprint).outcome = Outcome.err Error.fingerprintMissing ∧
    (Handshake demoEnv demoNoFingerprint).trace =
      [Event.sendPacket (demoEnv.Encode_TL_req_pq (demoEnv.GenerateNonce demoNoFingerprint.tick 16)),
        Event.read,
        Event.inspect (TLData.resPQ ⟨List.replicate 16 1, List.replicate 16 0xAA, 21, [5, 0, 0]⟩)] ∧
    (∀ x, Event.rsaEncode x ∉ (Handshake demoEnv demoNoFingerprint).trace) ∧
    (∀ pq, Event.splitPQ pq ∉ (Handshake demoEnv demoNoFingerprint).trace) ∧
    sendCount (Handshake demoEnv demoNoFingerprint).trace = 1 :=
  fingerprint_rejected demoEnv demoNoFingerprint
    ⟨List.replicate 16 1, List.replicate 16 0xAA, 21, [5, 0, 0]⟩ (by decide) (by decide) (by decide)

theorem WrongVariantStops.leaf (k : Nat) (m : MTProto) (o : Outcome) :
    WrongVariantStops k ⟨m, o, []⟩ := by
  intro j d h
  simp [decodedResponses] at h

theorem WrongVariantStops.skip (k : Nat) (ev : Event) (r : Run) (hev : ∀ d, ev ≠ Event.inspect d)
    (h : WrongVariantStops k r) : WrongVariantStops k (emit ev r) := by
  intro j d hd hv
  rw [emit_trace, decodedResponses_cons _ _ hev] at hd
  obtain ⟨h1, pre, h2, h3⟩ := h j d hd hv
  refine ⟨h1, ev :: pre, ?_, ?_⟩
  · rw [emit_trace, h2]
    rfl
  · rw [decodedResponses_cons _ _ hev]
    exact h3

theorem WrongVariantStops.pass (k : Nat) (d0 : TLData) (r : Run) (he : expects k d0)
    (h : WrongVariantStops (k + 1) r) : WrongVariantStops k (emit (Event.inspect d0) r) := by
  intro j d hd hv
  rw [emit_trace, decodedResponses_inspect] at hd
  cases j with
  | zero =>
    simp only [List.getElem?_cons_zero, Option.some.injEq] at hd
    subst hd
    exact absurd he hv
  | succ j =>
    simp only [List.getElem?_cons_succ] at hd
    rw [show k + (j + 1) = k + 1 + j by omega] at hv ⊢
    obtain ⟨h1, pre, h2, h3⟩ := h j d hd hv
    refine ⟨h1, Event.inspect d0 :: pre, ?_, ?_⟩
    · rw [emit_trace, h2]
      rfl
    · rw [decodedResponses_inspect, List.length_cons, h3]

theorem WrongVariantStops.stop (k : Nat) (d0 : TLData) (m : MTProto) :
    WrongVariantStops k (emit (Event.inspect d0) ⟨m, Outcome.err (expectedError k), []⟩) := by
  intro j d hd hv
  rw [emit_trace, decodedResponses_inspect] at hd
  cases j with
  | zero =>
    simp only [List.getElem?_cons_zero, Option.some.injEq] at hd
    subst hd
    exact ⟨rfl, [], rfl, rfl⟩
  | succ j => simp [decodedResponses] at hd

theorem confirmKey_variant (E : Env) (nf ns nh salt : List Byte) (g : Int) (m : MTProto) :
    WrongVariantStops 3 (confirmKey E nf ns nh salt g m) := by
  apply confirmKey_elim
  · intro m1 e
    exact .skip _ _ _ (by simp) (.leaf _ _ _)
  · intro m1 d _
    exact .skip _ _ _ (by simp) (.stop 3 _ _)
  · intro m1 dhg _
    exact .skip _ _ _ (by simp) (.pass _ _ _ trivial (.leaf _ _ _))
  · intro m1 dhg _ _
    exact .skip _ _ _ (by simp) (.pass _ _ _ trivial (.leaf _ _ _))
  · intro m1 dhg _ _ _
    exact .skip _ _ _ (by simp) (.pass _ _ _ trivial (.leaf _ _ _))
  · intro m1 dhg _ _ _ _
    exact .skip _ _ _ (by simp) (.pass _ _ _ trivial (.skip _ _ _ (by simp) (.leaf _ _ _)))
  · intro m1 dhg _ _ _ _
    exact .skip _ _ _ (by simp) (.pass _ _ _ trivial (.skip _ _ _ (by simp)
      (.skip _ _ _ (by simp) (.leaf _ _ _))))

theorem exchangeKeys_variant (E : Env) (nf n2 ns key iv : List Byte)
    (dhi : TL_server_DH_inner_data) (m : MTProto) :
    WrongVariantStops 3 (exchangeKeys E nf n2 ns key iv dhi m) := by
  apply exchangeKeys_elim
  · intro _
    exact .skip _ _ _ (by simp) (.leaf _ _ _)
  · intro _ _ _
    exact .skip _ _ _ (by simp) (.leaf _ _ _)
  · intro _ _ _ _ _
    exact .skip _ _ _ (by simp) (.leaf _ _ _)
  · intro req m1 e
    exact .skip _ _ _ (by simp) (.skip _ _ _ (by simp) (.skip _ _ _ (by simp) (.leaf _ _ _)))
  · intro ak nh salt req m1 _ _ _
    exact .skip _ _ _ (by simp) (.skip _ _ _ (by simp) (.skip _ _ _ (by simp)
      (confirmKey_variant _ _ _ _ _ _ _)))

theorem openAnswer_variant (E : Env) (nf n2 ns : List Byte) (dh : TL_server_DH_params_ok)
    (m : MTProto) : WrongVariantStops 2 (openAnswer E nf n2 ns dh m) := by
  apply openAnswer_elim
  · intro _
    exact .leaf _ _ _
  · intro key iv e _
    exact .skip _ _ _ (by simp) (.leaf _ _ _)
  · intro key iv _
    exact .skip _ _ _ (by simp) (.leaf _ _ _)
  · intro key iv m1 e _
    exact .skip _ _ _ (by simp) (.skip _ _ _ (by simp) (.leaf _ _ _))
  · intro key iv m1 d _ _
    exact .skip _ _ _ (by simp) (.skip _ _ _ (by simp) (.stop 2 _ _))
  · intro key iv m1 dhi _ _
    exact .skip _ _ _ (by simp) (.skip _ _ _ (by simp) (.pass _ _ _ trivial (.leaf _ _ _)))
  · intro key iv m1 dhi _ _ _
    exact .skip _ _ _ (by simp) (.skip _ _ _ (by simp) (.pass _ _ _ trivial (.leaf _ _ _)))
  · intro key iv m1 dhi _ _ _
    exact .skip _ _ _ (by simp) (.skip _ _ _ (by simp) (.pass _ _ _ trivial
      (exchangeKeys_variant _ _ _ _ _ _ _ _)))

theorem requestDHParams_variant (E : Env) (nf : List Byte) (res : TL_resPQ) (m : MTProto) :
    WrongVariantStops 1 (requestDHParams E nf res m) := by
  apply requestDHParams_elim
  · intro x req m1 e
    exact .skip _ _ _ (by simp) (.skip _ _ _ (by simp) (.skip _ _ _ (by simp) (.leaf _ _ _)))
  · intro x req m1 e
    exact .skip _ _ _ (by simp) (.skip _ _ _ (by simp) (.skip _ _ _ (by simp)
      (.skip _ _ _ (by simp) (.leaf _ _ _))))
  · intro x req m1 d _
    exact .skip _ _ _ (by simp) (.skip _ _ _ (by simp) (.skip _ _ _ (by simp)
      (.skip _ _ _ (by simp) (.stop 1 _ _))))
  · intro x req m1 dh _
    exact .skip _ _ _ (by simp) (.skip _ _ _ (by simp) (.skip _ _ _ (by simp)
      (.skip _ _ _ (by simp) (.pass _ _ _ trivial (.leaf _ _ _)))))
  · intro x req m1 dh _ _
    exact .skip _ _ _ (by simp) (.skip _ _ _ (by simp) (.skip _ _ _ (by simp)
      (.skip _ _ _ (by simp) (.pass _ _ _ trivial (.leaf _ _ _)))))
  · intro x req m1 dh _ _
    exact .skip _ _ _ (by simp) (.skip _ _ _ (by simp) (.skip _ _ _ (by simp)
      (.skip _ _ _ (by simp) (.pass _ _ _ trivial (openAnswer_variant _ _ _ _ _ _)))))

theorem Handshake_variant (E : Env) (m : MTProto) : WrongVariantStops 0 (Handshake E m) := by
  apply Handshake_elim
  · intro m1 e
    exact .skip _ _ _ (by simp) (.leaf _ _ _)
  · intro m1 e
    exact .skip _ _ _ (by simp) (.skip _ _ _ (by simp) (.leaf _ _ _))
  · intro m1 d _
    exact .skip _ _ _ (by simp) (.skip _ _ _ (by simp) (.stop 0 _ _))
  · intro m1 res _
    exact .skip _ _ _ (by simp) (.skip _ _ _ (by simp) (.pass _ _ _ trivial (.leaf _ _ _)))
  · intro m1 res _ _
    exact .skip _ _ _ (by simp) (.skip _ _ _ (by simp) (.pass _ _ _ trivial (.leaf _ _ _)))
  · intro m1 res _ _ _
    exact .skip _ _ _ (by simp) (.skip _ _ _ (by simp) (.pass _ _ _ trivial
      (requestDHParams_variant _ _ _ _)))

/-- C14. In every round of `Handshake`: when the value the round's type assertion
finds in `m.data` is not the variant the round expects (`resPQ`,
`server_DH_params_ok`, `server_DH_inner_data`, `dh_gen_ok`), `Handshake` returns that
round's error and the type assertion is its last event: there is no later
`SendPacket`, `Read` or any other call. -/
theorem wrong_variant_aborts (E : Env) (m : MTProto) (k : Nat) (d : TLData)
    (hd : (decodedResponses (Handshake E m).trace)[k]? = some d) (hv : ¬ expects k d) :
    (Handshake E m).outcome = Outcome.err (expectedError k) ∧
      ∃ pre, (Handshake E m).trace = pre ++ [Event.inspect d] ∧
        (decodedResponses pre).length = k := by
  have h := Handshake_variant E m k d hd
  rw [Nat.zero_add] at h
  exact h hv

theorem wrong_variant_aborts_witness :
    (Handshake demoEnv demoWrongVariant).outcome = Outcome.err Error.expectedServerDHParamsOk ∧
    ∃ pre, (Handshake demoEnv demoWrongVariant).trace =
        pre ++ [Event.inspect
          (TLData.resPQ ⟨List.replicate 16 1, List.replicate 16 0xAA, 21, [7, 0, 0]⟩)] ∧
      (decodedResponses pre).length = 1 :=
  wrong_variant_aborts demoEnv demoWrongVariant 1
    (TLData.resPQ ⟨List.replicate 16 1, List.replicate 16 0xAA, 21, [7, 0, 0]⟩) (by decide)
    (fun h => h)

theorem AtDecoded.none_yet (j : Nat) (Q : TLData → Outcome → Prop) (m : MTProto) (o : Outcome) :
    AtDecoded j Q ⟨m, o, []⟩ := by
  intro d h
  simp [decodedResponses] at h

theorem AtDecoded.after (j : Nat) (Q : TLData → Outcome → Prop) (ev : Event) (r : Run)
    (hev : ∀ d, ev ≠ Event.inspect d) (h : AtDecoded j Q r) : AtDecoded j Q (emit ev r) := by
  intro d hd
  rw [emit_trace, decodedResponses_cons _ _ hev] at hd
  exact h d hd

theorem AtDecoded.later (j : Nat) (Q : TLData → Outcome → Prop) (d0 : TLData) (r : Run)
    (h : AtDecoded j Q r) : AtDecoded (j + 1) Q (emit (Event.inspect d0) r) := by
  intro d hd
  rw [emit_trace, decodedResponses_inspect, List.getElem?_cons_succ] at hd
  exact h d hd

theorem AtDecoded.here (Q : TLData → Outcome → Prop) (d0 : TLData) (r : Run)
    (h : Q d0 r.outcome) : AtDecoded 0 Q (emit (Event.inspect d0) r) := by
  intro d hd
  rw [emit_trace, decodedResponses_inspect, List.getElem?_cons_zero, Option.some.injEq] at hd
  subst hd
  exact h

theorem authKeyOf?_some (g : Int) (ak : List Byte) (h : authKeyOf? g = some ak) :
    ak = bigBytes g ∧ g ≠ 0 := by
  unfold authKeyOf? at h
  cases hb : bigBytes g with
  | nil => simp [hb] at h
  | cons a0 rest =>
    obtain ⟨ha, hg⟩ := bigBytes_head g a0 rest hb
    simp only [hb, ha, if_false, Option.some.injEq] at h
    exact ⟨h.symm, hg⟩

theorem setGAB_total (E : Env) (g : Int) (m : MTProto) (ak : List Byte)
    (hS : ∀ x, (E.Sha1 x).length = 20) (ha : authKeyOf? g = some ak) :
    (setGAB E g m).2 = true := by
  unfold authKeyOf? at ha
  cases hb : bigBytes g with
  | nil => simp [hb] at ha
  | cons a0 rest =>
    obtain ⟨h0, _⟩ := bigBytes_head g a0 rest hb
    have hsl : slice? (E.Sha1 (a0 :: rest)) 12 20 =
        some (((E.Sha1 (a0 :: rest)).drop 12).take (20 - 12)) := by
      unfold slice?
      rw [if_pos ⟨by omega, by rw [hS]⟩]
    unfold setGAB
    simp only [hb, h0, if_false, hsl]

theorem copyAt_onto (pre d : List Byte) (k off : Nat) (hoff : off = pre.length)
    (h : d.length ≤ k) : copyAt (pre ++ zeros k) off d = pre ++ d ++ zeros (k - d.length) := by
  subst hoff
  exact copyAt_fill pre d k h

theorem copyAt_start (d : List Byte) (k : Nat) (h : d.length ≤ k) :
    copyAt (zeros k) 0 d = d ++ zeros (k - d.length) := by
  have := copyAt_onto [] d k 0 rfl h
  simpa using this

theorem slice?_of_le (s : List Byte) (lo hi : Nat) (h1 : lo ≤ hi) (h2 : hi ≤ s.length) :
    slice? s lo hi = some ((s.drop lo).take (hi - lo)) := by
  unfold slice?
  rw [if_pos ⟨h1, h2⟩]

theorem nonceHash1?_value (E : Env) (n2 ak : List Byte) (hS : ∀ x, (E.Sha1 x).length = 20)
    (hn : n2.length = 32) :
    nonceHash1? E n2 ak =
      some (((E.Sha1 (n2 ++ [1] ++ (E.Sha1 ak).take 8)).drop 4).take 16) := by
  unfold nonceHash1?
  simp only
  rw [slice?_of_le _ 0 8 (by omega) (by rw [hS]; omega)]
  simp only [List.drop_zero, Nat.sub_zero]
  have e1 : copyAt (zeros (32 + 1 + 8)) 0 n2 = n2 ++ zeros 9 := by
    rw [copyAt_start _ _ (by omega), hn]
  have e2 : copyAt (n2 ++ zeros 9) 32 [1] = n2 ++ [1] ++ zeros 8 :=
    copyAt_onto n2 [1] 9 32 hn.symm (by simp)
  have hl8 : ((E.Sha1 ak).take 8).length = 8 := by
    rw [List.length_take, hS]
    rfl
  have e3 : copyAt (n2 ++ [1] ++ zeros 8) 33 ((E.Sha1 ak).take 8) =
      n2 ++ [1] ++ (E.Sha1 ak).take 8 := by
    rw [copyAt_onto (n2 ++ [1]) _ 8 33 (by simp [hn]) (by omega), hl8]
    simp [zeros]
  rw [e1, e2, e3, slice?_of_le _ 4 20 (by omega) (by rw [hS])]

/-! ## Handshake: the confirmation hash -/

theorem AtDecoded.mono (j : Nat) (Q Q2 : TLData → Outcome → Prop) (r : Run)
    (hQ : ∀ d o, Q d o → Q2 d o) (h : AtDecoded j Q r) : AtDecoded j Q2 r :=
  fun d hd => hQ d _ (h d hd)

theorem confirmKey_hash (E : Env) (nf ns nh salt : List Byte) (g : Int) (m : MTProto)
    (hT : ∀ m1, (setGAB E g m1).2 = true) :
    AtDecoded 0 (hashDecides nf ns nh) (confirmKey E nf ns nh salt g m) := by
  apply confirmKey_elim
  · intro m1 e
    exact .after _ _ _ _ (by simp) (.none_yet _ _ _ _)
  · intro m1 d hv
    refine .after _ _ _ _ (by simp) (.here _ _ _ ?_)
    intro dhg hd
    exact absurd hd (hv dhg)
  · intro m1 dhg hne
    refine .after _ _ _ _ (by simp) (.here _ _ _ ?_)
    intro dhg2 hd hn _
    cases hd
    exact absurd hn.symm hne
  · intro m1 dhg _ hne
    refine .after _ _ _ _ (by simp) (.here _ _ _ ?_)
    intro dhg2 hd _ hs
    cases hd
    exact absurd hs.symm hne
  · intro m1 dhg _ _ hne
    refine .after _ _ _ _ (by simp) (.here _ _ _ ?_)
    intro dhg2 hd _ _
    cases hd
    refine ⟨⟨fun h => ?_, fun h => absurd h.symm hne⟩, fun _ => rfl⟩
    simp at h
  · intro m1 dhg _ _ _ hp
    rw [hT m1] at hp
    exact absurd hp (by simp)
  · intro m1 dhg _ _ he _
    refine .after _ _ _ _ (by simp) (.here _ _ _ ?_)
    intro dhg2 hd _ _
    cases hd
    exact ⟨⟨fun _ => he.symm, fun _ => rfl⟩, fun h => absurd he.symm h⟩

theorem exchangeKeys_hash (E : Env) (nf n2 ns key iv : List Byte)
    (dhi : TL_server_DH_inner_data) (m : MTProto) (hS : ∀ x, (E.Sha1 x).length = 20) :
    AtDecoded 0 (finalRoundDecides E n2 nf ns dhi) (exchangeKeys E nf n2 ns key iv dhi m) := by
  apply exchangeKeys_elim
  · intro _
    exact .after _ _ _ _ (by simp) (.none_yet _ _ _ _)
  · intro _ _ _
    exact .after _ _ _ _ (by simp) (.none_yet _ _ _ _)
  · intro _ _ _ _ _
    exact .after _ _ _ _ (by simp) (.none_yet _ _ _ _)
  · intro req m1 e
    exact .after _ _ _ _ (by simp) (.after _ _ _ _ (by simp) (.after _ _ _ _ (by simp)
      (.none_yet _ _ _ _)))
  · intro ak nh salt req m1 ha hh _
    refine .after _ _ _ _ (by simp) (.after _ _ _ _ (by simp) (.after _ _ _ _ (by simp) ?_))
    refine .mono _ _ _ _ ?_ (confirmKey_hash E nf ns nh salt _ m1
      (fun m2 => setGAB_total E _ m2 ak hS ha))
    intro d o h
    exact ⟨ak, nh, ha, hh, h⟩

theorem openAnswer_hash (E : Env) (nf n2 ns : List Byte) (dh : TL_server_DH_params_ok)
    (m : MTProto) (hS : ∀ x, (E.Sha1 x).length = 20) (dhi : TL_server_DH_inner_data)
    (h0 : (decodedResponses (openAnswer E nf n2 ns dh m).trace)[0]? =
      some (TLData.server_DH_inner_data dhi)) :
    AtDecoded 1 (finalRoundDecides E n2 nf ns dhi) (openAnswer E nf n2 ns dh m) := by
  revert h0
  refine openAnswer_elim E nf n2 ns dh m (fun r => (decodedResponses r.trace)[0]? =
      some (TLData.server_DH_inner_data dhi) → AtDecoded 1 (finalRoundDecides E n2 nf ns dhi) r)
    ?_ ?_ ?_ ?_ ?_ ?_ ?_ ?_
  · intro _ _
    exact .none_yet _ _ _ _
  · intro key iv e _ _
    exact .after _ _ _ _ (by simp) (.none_yet _ _ _ _)
  · intro key iv _ _
    exact .after _ _ _ _ (by simp) (.none_yet _ _ _ _)
  · intro key iv m1 e _ _
    exact .after _ _ _ _ (by simp) (.after _ _ _ _ (by simp) (.none_yet _ _ _ _))
  · intro key iv m1 d _ _ _
    exact .after _ _ _ _ (by simp) (.after _ _ _ _ (by simp) (.later _ _ _ _ (.none_yet _ _ _ _)))
  · intro key iv m1 dhi2 _ _ _
    exact .after _ _ _ _ (by simp) (.after _ _ _ _ (by simp) (.later _ _ _ _ (.none_yet _ _ _ _)))
  · intro key iv m1 dhi2 _ _ _ _
    exact .after _ _ _ _ (by simp) (.after _ _ _ _ (by simp) (.later _ _ _ _ (.none_yet _ _ _ _)))
  · intro key iv m1 dhi2 _ _ _ h0
    simp [decodedResponses] at h0
    subst h0
    exact .after _ _ _ _ (by simp) (.after _ _ _ _ (by simp) (.later _ _ _ _
      (exchangeKeys_hash E nf n2 ns key iv dhi2 m1 hS)))

theorem requestDHParams_hash (E : Env) (nf : List Byte) (res : TL_resPQ) (m : MTProto)
    (hS : ∀ x, (E.Sha1 x).length = 20) (dhi : TL_server_DH_inner_data)
    (h1 : (decodedResponses (requestDHParams E nf res m).trace)[1]? =
      some (TLData.server_DH_inner_data dhi)) :
    AtDecoded 2 (finalRoundDecides E (E.GenerateNonce m.tick 32) nf res.server_nonce dhi)
      (requestDHParams E nf res m) := by
  revert h1
  refine requestDHParams_elim E nf res m (fun r => (decodedResponses r.trace)[1]? =
      some (TLData.server_DH_inner_data dhi) →
      AtDecoded 2 (finalRoundDecides E (E.GenerateNonce m.tick 32) nf res.server_nonce dhi) r)
    ?_ ?_ ?_ ?_ ?_ ?_
  · intro x req m1 e h
    simp [decodedResponses] at h
  · intro x req m1 e h
    simp [decodedResponses] at h
  · intro x req m1 d _ h
    simp [decodedResponses] at h
  · intro x req m1 dh _ h
    simp [decodedResponses] at h
  · intro x req m1 dh _ _ h
    simp [decodedResponses] at h
  · intro x req m1 dh _ _ h
    have h0 : (decodedResponses (openAnswer E nf (E.GenerateNonce m.tick 32) res.server_nonce
        dh m1).trace)[0]? = some (TLData.server_DH_inner_data dhi) := by
      simpa [decodedResponses] using h
    exact .after _ _ _ _ (by simp) (.after _ _ _ _ (by simp) (.after _ _ _ _ (by simp)
      (.after _ _ _ _ (by simp) (.later _ _ _ _ (openAnswer_hash E nf _ _ dh m1 hS dhi h0)))))

theorem Handshake_hash (E : Env) (m : MTProto) (hS : ∀ x, (E.Sha1 x).length = 20)
    (res : TL_resPQ) (dhi : TL_server_DH_inner_data)
    (h0 : (decodedResponses (Handshake E m).trace)[0]? = some (TLData.resPQ res))
    (h2 : (decodedResponses (Handshake E m).trace)[2]? = some (TLData.server_DH_inner_data dhi)) :
    AtDecoded 3 (finalRoundDecides E (E.GenerateNonce (secondNonceTick m) 32)
      (E.GenerateNonce m.tick 16) res.server_nonce dhi) (Handshake E m) := by
  revert h0 h2
  refine Handshake_elim E m (fun r => (decodedResponses r.trace)[0]? = some (TLData.resPQ res) →
      (decodedResponses r.trace)[2]? = some (TLData.server_DH_inner_data dhi) →
      AtDecoded 3 (finalRoundDecides E (E.GenerateNonce (secondNonceTick m) 32)
        (E.GenerateNonce m.tick 16) res.server_nonce dhi) r) ?_ ?_ ?_ ?_ ?_ ?_
  · intro m1 e _ h
    simp [decodedResponses] at h
  · intro m1 e _ h
    simp [decodedResponses] at h
  · intro m1 d _ _ h
    simp [decodedResponses] at h
  · intro m1 res2 _ _ h
    simp [decodedResponses] at h
  · intro m1 res2 _ _ _ h
    simp [decodedResponses] at h
  · intro m1 res2 ht _ _ h0 h2
    have e0 : res2 = res := by simpa [decodedResponses] using h0
    subst e0
    have h1 : (decodedResponses (requestDHParams E (E.GenerateNonce m.tick 16) res2 m1).trace)[1]? =
        some (TLData.server_DH_inner_data dhi) := by
      simpa [decodedResponses] using h2
    have := requestDHParams_hash E (E.GenerateNonce m.tick 16) res2 m1 hS dhi h1
    rw [ht] at this
    exact .after _ _ _ _ (by simp) (.after _ _ _ _ (by simp) (.later _ _ _ _ this))

theorem demoSha1_length (x : List Byte) : (demoSha1 x).length = 20 := leBytes_length _ _

/-- C13. In the last round, for a `dh_gen_ok` that carries both nonces (with SHA-1
returning 20 bytes and the second nonce being 32 bytes): `Handshake` returns `nil`
exactly when `new_nonce_hash1` equals the 16 bytes
`Sha1(nonceSecond || 0x01 || Sha1(authKey)[0:8])[4:20]`, where `authKey` is the
big-endian byte form of the shared secret; otherwise it returns the hash error,
the connection data is unchanged and neither `setGAB` nor `setSalt` was called. -/
theorem confirmation_hash_decides (E : Env) (m : MTProto) (res : TL_resPQ)
    (dhi : TL_server_DH_inner_data) (dhg : TL_dh_gen_ok)
    (hS : ∀ x, (E.Sha1 x).length = 20)
    (hN : (E.GenerateNonce (secondNonceTick m) 32).length = 32)
    (h0 : (decodedResponses (Handshake E m).trace)[0]? = some (TLData.resPQ res))
    (h2 : (decodedResponses (Handshake E m).trace)[2]? = some (TLData.server_DH_inner_data dhi))
    (h3 : (decodedResponses (Handshake E m).trace)[3]? = some (TLData.dh_gen_ok dhg))
    (hn : dhg.nonce = E.GenerateNonce m.tick 16) (hs : dhg.server_nonce = res.server_nonce) :
    (((E.Sha1 (E.GenerateNonce (secondNonceTick m) 32 ++ [1] ++
        (E.Sha1 (bigBytes (E.MakeGAB dhi.g dhi.g_a dhi.dh_prime).2.2)).take 8)).drop 4).take
      16).length = 16 ∧
    ((Handshake E m).outcome = Outcome.ok ↔
      dhg.new_nonce_hash1 =
        ((E.Sha1 (E.GenerateNonce (secondNonceTick m) 32 ++ [1] ++
          (E.Sha1 (bigBytes (E.MakeGAB dhi.g dhi.g_a dhi.dh_prime).2.2)).take 8)).drop 4).take 16) ∧
    (dhg.new_nonce_hash1 ≠
        ((E.Sha1 (E.GenerateNonce (secondNonceTick m) 32 ++ [1] ++
          (E.Sha1 (bigBytes (E.MakeGAB dhi.g dhi.g_a dhi.dh_prime).2.2)).take 8)).drop 4).take 16 →
      (Handshake E m).outcome = Outcome.err Error.newNonceHashMismatch ∧
      (Handshake E m).m.keys = m.keys ∧ (∀ g, Event.setGAB g ∉ (Handshake E m).trace) ∧
      ∀ s, Event.setSalt s ∉ (Handshake E m).trace) := by
  obtain ⟨ak, nh, ha, hh, hd⟩ := Handshake_hash E m hS res dhi h0 h2 _ h3
  obtain ⟨hak, _⟩ := authKeyOf?_some _ _ ha
  rw [nonceHash1?_value E _ ak hS hN, Option.some.injEq, hak] at hh
  obtain ⟨hiff, herr⟩ := hd dhg rfl hn hs
  rw [← hh] at hiff herr
  refine ⟨by rw [List.length_take, List.length_drop, hS]; rfl, hiff, fun hne => ?_⟩
  have he := herr hne
  refine ⟨he, ?_⟩
  rcases Handshake_run E m with ⟨⟨hk, hg, hsalt, _⟩, _⟩ | hall
  · exact ⟨hk, hg, hsalt⟩
  · obtain ⟨_, _, _, _, _, _, _, _, _, _, _, hc⟩ := hall
    obtain ⟨_, _, _, _, _, _, _, _, _, m1, _, _, hr⟩ := hc
    rcases hr with ⟨_, ho, _⟩ | ⟨_, ho, _⟩
    · rw [he] at ho
      exact absurd ho (by simp)
    · rw [he] at ho
      exact absurd ho (by simp)

theorem confirmation_hash_decides_witness :
    (Handshake demoEnv demoHonest).outcome = Outcome.ok ∧
    (Handshake demoEnv demoBadConfirm).outcome = Outcome.err Error.newNonceHashMismatch ∧
    (Handshake demoEnv demoBadConfirm).m.keys = demoBadConfirm.keys :=
  ⟨(confirmation_hash_decides demoEnv demoHonest
      ⟨List.replicate 16 1, List.replicate 16 0xAA, 21, [7, 0, 0]⟩
      ⟨List.replicate 16 1, List.replicate 16 0xAA, 2, 23, 9⟩
      ⟨List.replicate 16 1, List.replicate 16 0xAA, demoConfirm⟩
      demoSha1_length (by decide) (by decide) (by decide) (by decide) (by decide)
      (by decide)).2.1.2 (by decide),
   ((confirmation_hash_decides demoEnv demoBadConfirm
      ⟨List.replicate 16 1, List.replicate 16 0xAA, 21, [7, 0, 0]⟩
      ⟨List.replicate 16 1, List.replicate 16 0xAA, 2, 23, 9⟩
      ⟨List.replicate 16 1, List.replicate 16 0xAA, List.replicate 16 0⟩
      demoSha1_length (by decide) (by decide) (by decide) (by decide) (by decide)
      (by decide)).2.2 (by decide)).1,
   ((confirmation_hash_decides demoEnv demoBadConfirm
      ⟨List.replicate 16 1, List.replicate 16 0xAA, 21, [7, 0, 0]⟩
      ⟨List.replicate 16 1, List.replicate 16 0xAA, 2, 23, 9⟩
      ⟨List.replicate 16 1, List.replicate 16 0xAA, List.replicate 16 0⟩
      demoSha1_length (by decide) (by decide) (by decide) (by decide) (by decide)
      (by decide)).2.2 (by decide)).2.1⟩

/-! ## Handshake: temporary key, IV and the padded buffer -/

theorem copyAt_exact (pre d : List Byte) (off : Nat) (hoff : off = pre.length) :
    copyAt (pre ++ zeros d.length) off d = pre ++ d := by
  rw [copyAt_onto pre d d.length off hoff (Nat.le_refl _)]
  simp [zeros]

theorem tmpAES?_value (E : Env) (n2 ns : List Byte) (hS : ∀ x, (E.Sha1 x).length = 20)
    (h2 : n2.length = 32) (hs : ns.length = 16) :
    tmpAES? E n2 ns =
      some ((E.Sha1 (n2 ++ ns)).take 20 ++ (E.Sha1 (ns ++ n2)).take 12,
        ((E.Sha1 (ns ++ n2)).drop 12).take 8 ++ (E.Sha1 (n2 ++ n2)).take 20 ++ n2.take 4) := by
  have t1 : copyAt (copyAt (zeros 48) 0 n2) 32 ns = n2 ++ ns := by
    rw [copyAt_start _ _ (by omega), h2]
    have := copyAt_exact n2 ns 32 h2.symm
    rwa [hs] at this
  have t2 : copyAt (copyAt (zeros 48) 0 ns) 16 n2 = ns ++ n2 := by
    rw [copyAt_start _ _ (by omega), hs]
    have := copyAt_exact ns n2 16 hs.symm
    rwa [h2] at this
  have t3 : copyAt (copyAt (zeros 64) 0 n2) 32 n2 = n2 ++ n2 := by
    rw [copyAt_start _ _ (by omega), h2]
    have := copyAt_exact n2 n2 32 h2.symm
    rwa [h2] at this
  have l12 : ((E.Sha1 (ns ++ n2)).take 12).length = 12 := by
    rw [List.length_take, hS]
    rfl
  have l8 : (((E.Sha1 (ns ++ n2)).drop 12).take 8).length = 8 := by
    rw [List.length_take, List.length_drop, hS]
    rfl
  have l4 : (n2.take 4).length = 4 := by
    rw [List.length_take, h2]
    rfl
  have k1 : copyAt (zeros 32) 0 (E.Sha1 (n2 ++ ns)) = E.Sha1 (n2 ++ ns) ++ zeros 12 := by
    rw [copyAt_start _ _ (by rw [hS]; omega), hS]
  have k2 : copyAt (E.Sha1 (n2 ++ ns) ++ zeros 12) 20 ((E.Sha1 (ns ++ n2)).take 12) =
      E.Sha1 (n2 ++ ns) ++ (E.Sha1 (ns ++ n2)).take 12 := by
    have := copyAt_exact (E.Sha1 (n2 ++ ns)) ((E.Sha1 (ns ++ n2)).take 12) 20 (hS _).symm
    rwa [l12] at this
  have v1 : copyAt (zeros 32) 0 (((E.Sha1 (ns ++ n2)).drop 12).take 8) =
      ((E.Sha1 (ns ++ n2)).drop 12).take 8 ++ zeros 24 := by
    rw [copyAt_start _ _ (by rw [l8]; omega), l8]
  have v2 : copyAt (((E.Sha1 (ns ++ n2)).drop 12).take 8 ++ zeros 24) 8 (E.Sha1 (n2 ++ n2)) =
      ((E.Sha1 (ns ++ n2)).drop 12).take 8 ++ E.Sha1 (n2 ++ n2) ++ zeros 4 := by
    rw [copyAt_onto _ _ 24 8 l8.symm (by rw [hS]; omega), hS]
  have v3 : copyAt (((E.Sha1 (ns ++ n2)).drop 12).take 8 ++ E.Sha1 (n2 ++ n2) ++ zeros 4) 28
      (n2.take 4) = ((E.Sha1 (ns ++ n2)).drop 12).take 8 ++ E.Sha1 (n2 ++ n2) ++ n2.take 4 := by
    have := copyAt_exact (((E.Sha1 (ns ++ n2)).drop 12).take 8 ++ E.Sha1 (n2 ++ n2)) (n2.take 4) 28
      (by rw [List.length_append, l8, hS])
    rwa [l4] at this
  unfold tmpAES?
  simp only [t1, t2, t3]
  rw [slice?_of_le _ 0 12 (by omega) (by rw [hS]; omega),
    slice?_of_le _ 12 20 (by omega) (by rw [hS]),
    slice?_of_le _ 0 4 (by omega) (by rw [h2]; omega)]
  simp only [List.drop_zero, Nat.sub_zero, Nat.reduceSub, k1, k2, v1, v2, v3]
  rw [List.take_of_length_le (Nat.le_of_eq (hS (n2 ++ ns))),
    List.take_of_length_le (Nat.le_of_eq (hS (n2 ++ n2)))]

theorem padForAES_length (E : Env) (d : List Byte) :
    (padForAES E d).length = 20 + d.length + ((16 - (20 + d.length) % 16) &&& 15) := by
  unfold padForAES
  simp only [copyAt_length, zeros_length]

theorem pad_value (n : Nat) : (16 - n % 16) &&& 15 = (16 - n % 16) % 16 :=
  Nat.and_pow_two_sub_one_eq_mod (16 - n % 16) 4

theorem padForAES_value (E : Env) (d : List Byte) (hS : (E.Sha1 d).length = 20) :
    padForAES E d = E.Sha1 d ++ d ++ zeros ((16 - (20 + d.length) % 16) &&& 15) := by
  unfold padForAES
  simp only
  rw [copyAt_start _ _ (by rw [hS]; omega), hS,
    show 20 + d.length + ((16 - (20 + d.length) % 16) &&& 15) - 20 =
      d.length + ((16 - (20 + d.length) % 16) &&& 15) by omega,
    copyAt_onto _ d _ 20 hS.symm (by omega), Nat.add_sub_cancel_left]

theorem AESFrom.no_calls (E : Env) (src : Option (List Byte × List Byte)) (m : MTProto)
    (o : Outcome) : AESFrom E src ⟨m, o, []⟩ := by
  intro ev h
  simp at h

theorem AESFrom.non_aes (E : Env) (src : Option (List Byte × List Byte)) (ev : Event) (r : Run)
    (hev : aesArgs ev = none) (h : AESFrom E src r) : AESFrom E src (emit ev r) := by
  intro ev2 h2
  rw [emit_trace, List.mem_cons] at h2
  rcases h2 with h2 | h2
  · subst h2
    refine ⟨?_, fun a ha => ?_⟩
    · cases ev2 <;> trivial
    · rw [hev] at ha
      exact absurd ha (by simp)
  · exact h ev2 h2

theorem AESFrom.on_decrypt (E : Env) (d key iv : List Byte) (r : Run)
    (h : AESFrom E (some (key, iv)) r) :
    AESFrom E (some (key, iv)) (emit (Event.aesDecrypt d key iv) r) := by
  intro ev2 h2
  rw [emit_trace, List.mem_cons] at h2
  rcases h2 with h2 | h2
  · subst h2
    refine ⟨trivial, fun a ha => ?_⟩
    simp only [aesArgs, Option.some.injEq] at ha
    rw [ha]
  · exact h ev2 h2

theorem AESFrom.on_encrypt (E : Env) (d key iv : List Byte) (r : Run)
    (h : AESFrom E (some (key, iv)) r) :
    AESFrom E (some (key, iv)) (emit (Event.aesEncrypt (padForAES E d) key iv) r) := by
  intro ev2 h2
  rw [emit_trace, List.mem_cons] at h2
  rcases h2 with h2 | h2
  · subst h2
    refine ⟨⟨d, rfl⟩, fun a ha => ?_⟩
    simp only [aesArgs, Option.some.injEq] at ha
    rw [ha]
  · exact h ev2 h2

theorem confirmKey_aes (E : Env) (nf ns nh salt : List Byte) (g : Int) (m : MTProto)
    (src : Option (List Byte × List Byte)) : AESFrom E src (confirmKey E nf ns nh salt g m) := by
  apply confirmKey_elim
  · intro m1 e
    exact .non_aes _ _ _ _ rfl (.no_calls _ _ _ _)
  · intro m1 d _
    exact .non_aes _ _ _ _ rfl (.non_aes _ _ _ _ rfl (.no_calls _ _ _ _))
  · intro m1 dhg _
    exact .non_aes _ _ _ _ rfl (.non_aes _ _ _ _ rfl (.no_calls _ _ _ _))
  · intro m1 dhg _ _
    exact .non_aes _ _ _ _ rfl (.non_aes _ _ _ _ rfl (.no_calls _ _ _ _))
  · intro m1 dhg _ _ _
    exact .non_aes _ _ _ _ rfl (.non_aes _ _ _ _ rfl (.no_calls _ _ _ _))
  · intro m1 dhg _ _ _ _
    exact .non_aes _ _ _ _ rfl (.non_aes _ _ _ _ rfl (.non_aes _ _ _ _ rfl (.no_calls _ _ _ _)))
  · intro m1 dhg _ _ _ _
    exact .non_aes _ _ _ _ rfl (.non_aes _ _ _ _ rfl (.non_aes _ _ _ _ rfl
      (.non_aes _ _ _ _ rfl (.no_calls _ _ _ _))))

theorem exchangeKeys_aes (E : Env) (nf n2 ns key iv : List Byte)
    (dhi : TL_server_DH_inner_data) (m : MTProto) :
    AESFrom E (some (key, iv)) (exchangeKeys E nf n2 ns key iv dhi m) := by
  apply exchangeKeys_elim
  · intro _
    exact .non_aes _ _ _ _ rfl (.no_calls _ _ _ _)
  · intro _ _ _
    exact .non_aes _ _ _ _ rfl (.no_calls _ _ _ _)
  · intro _ _ _ _ _
    exact .non_aes _ _ _ _ rfl (.no_calls _ _ _ _)
  · intro req m1 e
    exact .non_aes _ _ _ _ rfl (.on_encrypt _ _ _ _ _ (.non_aes _ _ _ _ rfl (.no_calls _ _ _ _)))
  · intro ak nh salt req m1 _ _ _
    exact .non_aes _ _ _ _ rfl (.on_encrypt _ _ _ _ _ (.non_aes _ _ _ _ rfl
      (confirmKey_aes _ _ _ _ _ _ _ _)))

theorem openAnswer_aes (E : Env) (nf n2 ns : List Byte) (dh : TL_server_DH_params_ok)
    (m : MTProto) : AESFrom E (tmpAES? E n2 ns) (openAnswer E nf n2 ns dh m) := by
  apply openAnswer_elim
  · intro _
    exact .no_calls _ _ _ _
  · intro key iv e h
    rw [h]
    exact .on_decrypt _ _ _ _ _ (.no_calls _ _ _ _)
  · intro key iv h
    rw [h]
    exact .on_decrypt _ _ _ _ _ (.no_calls _ _ _ _)
  · intro key iv m1 e h
    rw [h]
    exact .on_decrypt _ _ _ _ _ (.non_aes _ _ _ _ rfl (.no_calls _ _ _ _))
  · intro key iv m1 d h _
    rw [h]
    exact .on_decrypt _ _ _ _ _ (.non_aes _ _ _ _ rfl (.non_aes _ _ _ _ rfl (.no_calls _ _ _ _)))
  · intro key iv m1 dhi h _
    rw [h]
    exact .on_decrypt _ _ _ _ _ (.non_aes _ _ _ _ rfl (.non_aes _ _ _ _ rfl (.no_calls _ _ _ _)))
  · intro key iv m1 dhi h _ _
    rw [h]
    exact .on_decrypt _ _ _ _ _ (.non_aes _ _ _ _ rfl (.non_aes _ _ _ _ rfl (.no_calls _ _ _ _)))
  · intro key iv m1 dhi h _ _
    rw [h]
    exact .on_decrypt _ _ _ _ _ (.non_aes _ _ _ _ rfl (.non_aes _ _ _ _ rfl
      (exchangeKeys_aes _ _ _ _ _ _ _ _)))

theorem requestDHParams_aes (E : Env) (nf : List Byte) (res : TL_resPQ) (m : MTProto) :
    AESFrom E (tmpAES? E (E.GenerateNonce m.tick 32) res.server_nonce)
      (requestDHParams E nf res m) := by
  apply requestDHParams_elim
  · intro x req m1 e
    exact .non_aes _ _ _ _ rfl (.non_aes _ _ _ _ rfl (.non_aes _ _ _ _ rfl (.no_calls _ _ _ _)))
  · intro x req m1 e
    exact .non_aes _ _ _ _ rfl (.non_aes _ _ _ _ rfl (.non_aes _ _ _ _ rfl
      (.non_aes _ _ _ _ rfl (.no_calls _ _ _ _))))
  · intro x req m1 d _
    exact .non_aes _ _ _ _ rfl (.non_aes _ _ _ _ rfl (.non_aes _ _ _ _ rfl
      (.non_aes _ _ _ _ rfl (.non_aes _ _ _ _ rfl (.no_calls _ _ _ _)))))
  · intro x req m1 dh _
    exact .non_aes _ _ _ _ rfl (.non_aes _ _ _ _ rfl (.non_aes _ _ _ _ rfl
      (.non_aes _ _ _ _ rfl (.non_aes _ _ _ _ rfl (.no_calls _ _ _ _)))))
  · intro x req m1 dh _ _
    exact .non_aes _ _ _ _ rfl (.non_aes _ _ _ _ rfl (.non_aes _ _ _ _ rfl
      (.non_aes _ _ _ _ rfl (.non_aes _ _ _ _ rfl (.no_calls _ _ _ _)))))
  · intro x req m1 dh _ _
    exact .non_aes _ _ _ _ rfl (.non_aes _ _ _ _ rfl (.non_aes _ _ _ _ rfl
      (.non_aes _ _ _ _ rfl (.non_aes _ _ _ _ rfl (openAnswer_aes _ _ _ _ _ _)))))

theorem Handshake_aes (E : Env) (m : MTProto) (ev : Event) (hev : ev ∈ (Handshake E m).trace) :
    builtByPad E ev ∧ ∀ a, aesArgs ev = some a →
      ∃ res, (decodedResponses (Handshake E m).trace)[0]? = some (TLData.resPQ res) ∧
        tmpAES? E (E.GenerateNonce (secondNonceTick m) 32) res.server_nonce = some a := by
  revert hev
  refine Handshake_elim E m (fun r => ev ∈ r.trace → builtByPad E ev ∧ ∀ a, aesArgs ev = some a →
      ∃ res, (decodedResponses r.trace)[0]? = some (TLData.resPQ res) ∧
        tmpAES? E (E.GenerateNonce (secondNonceTick m) 32) res.server_nonce = some a)
    ?_ ?_ ?_ ?_ ?_ ?_
  · intro m1 e h
    have := (AESFrom.non_aes E none _ _ (by rfl) (.no_calls _ _ m1 (Outcome.err e))) ev h
    exact ⟨this.1, fun a ha => absurd (this.2 a ha) (by simp)⟩
  · intro m1 e h
    have := (AESFrom.non_aes E none _ _ (by rfl) (.non_aes _ _ _ _ (by rfl)
      (.no_calls _ _ m1 (Outcome.err e)))) ev h
    exact ⟨this.1, fun a ha => absurd (this.2 a ha) (by simp)⟩
  · intro m1 d _ h
    have := (AESFrom.non_aes E none _ _ (by rfl) (.non_aes _ _ _ _ (by rfl) (.non_aes _ _ _ _ (by rfl)
      (.no_calls _ _ m1 (Outcome.err Error.expectedResPQ))))) ev h
    exact ⟨this.1, fun a ha => absurd (this.2 a ha) (by simp)⟩
  · intro m1 res _ h
    have := (AESFrom.non_aes E none _ _ (by rfl) (.non_aes _ _ _ _ (by rfl) (.non_aes _ _ _ _ (by rfl)
      (.no_calls _ _ m1 (Outcome.err Error.nonceMismatch))))) ev h
    exact ⟨this.1, fun a ha => absurd (this.2 a ha) (by simp)⟩
  · intro m1 res _ _ h
    have := (AESFrom.non_aes E none _ _ (by rfl) (.non_aes _ _ _ _ (by rfl) (.non_aes _ _ _ _ (by rfl)
      (.no_calls _ _ m1 (Outcome.err Error.fingerprintMissing))))) ev h
    exact ⟨this.1, fun a ha => absurd (this.2 a ha) (by simp)⟩
  · intro m1 res ht _ _ h
    have := (AESFrom.non_aes E _ _ _ (by rfl) (.non_aes _ _ _ _ (by rfl) (.non_aes _ _ _ _ (by rfl)
      (requestDHParams_aes E (E.GenerateNonce m.tick 16) res m1)))) ev h
    rw [ht] at this
    exact ⟨this.1, fun a ha => ⟨res, by simp [decodedResponses], this.2 a ha⟩⟩

/-- C12. For a 32-byte second nonce and a 16-byte server nonce, with SHA-1 any
function returning 20 bytes: the temporary key computed in `Handshake` is
`hash1[0:20] || hash2[0:12]` and the temporary IV is
`hash2[12:20] || hash3[0:20] || nonceSecond[0:4]`, each of 32 bytes, and in every
run that draws this second nonce and receives this server nonce in `resPQ`, every
call of `AES256IGE_decrypt` and of `AES256IGE_encrypt` is given this pair. -/
theorem temp_key_and_iv (E : Env) (n2 ns : List Byte) (hS : ∀ x, (E.Sha1 x).length = 20)
    (h2 : n2.length = 32) (hs : ns.length = 16) :
    tmpAES? E n2 ns =
      some ((E.Sha1 (n2 ++ ns)).take 20 ++ (E.Sha1 (ns ++ n2)).take 12,
        ((E.Sha1 (ns ++ n2)).drop 12).take 8 ++ (E.Sha1 (n2 ++ n2)).take 20 ++ n2.take 4) ∧
    ((E.Sha1 (n2 ++ ns)).take 20 ++ (E.Sha1 (ns ++ n2)).take 12).length = 32 ∧
    (((E.Sha1 (ns ++ n2)).drop 12).take 8 ++ (E.Sha1 (n2 ++ n2)).take 20 ++ n2.take 4).length = 32 ∧
    ∀ m res, E.GenerateNonce (secondNonceTick m) 32 = n2 → res.server_nonce = ns →
      (decodedResponses (Handshake E m).trace)[0]? = some (TLData.resPQ res) →
      ∀ kv ∈ aesKeys (Handshake E m).trace,
        kv = ((E.Sha1 (n2 ++ ns)).take 20 ++ (E.Sha1 (ns ++ n2)).take 12,
          ((E.Sha1 (ns ++ n2)).drop 12).take 8 ++ (E.Sha1 (n2 ++ n2)).take 20 ++ n2.take 4) := by
  have hv := tmpAES?_value E n2 ns hS h2 hs
  refine ⟨hv, ?_, ?_, ?_⟩
  · simp only [List.length_append, List.length_take, hS]
    rfl
  · simp only [List.length_append, List.length_take, List.length_drop, hS, h2]
    rfl
  · intro m res hn hr h0 kv hkv
    unfold aesKeys at hkv
    rw [List.mem_filterMap] at hkv
    obtain ⟨ev, hev, ha⟩ := hkv
    obtain ⟨res2, h0b, ht⟩ := (Handshake_aes E m ev hev).2 kv ha
    rw [h0, Option.some.injEq, TLData.resPQ.injEq] at h0b
    rw [← h0b, hn, hr, hv, Option.some.injEq] at ht
    exact ht.symm

theorem temp_key_and_iv_witness :
    tmpAES? demoEnv (List.replicate 32 3) (List.replicate 16 0xAA) = some (demoTmpKey, demoTmpIV) ∧
    aesKeys (Handshake demoEnv demoHonest).trace =
      [(demoTmpKey, demoTmpIV), (demoTmpKey, demoTmpIV)] :=
  ⟨(temp_key_and_iv demoEnv (List.replicate 32 3) (List.replicate 16 0xAA) demoSha1_length
      (by decide) (by decide)).1, by decide⟩

/-- C17. For every encoded `client_DH_inner_data` (with SHA-1 returning 20 bytes):
the buffer built for AES encryption has length
`20 + n + ((16 - ((20 + n) mod 16)) AND 15)`, which is a multiple of 16, at least
`20 + n` and less than `20 + n + 16` (so nothing is added when `20 + n` is a
multiple of 16), and the buffer is `Sha1(innerData2) || innerData2 || zeros`; and
every buffer `Handshake` gives to `AES256IGE_encrypt` is built this way. -/
theorem aes_buffer_padding (E : Env) (d : List Byte) (hS : (E.Sha1 d).length = 20) :
    (padForAES E d).length = 20 + d.length + ((16 - (20 + d.length) % 16) &&& 15) ∧
    (padForAES E d).length % 16 = 0 ∧
    20 + d.length ≤ (padForAES E d).length ∧
    (padForAES E d).length < 20 + d.length + 16 ∧
    ((20 + d.length) % 16 = 0 → (padForAES E d).length = 20 + d.length) ∧
    padForAES E d = E.Sha1 d ++ d ++ zeros ((16 - (20 + d.length) % 16) &&& 15) ∧
    ∀ m x key iv, Event.aesEncrypt x key iv ∈ (Handshake E m).trace →
      ∃ d2, x = padForAES E d2 := by
  have hl := padForAES_length E d
  have hp := pad_value (20 + d.length)
  refine ⟨hl, ?_, ?_, ?_, ?_, padForAES_value E d hS, ?_⟩
  · rw [hl, hp]
    omega
  · omega
  · rw [hl, hp]
    omega
  · intro h
    rw [hl, hp]
    omega
  · intro m x key iv hx
    exact (Handshake_aes E m _ hx).1

theorem aes_buffer_padding_witness :
    (padForAES demoEnv [1, 2, 3, 4, 5]).length = 32 ∧
    padForAES demoEnv [1, 2, 3, 4, 5] = demoSha1 [1, 2, 3, 4, 5] ++ [1, 2, 3, 4, 5] ++ zeros 7 :=
  ⟨(aes_buffer_padding demoEnv [1, 2, 3, 4, 5] (demoSha1_length _)).1,
    (aes_buffer_padding demoEnv [1, 2, 3, 4, 5] (demoSha1_length _)).2.2.2.2.2.1⟩

/-! ## Handshake: the digest of the decrypted answer -/

theorem slice?_tail (p : List Byte) (h : 20 ≤ p.length) :
    slice? p 20 p.length = some (p.drop 20) := by
  rw [slice?_of_le p 20 p.length h (Nat.le_refl _)]
  congr 1
  apply List.take_of_length_le
  rw [List.length_drop]

theorem confirmKey_withDecrypt (E : Env) (dec) (nf ns nh salt : List Byte) (g : Int)
    (m : MTProto) :
    confirmKey (withDecrypt E dec) nf ns nh salt g m = confirmKey E nf ns nh salt g m := rfl

theorem exchangeKeys_withDecrypt (E : Env) (dec) (nf n2 ns key iv : List Byte)
    (dhi : TL_server_DH_inner_data) (m : MTProto) :
    exchangeKeys (withDecrypt E dec) nf n2 ns key iv dhi m =
      exchangeKeys E nf n2 ns key iv dhi m := rfl

theorem openAnswer_withDecrypt (E : Env) (dec) (nf n2 ns : List Byte)
    (dh : TL_server_DH_params_ok) (m : MTProto)
    (hd : ∀ d key iv, (dec d key iv).2 = (E.AES256IGE_decrypt d key iv).2 ∧
      ((dec d key iv).1 = (E.AES256IGE_decrypt d key iv).1 ∨
        sameAfterDigest (dec d key iv).1 (E.AES256IGE_decrypt d key iv).1)) :
    openAnswer (withDecrypt E dec) nf n2 ns dh m = openAnswer E nf n2 ns dh m := by
  unfold openAnswer
  show orPanic (tmpAES? E n2 ns) m _ = orPanic (tmpAES? E n2 ns) m _
  cases hT : tmpAES? E n2 ns with
  | none => rfl
  | some kv =>
    obtain ⟨key, iv⟩ := kv
    simp only [orPanic_some]
    congr 1
    show (match dec dh.encrypted_answer key iv with
      | (_, some e) => _
      | (decodedData, none) => _) = _
    obtain ⟨he, hp⟩ := hd dh.encrypted_answer key iv
    rcases h1 : dec dh.encrypted_answer key iv with ⟨p, e⟩
    rcases h2 : E.AES256IGE_decrypt dh.encrypted_answer key iv with ⟨q, e2⟩
    rw [h1, h2] at he hp
    simp only at he hp
    subst he
    cases e with
    | some e => rfl
    | none =>
      simp only
      rcases hp with hp | ⟨l1, l2, hp⟩
      · subst hp
        rfl
      · rw [slice?_tail p l1, slice?_tail q l2, hp]
        rfl

theorem requestDHParams_withDecrypt (E : Env) (dec) (nf : List Byte) (res : TL_resPQ)
    (m : MTProto)
    (hd : ∀ d key iv, (dec d key iv).2 = (E.AES256IGE_decrypt d key iv).2 ∧
      ((dec d key iv).1 = (E.AES256IGE_decrypt d key iv).1 ∨
        sameAfterDigest (dec d key iv).1 (E.AES256IGE_decrypt d key iv).1)) :
    requestDHParams (withDecrypt E dec) nf res m = requestDHParams E nf res m := by
  unfold requestDHParams
  simp only [openAnswer_withDecrypt E dec _ _ _ _ _ hd]
  rfl

theorem Handshake_withDecrypt (E : Env) (dec) (m : MTProto)
    (hd : ∀ d key iv, (dec d key iv).2 = (E.AES256IGE_decrypt d key iv).2 ∧
      ((dec d key iv).1 = (E.AES256IGE_decrypt d key iv).1 ∨
        sameAfterDigest (dec d key iv).1 (E.AES256IGE_decrypt d key iv).1)) :
    Handshake (withDecrypt E dec) m = Handshake E m := by
  unfold Handshake
  simp only [requestDHParams_withDecrypt E dec _ _ _ hd]
  rfl

/-- C16. `Handshake` does not look at the leading 20-byte digest of the decrypted
server DH answer: when `AES256IGE_decrypt` is replaced by a function that reports
the same errors and whose plaintexts are either the same or have at least 20
bytes and agree from offset 20 on, `Handshake` makes the same calls in the same
order (so sends the same packets), returns the same result and leaves the same
session. -/
theorem digest_not_verified (E : Env)
    (dec : List Byte → List Byte → List Byte → List Byte × Option Error) (m : MTProto)
    (hd : ∀ d key iv, (dec d key iv).2 = (E.AES256IGE_decrypt d key iv).2 ∧
      ((dec d key iv).1 = (E.AES256IGE_decrypt d key iv).1 ∨
        sameAfterDigest (dec d key iv).1 (E.AES256IGE_decrypt d key iv).1)) :
    (Handshake (withDecrypt E dec) m).trace = (Handshake E m).trace ∧
    (Handshake (withDecrypt E dec) m).outcome = (Handshake E m).outcome ∧
    (Handshake (withDecrypt E dec) m).m = (Handshake E m).m := by
  rw [Handshake_withDecrypt E dec m hd]
  exact ⟨rfl, rfl, rfl⟩

theorem demoOtherDigest_same (d key iv : List Byte) :
    (demoOtherDigest d key iv).2 = (demoEnv.AES256IGE_decrypt d key iv).2 ∧
      ((demoOtherDigest d key iv).1 = (demoEnv.AES256IGE_decrypt d key iv).1 ∨
        sameAfterDigest (demoOtherDigest d key iv).1 (demoEnv.AES256IGE_decrypt d key iv).1) := by
  unfold demoOtherDigest
  by_cases h : 20 ≤ d.length
  · rw [if_pos h]
    refine ⟨rfl, Or.inr ⟨?_, h, ?_⟩⟩
    · simp
    · show (List.replicate 20 (0x5A : Byte) ++ d.drop 20).drop 20 = d.drop 20
      rw [List.drop_left' (List.length_replicate _ _)]
  · rw [if_neg h]
    exact ⟨rfl, Or.inl rfl⟩

theorem digest_not_verified_witness :
    (demoOtherDigest (List.replicate 20 0 ++ [3]) [] []).1 ≠
      (demoEnv.AES256IGE_decrypt (List.replicate 20 0 ++ [3]) [] []).1 ∧
    (Handshake (withDecrypt demoEnv demoOtherDigest) demoHonest).trace =
      (Handshake demoEnv demoHonest).trace ∧
    (Handshake (withDecrypt demoEnv demoOtherDigest) demoHonest).outcome =
      (Handshake demoEnv demoHonest).outcome ∧
    (Handshake (withDecrypt demoEnv demoOtherDigest) demoHonest).m =
      (Handshake demoEnv demoHonest).m :=
  ⟨by decide, digest_not_verified demoEnv demoOtherDigest demoHonest demoOtherDigest_same⟩

/-! ## Partial header reads and the zero shared secret -/

/-- C18, as the code has it. For the shared secret 0, `g_ab.Bytes()` is the empty
slice, so `authKey[0]` is out of range both in `Handshake` (line 207) and in
`setGAB` (line 334); a peer that sends `g_a = 0` makes `MakeGAB` return 0 and
`Handshake` panic. -/
theorem zero_secret_panics :
    bigBytes 0 = [] ∧ authKeyOf? 0 = none ∧ (∀ E m, (setGAB E 0 m).2 = false) ∧
    (decodedResponses (Handshake demoEnv demoZeroSecret).trace)[2]? =
      some (TLData.server_DH_inner_data ⟨List.replicate 16 1, List.replicate 16 0xAA, 2, 23, 0⟩) ∧
    (demoEnv.MakeGAB 2 0 23).2.2 = 0 ∧
    (Handshake demoEnv demoZeroSecret).outcome = Outcome.panic :=
  ⟨rfl, rfl, fun _ _ => rfl, by decide, by decide, by decide⟩

/-- C15, as the code has it. The same byte stream (a 1024-byte plain frame behind
the header `7F 00 01 00`) under two error-free chunkings: with whole reads the
frame size is 1024 and `Read` returns `nil`; when the read of the three further
header bytes returns one byte, the frame size is 0 and `Read` returns the
too-small error. -/
theorem split_header_changes_frame :
    demoWholeReads.conn.input = demoSplitHeader.conn.input ∧
    noFail demoWholeReads.conn.sched = true ∧ noFail demoSplitHeader.conn.sched = true ∧
    (readFrame demoWholeReads).1.size = 1024 ∧ (readFrame demoSplitHeader).1.size = 0 ∧
    (readFrame demoWholeReads).1.buf ≠ (readFrame demoSplitHeader).1.buf ∧
    (Read demoEnv demoWholeReads).2 = none ∧
    (Read demoEnv demoSplitHeader).2 = some (Error.tooSmall 0) :=
  ⟨rfl, by decide, by decide, by decide, by decide, by decide, by decide, by decide⟩

end Mtproto
